import Mathlib

/-!
# RaZ: geometric core, shallow embedding

Embedding of the mesh generators and bounding volume code of
`src/RaZ/Render/MeshShape.cpp`, of the vector kernel of
`include/RaZ/Math/Vector.inl`, of the shape predicates exercised by
`tests/RaZ/Utils/Shape.cpp`, of the camera of `src/RaZ/Render/Camera.cpp` and of the
OFF importer of `src/RaZ/Utils/OffImporter.cpp`.

Conventions.
* `float` scalars are idealised as the elements of a linearly ordered field `α`
  (exact arithmetic, no rounding, no NaN and no infinities); every definition is
  computable and can be run at `α := ℚ`.
* `uint32_t` and `unsigned int` values are natural numbers below `U32`, and every
  arithmetic operation the source performs on them is reduced modulo `U32`.
* `std::vector` is `List`; `reserve` has no observable effect and is left out, as
  are the calls to the graphics card (`load`, `setRenderMode`).
* A `for` loop whose condition is `i <= count` on an unsigned counter may not
  terminate; it is run with a fuel argument and returns `none` when the fuel
  runs out.
* A division is that of the field, where a division by zero gives zero; the source gets
  an infinity or a NaN there. `Vector.normalizeChecked` and `Camera.computeLookAtChecked`
  return `none` instead of dividing by a zero length.
* The one overflow of `float` that is modelled is that of the squared length in
  `Vector::normalize`: `Vector.normalizeFloat` is the zero vector from an exact squared
  length of twice `max()` on.
* A file is the list of the tokens `operator>>` meets; a failed extraction and an access
  out of a `std::vector` give `none`.
-/

namespace Raz

/-! ## Machine integers and loops -/

/-- Number of values of a 32-bit unsigned integer (`uint32_t`, `unsigned int`). -/
def U32 : Nat := 4294967296

/-- The loop `for (unsigned int i = start; i <= count; ++i) body`, the counter wrapping
modulo `U32`. `fuel` bounds the number of times the condition is evaluated. -/
def forLe {σ : Type} (count : Nat) (body : Nat → σ → Option σ) :
    Nat → Nat → σ → Option σ
  | 0, _, _ => none
  | fuel + 1, i, s =>
    if i ≤ count then (body i s).bind (forLe count body fuel ((i + 1) % U32)) else some s

/-- The loop `for (unsigned int i = 0; i < count; ++i) body`; it always terminates, the
counter never wraps. -/
def forLt {σ : Type} (count : Nat) (body : Nat → σ → σ) (s : σ) : σ :=
  (List.range count).foldl (fun acc i => body i acc) s

/-- The loop `for (unsigned int i = start; i < bound; ++i) body`. -/
def forFromLt {σ : Type} (start bound : Nat) (body : Nat → σ → σ) (s : σ) : σ :=
  (List.range' start (bound - start)).foldl (fun acc i => body i acc) s

/-! ## Vectors (`Vector<T, Size>`, `Vector.inl`) -/

/-- The type `Vector<T, Size>`: `Size` scalars, `v i` is `m_data[i]`. -/
abbrev Vector (α : Type) (n : Nat) := Fin n → α

/-- The type `Vec2f`. -/
abbrev Vec2f (α : Type) := Vector α 2

/-- The type `Vec3f`. -/
abbrev Vec3f (α : Type) := Vector α 3

/-- The functions of `<cmath>` and the constants of `RaZ/Math/Constants.hpp` the code
calls; they are parameters of the embedding. -/
structure FloatMath (α : Type) where
  /-- The function `std::sqrt` -/
  sqrt : α → α
  /-- The function `std::cos` -/
  cos : α → α
  /-- The function `std::sin` -/
  sin : α → α
  /-- The function `std::tan` -/
  tan : α → α
  /-- The function `std::atan2` -/
  atan2 : α → α → α
  /-- The constant `Pi<float>` -/
  pi : α
  /-- The constant `GoldenRatio<float>` -/
  golden : α

section Kernel

variable {α : Type} [LinearOrderedField α]

/-- The function `Vector(T val)`: every element is `val`. -/
def Vector.fill {n : Nat} (val : α) : Vector α n := fun _ => val

/-- The operators `operator+=(const Vector&)` / `operator+`. -/
def Vector.add {n : Nat} (a b : Vector α n) : Vector α n := fun i => a i + b i

/-- The operators `operator-=(const Vector&)` / `operator-`. -/
def Vector.sub {n : Nat} (a b : Vector α n) : Vector α n := fun i => a i - b i

/-- The operators `operator*=(float)` / `operator*(float)`. -/
def Vector.scale {n : Nat} (a : Vector α n) (val : α) : Vector α n := fun i => a i * val

/-- The operators `operator/=(float)` / `operator/(float)`. -/
def Vector.divScalar {n : Nat} (a : Vector α n) (val : α) : Vector α n := fun i => a i / val

/-- Unary `operator-`. -/
def Vector.neg {n : Nat} (a : Vector α n) : Vector α n := fun i => - a i

/-- The function `Vector::dot`: `res = 0; for i < Size: res += m_data[i] * vec[i]`. -/
def Vector.dot {n : Nat} (a b : Vector α n) : α :=
  Fin.foldl n (fun res i => res + a i * b i) 0

/-- The function `Vector::cross` (three-dimensional only). -/
def Vector.cross (a b : Vec3f α) : Vec3f α :=
  ![a 1 * b 2 - a 2 * b 1, -(a 0 * b 2 - a 2 * b 0), a 0 * b 1 - a 1 * b 0]

/-- Modelled from the spec: `Vector::computeLength` is declared in `Vector.hpp`, which is
not part of the sources; it is the Euclidean length, the square root of the dot product of
the vector with itself. -/
def Vector.computeLength {n : Nat} (fm : FloatMath α) (a : Vector α n) : α :=
  fm.sqrt (Vector.dot a a)

/-- The function `Vector::normalize`: `res = *this; res /= computeLength();`. -/
def Vector.normalize {n : Nat} (fm : FloatMath α) (a : Vector α n) : Vector α n :=
  Vector.divScalar a (Vector.computeLength fm a)

end Kernel

/-! ## Vertices, submeshes, meshes -/

/-- The type `struct Vertex` (`GraphicObjects.hpp`). -/
structure Vertex (α : Type) where
  position : Vec3f α
  texcoords : Vec2f α
  normal : Vec3f α
  tangent : Vec3f α

/-- The type `Sphere`: centre and radius. -/
structure Sphere (α : Type) where
  m_centerPos : Vec3f α
  m_radius : α

/-- The type `AABB`: the two extreme corners. -/
structure AABB (α : Type) where
  m_leftBottomBackPos : Vec3f α
  m_rightTopFrontPos : Vec3f α

/-- The type `Submesh`: the vertex list of its vertex buffer and the index list of its element
buffer (the buffer handles of the graphics card are left out). -/
structure Submesh (α : Type) where
  m_vertices : List (Vertex α)
  m_indices : List Nat
  m_materialIndex : Nat

/-- The function `Submesh()`: created empty. -/
def Submesh.empty (α : Type) : Submesh α := ⟨[], [], 0⟩

/-- The type `Mesh`: its submeshes and the bounding box computed last. -/
structure Mesh (α : Type) where
  m_submeshes : List (Submesh α)
  m_boundingBox : AABB α

/-- The type `SphereMeshType`. -/
inductive SphereMeshType where
  | UV
  | ICO
  deriving DecidableEq, Repr

section Generators

variable {α : Type} [LinearOrderedField α]

/-! ### UV sphere (`Mesh::createUvSphere`) -/

/-- The vertex built by the body of the inner vertex loop of `createUvSphere` for the
indices `heightIndex` and `widthIndex`. A division by zero gives `0` here, where the
source gets an infinity or a NaN. -/
def uvSphereVertex (fm : FloatMath α) (sphere : Sphere α) (widthCount heightCount : Nat)
    (heightIndex widthIndex : Nat) : Vertex α :=
  let widthStep : α := 2 * fm.pi / (widthCount : α)
  let heightStep : α := fm.pi / (heightCount : α)
  let invLength : α := 1 / sphere.m_radius
  let center := sphere.m_centerPos
  let heightAngle : α := fm.pi / 2 - (heightIndex : α) * heightStep
  let xz : α := sphere.m_radius * fm.cos heightAngle
  let y : α := sphere.m_radius * fm.sin heightAngle
  let widthAngle : α := (widthIndex : α) * widthStep
  let x : α := xz * fm.cos widthAngle
  let z : α := xz * fm.sin widthAngle
  let normal : Vec3f α := ![x * invLength, y * invLength, z * invLength]
  { position := ![x + center 0, y + center 1, z + center 2]
    texcoords := ![(widthIndex : α) / (widthCount : α), (heightIndex : α) / (heightCount : α)]
    normal := normal
    tangent := ![normal 1, normal 0, normal 2] }

/-- Lines 321-342: the two nested `<=` loops that `emplace_back` one vertex per pair
of indices. -/
def uvSphereVertices (fuel : Nat) (fm : FloatMath α) (sphere : Sphere α)
    (widthCount heightCount : Nat) (vertices : List (Vertex α)) : Option (List (Vertex α)) :=
  forLe heightCount
    (fun heightIndex vs =>
      forLe widthCount
        (fun widthIndex ws =>
          some (ws ++ [uvSphereVertex fm sphere widthCount heightCount heightIndex widthIndex]))
        fuel 0 vs)
    fuel 0 vertices

/-- Lines 347-354, "Upper circle". -/
def uvUpperCircle (widthCount : Nat) (indices : List Nat) : List Nat :=
  forLt widthCount
    (fun widthIndex ind =>
      let widthStride := (widthCount + widthIndex) % U32
      ind ++ [(widthIndex + 1) % U32, (widthStride + 1) % U32, (widthStride + 2) % U32])
    indices

/-- State of the loops that step `curHeightStride` and `nextHeightStride` along. -/
structure StrideState where
  curHeightStride : Nat
  nextHeightStride : Nat
  indices : List Nat

/-- Body and increment of the inner loop of lines 360-368. -/
def uvMiddleCell (st : StrideState) : StrideState :=
  { curHeightStride := (st.curHeightStride + 1) % U32
    nextHeightStride := (st.nextHeightStride + 1) % U32
    indices := st.indices ++
      [st.curHeightStride, st.nextHeightStride, (st.curHeightStride + 1) % U32,
       (st.curHeightStride + 1) % U32, st.nextHeightStride, (st.nextHeightStride + 1) % U32] }

/-- One pass of the outer loop of lines 356-369 for the row `heightIndex`. -/
def uvMiddleRow (widthCount heightIndex : Nat) (indices : List Nat) : List Nat :=
  let curHeightStride := (heightIndex * ((widthCount + 1) % U32)) % U32
  let nextHeightStride := (((curHeightStride + widthCount) % U32) + 1) % U32
  (forLt widthCount (fun _ st => uvMiddleCell st)
    ⟨curHeightStride, nextHeightStride, indices⟩).indices

/-- Lines 356-369: `for (heightIndex = 1; heightIndex < heightCount - 1; ++heightIndex)`,
the bound computed on `uint32_t`. -/
def uvMiddleRows (widthCount heightCount : Nat) (indices : List Nat) : List Nat :=
  forFromLt 1 ((heightCount + (U32 - 1)) % U32)
    (fun heightIndex ind => uvMiddleRow widthCount heightIndex ind) indices

/-- Body and increment of the loop of lines 376-380. -/
def uvLowerCell (st : StrideState) : StrideState :=
  { curHeightStride := (st.curHeightStride + 1) % U32
    nextHeightStride := (st.nextHeightStride + 1) % U32
    indices := st.indices ++
      [st.curHeightStride, st.nextHeightStride, (st.curHeightStride + 1) % U32] }

/-- Lines 371-381, "Lower circle". -/
def uvLowerCircle (widthCount heightCount : Nat) (indices : List Nat) : List Nat :=
  let curHeightStride := (((heightCount + (U32 - 1)) % U32) * ((widthCount + 1) % U32)) % U32
  let nextHeightStride := (((curHeightStride + widthCount) % U32) + 1) % U32
  (forLt widthCount (fun _ st => uvLowerCell st)
    ⟨curHeightStride, nextHeightStride, indices⟩).indices

/-- Lines 344-382: the three index bands, pushed one after the other. -/
def uvSphereIndices (widthCount heightCount : Nat) (indices : List Nat) : List Nat :=
  uvLowerCircle widthCount heightCount
    (uvMiddleRows widthCount heightCount (uvUpperCircle widthCount indices))

/-- The function `Mesh::createUvSphere`, on the first submesh `m_submeshes.front()`. -/
def createUvSphere (fuel : Nat) (fm : FloatMath α) (sphere : Sphere α)
    (widthCount heightCount : Nat) (submesh : Submesh α) : Option (Submesh α) :=
  (uvSphereVertices fuel fm sphere widthCount heightCount submesh.m_vertices).map
    (fun vertices =>
      { submesh with
        m_vertices := vertices
        m_indices := uvSphereIndices widthCount heightCount submesh.m_indices })

/-! ### Icosphere (`Mesh::createIcosphere`) -/

/-- The four assignments `vertices[i].normal = Vec3f(..).normalize()`, `.position`,
`.tangent`, `.texcoords` of lines 399-457, for the direction `dir`. -/
def icoVertex (fm : FloatMath α) (radius : α) (dir : Vec3f α) : Vertex α :=
  let invFactor : α := 1 / (fm.pi * 2)
  let normal : Vec3f α := Vector.normalize fm dir
  { normal := normal
    position := Vector.scale normal radius
    tangent := ![normal 1, normal 0, normal 2]
    texcoords := ![fm.atan2 (normal 0) (normal 2) * invFactor + 1 / 2,
                   normal 1 * (1 / 2) + 1 / 2] }

/-- The twelve directions of lines 399-454, in the order of the vertex indices. -/
def icoDirections (radius goldenRadius : α) : List (Vec3f α) :=
  [ ![-radius, goldenRadius, 0], ![radius, goldenRadius, 0],
    ![-radius, -goldenRadius, 0], ![radius, -goldenRadius, 0],
    ![0, -radius, goldenRadius], ![0, radius, goldenRadius],
    ![0, -radius, -goldenRadius], ![0, radius, -goldenRadius],
    ![goldenRadius, 0, -radius], ![goldenRadius, 0, radius],
    ![-goldenRadius, 0, -radius], ![-goldenRadius, 0, radius] ]

/-- Lines 466-544: the sixty indices of the twenty faces. -/
def icoIndices : List Nat :=
  [ 0, 5, 11,   0, 1, 5,    0, 7, 1,    0, 10, 7,   0, 11, 10,
    1, 9, 5,    5, 4, 11,   11, 2, 10,  10, 6, 7,   7, 8, 1,
    3, 4, 9,    3, 2, 4,    3, 6, 2,    3, 8, 6,    3, 9, 8,
    4, 5, 9,    2, 11, 4,   6, 10, 2,   8, 7, 6,    9, 1, 8 ]

/-- The function `Mesh::createIcosphere`, on the first submesh. `vertices.resize(12)`
followed by the assignment of all four fields of each of the twelve vertices, and `indices.resize(60)`
followed by the assignment of all sixty entries, leave nothing of the former contents.
The parameter `subdivCount` is unnamed in the source; the subdivision code is commented
out. -/
def createIcosphere (fm : FloatMath α) (sphere : Sphere α) (_subdivCount : Nat)
    (submesh : Submesh α) : Submesh α :=
  let radius := sphere.m_radius
  let goldenRadius := radius * fm.golden
  let vertices := (icoDirections radius goldenRadius).map (icoVertex fm radius)
  { submesh with
    m_vertices := vertices.map
      (fun vertex => { vertex with position := Vector.add vertex.position sphere.m_centerPos })
    m_indices := icoIndices }

/-! ### Mesh constructors -/

/-- Modelled from the spec: `Mesh()` is defined in `Mesh.hpp`, which is not part of the
sources. The constructors of `MeshShape.cpp` delegate to it and then fill
`m_submeshes.front()`: it leaves one submesh, "created empty". The bounding box is taken
as the box with both corners at the origin. -/
def Mesh.init (α : Type) [LinearOrderedField α] : Mesh α :=
  { m_submeshes := [Submesh.empty α]
    m_boundingBox := ⟨Vector.fill 0, Vector.fill 0⟩ }

/-- Apply `f` to `m_submeshes.front()`; `front()` of an empty `std::vector` is undefined
and gives `none`. -/
def Mesh.onFront (f : Submesh α → Option (Submesh α)) (mesh : Mesh α) : Option (Mesh α) :=
  match mesh.m_submeshes with
  | [] => none
  | first :: rest => (f first).map (fun s => { mesh with m_submeshes := s :: rest })

/-- The function `Mesh::Mesh(const Sphere&, uint32_t subdivCount, SphereMeshType, RenderMode)`. -/
def Mesh.mkSphere (fuel : Nat) (fm : FloatMath α) (sphere : Sphere α) (subdivCount : Nat)
    (type : SphereMeshType) : Option (Mesh α) :=
  match type with
  | SphereMeshType.UV =>
    Mesh.onFront (createUvSphere fuel fm sphere subdivCount subdivCount) (Mesh.init α)
  | SphereMeshType.ICO =>
    Mesh.onFront (fun s => some (createIcosphere fm sphere subdivCount s)) (Mesh.init α)

/-! ### Bounding box (`Mesh::computeBoundingBox`) -/

/-- The constant `std::numeric_limits<float>::max()`, that is `(2 - 2^(-23)) * 2^127`. -/
def floatMax : α := 340282346638528859811704183484516925440

/-- The constant `std::numeric_limits<float>::lowest()`. -/
def floatLowest : α := -floatMax

/-- The pair `(maxPos, minPos)` after one pass of the loop body of lines 295-303 for a
submesh whose bounding box is `boundingBox`. -/
def boundingBoxStep (acc : Vec3f α × Vec3f α) (boundingBox : AABB α) : Vec3f α × Vec3f α :=
  (![max (acc.1 0) (boundingBox.m_rightTopFrontPos 0),
     max (acc.1 1) (boundingBox.m_rightTopFrontPos 1),
     max (acc.1 2) (boundingBox.m_rightTopFrontPos 2)],
   ![min (acc.2 0) (boundingBox.m_leftBottomBackPos 0),
     min (acc.2 1) (boundingBox.m_leftBottomBackPos 1),
     min (acc.2 2) (boundingBox.m_leftBottomBackPos 2)])

/-- The function `Mesh::computeBoundingBox`. `Submesh::computeBoundingBox` is not part of
the sources;
the box it returns for a submesh is the parameter `submeshBox`. The result is the mesh
with `m_boundingBox` updated, and the box returned. -/
def Mesh.computeBoundingBox (submeshBox : Submesh α → AABB α) (mesh : Mesh α) :
    Mesh α × AABB α :=
  let acc := mesh.m_submeshes.foldl
    (fun acc submesh => boundingBoxStep acc (submeshBox submesh))
    ((Vector.fill floatLowest : Vec3f α), (Vector.fill floatMax : Vec3f α))
  let box : AABB α := ⟨acc.2, acc.1⟩
  ({ mesh with m_boundingBox := box }, box)

/-- Modelled from the spec: `Submesh::computeBoundingBox` (not part of the sources),
"Submesh-level AABB = min/max reduction over all vertex positions", written as
`Mesh::computeBoundingBox` is: each vertex position extends the running corners. -/
def Submesh.computeBoundingBox (submesh : Submesh α) : AABB α :=
  let acc := submesh.m_vertices.foldl
    (fun acc vertex => boundingBoxStep acc ⟨vertex.position, vertex.position⟩)
    ((Vector.fill floatLowest : Vec3f α), (Vector.fill floatMax : Vec3f α))
  ⟨acc.2, acc.1⟩

end Generators

/-! ## Shapes (`RaZ/Utils/Shape.hpp`)

`Shape.cpp` is not part of the sources, only its tests are
(`tests/RaZ/Utils/Shape.cpp`); the predicates below follow the specification. -/

/-- The type `Line`: a segment given by its two end points. -/
structure Line (α : Type) where
  m_beginPos : Vec3f α
  m_endPos : Vec3f α

/-- The type `Plane`: signed distance from the origin along the normal, and the normal. -/
structure Plane (α : Type) where
  m_distance : α
  m_normal : Vec3f α

/-- The type `Triangle`: three ordered positions. -/
structure Triangle (α : Type) where
  m_firstPos : Vec3f α
  m_secondPos : Vec3f α
  m_thirdPos : Vec3f α

/-- State of the slab method: the running interval of the parameter `t`. -/
inductive SlabRange (α : Type) where
  /-- an axis the segment is parallel to has the segment outside its slab -/
  | rejected : SlabRange α
  /-- no axis has constrained `t` so far -/
  | unconstrained : SlabRange α
  /-- the running interval `[tMin, tMax]` -/
  | range (tMin tMax : α) : SlabRange α

/-- The pair of vertices `makeCounterClockwise` exchanges; the specification does not say
which one it is. -/
inductive VertexSwap where
  | firstSecond
  | secondThird
  | firstThird
  deriving DecidableEq, Repr

section Shapes

variable {α : Type} [LinearOrderedField α]

/-- Modelled from the spec: `AABB::computeCentroid` (absent `Shape.cpp`), "centroid =
midpoint" of the two corners. -/
def AABB.computeCentroid (box : AABB α) : Vec3f α :=
  Vector.divScalar (Vector.add box.m_leftBottomBackPos box.m_rightTopFrontPos) 2

/-- Modelled from the spec: `AABB::contains` (absent `Shape.cpp`), "a point is contained
iff every axis coordinate lies within [min,max] inclusive on both ends". -/
def AABB.contains (box : AABB α) (point : Vec3f α) : Bool :=
  decide
    ((box.m_leftBottomBackPos 0 ≤ point 0 ∧ point 0 ≤ box.m_rightTopFrontPos 0) ∧
     (box.m_leftBottomBackPos 1 ≤ point 1 ∧ point 1 ≤ box.m_rightTopFrontPos 1) ∧
     (box.m_leftBottomBackPos 2 ≤ point 2 ∧ point 2 ≤ box.m_rightTopFrontPos 2))

/-- The parameter `t` at which `Line::intersects(Plane)` finds the crossing:
`(plane.distance - dot(normal, start)) / dot(normal, end - start)`. -/
def Line.planeParam (line : Line α) (plane : Plane α) : α :=
  (plane.m_distance - Vector.dot plane.m_normal line.m_beginPos) /
    Vector.dot plane.m_normal (Vector.sub line.m_endPos line.m_beginPos)

/-- Modelled from the spec: `Line::intersects(const Plane&)` (absent `Shape.cpp`). "Let
d = end − start; denom = dot(plane.normal, d). If |denom| is below a small numeric epsilon,
line and plane are parallel → no intersection. Otherwise compute t = (plane.distance −
dot(normal, start)) / denom; intersects iff t lies within a tolerance of [0,1]." The
specification gives no value for the epsilon nor for the tolerance; they are the
parameters `epsilon` and `tolerance`. -/
def Line.intersectsPlane (epsilon tolerance : α) (line : Line α) (plane : Plane α) : Bool :=
  let d := Vector.sub line.m_endPos line.m_beginPos
  let denom := Vector.dot plane.m_normal d
  if |denom| < epsilon then false
  else
    let t := (plane.m_distance - Vector.dot plane.m_normal line.m_beginPos) / denom
    decide (-tolerance ≤ t ∧ t ≤ 1 + tolerance)

/-- One axis of the slab method, for a segment starting at `start` with direction
component `dir` and the slab `[lo, hi]`: a zero direction component rejects the segment if
its fixed coordinate is outside the slab and leaves `t` unconstrained otherwise; a non-zero
one intersects the running interval with the entry and exit parameters, computed with the
inverse of the direction component. -/
def slabAxis (start dir lo hi : α) (acc : SlabRange α) : SlabRange α :=
  match acc with
  | SlabRange.rejected => SlabRange.rejected
  | SlabRange.unconstrained =>
    if dir = 0 then
      if start < lo ∨ hi < start then SlabRange.rejected else SlabRange.unconstrained
    else
      let invDir := 1 / dir
      let t1 := (lo - start) * invDir
      let t2 := (hi - start) * invDir
      SlabRange.range (min t1 t2) (max t1 t2)
  | SlabRange.range tMin tMax =>
    if dir = 0 then
      if start < lo ∨ hi < start then SlabRange.rejected else SlabRange.range tMin tMax
    else
      let invDir := 1 / dir
      let t1 := (lo - start) * invDir
      let t2 := (hi - start) * invDir
      SlabRange.range (max tMin (min t1 t2)) (min tMax (max t1 t2))

/-- The running interval after the three axes. -/
def Line.slabRange (line : Line α) (box : AABB α) : SlabRange α :=
  let d := Vector.sub line.m_endPos line.m_beginPos
  let lo := box.m_leftBottomBackPos
  let hi := box.m_rightTopFrontPos
  slabAxis (line.m_beginPos 2) (d 2) (lo 2) (hi 2)
    (slabAxis (line.m_beginPos 1) (d 1) (lo 1) (hi 1)
      (slabAxis (line.m_beginPos 0) (d 0) (lo 0) (hi 0) SlabRange.unconstrained))

/-- Modelled from the spec: `Line::intersects(const AABB&)` (absent `Shape.cpp`), "slab
method. For each axis, compute entry/exit parametric t using the inverse direction
component; handle zero-direction components as parallel to slab (reject if the line's fixed
coordinate on that axis lies outside the slab bounds, else unconstrained on that axis);
maintain running [tMin,tMax] intersection across axes; intersects iff final tMin ≤ tMax and
the overlap falls within the segment's parametric range [0,1]". -/
def Line.intersectsAABB (line : Line α) (box : AABB α) : Bool :=
  match Line.slabRange line box with
  | SlabRange.rejected => false
  | SlabRange.unconstrained => true
  | SlabRange.range tMin tMax => decide (tMin ≤ tMax ∧ tMin ≤ 1 ∧ 0 ≤ tMax)

/-- The values of the parameter `t` a running interval allows. -/
def SlabRange.admits (r : SlabRange α) (t : α) : Prop :=
  match r with
  | SlabRange.rejected => False
  | SlabRange.unconstrained => True
  | SlabRange.range tMin tMax => tMin ≤ t ∧ t ≤ tMax

/-- The point `start + t * (end - start)` of the segment. -/
def Line.pointAt (line : Line α) (t : α) : Vec3f α :=
  Vector.add line.m_beginPos (Vector.scale (Vector.sub line.m_endPos line.m_beginPos) t)

/-- Modelled from the spec: `Plane::intersects(const Plane&)` (absent `Shape.cpp`). "The
predicate returns false when the two planes are parallel (cross product of normals ≈ zero
vector) AND not coincident, and also returns false when a plane is compared against
itself"; "two non-identical, non-parallel planes always intersect". Both situations that
return false have the cross product of the normals within the tolerance of the zero vector;
the model returns false exactly then. The tolerance of `≈` is the parameter `epsilon`,
applied to each component. -/
def Plane.intersects (epsilon : α) (plane other : Plane α) : Bool :=
  let c := Vector.cross plane.m_normal other.m_normal
  !(decide (|c 0| < epsilon ∧ |c 1| < epsilon ∧ |c 2| < epsilon))

/-- Modelled from the spec: the triangle normal of the winding rule (absent `Shape.cpp`),
"normal = cross(v1−v0, v2−v0)", not normalized. -/
def Triangle.computeNormal (triangle : Triangle α) : Vec3f α :=
  Vector.cross (Vector.sub triangle.m_secondPos triangle.m_firstPos)
    (Vector.sub triangle.m_thirdPos triangle.m_firstPos)

/-- Modelled from the spec: `Triangle::isCounterClockwise` (absent `Shape.cpp`),
"determined by the sign of dot(normal, axis) — positive means the triangle winds
counter-clockwise when viewed from the axis direction". -/
def Triangle.isCounterClockwise (triangle : Triangle α) (axis : Vec3f α) : Bool :=
  decide (0 < Vector.dot (Triangle.computeNormal triangle) axis)

/-- The three vertices of a triangle, in order. -/
def Triangle.vertices (triangle : Triangle α) : List (Vec3f α) :=
  [triangle.m_firstPos, triangle.m_secondPos, triangle.m_thirdPos]

/-- Exchange of two vertices of a triangle. -/
def Triangle.swapVertices (sw : VertexSwap) (triangle : Triangle α) : Triangle α :=
  match sw with
  | VertexSwap.firstSecond =>
    ⟨triangle.m_secondPos, triangle.m_firstPos, triangle.m_thirdPos⟩
  | VertexSwap.secondThird =>
    ⟨triangle.m_firstPos, triangle.m_thirdPos, triangle.m_secondPos⟩
  | VertexSwap.firstThird =>
    ⟨triangle.m_thirdPos, triangle.m_secondPos, triangle.m_firstPos⟩

/-- Modelled from the spec: `Triangle::makeCounterClockwise` (absent `Shape.cpp`), "swaps
two vertices to flip winding if the current winding does not match the requested reference
axis". -/
def Triangle.makeCounterClockwise (sw : VertexSwap) (triangle : Triangle α)
    (axis : Vec3f α) : Triangle α :=
  if Triangle.isCounterClockwise triangle axis then triangle
  else Triangle.swapVertices sw triangle

end Shapes

/-! ## Vector construction, matrices and hashing (`Vector.inl`, `GraphicObjects.hpp`) -/

/-- The constructor `Vector(std::initializer_list<T> list)`. The `assert` is taken as
enabled: a list whose size differs from `Size` produces no vector. Otherwise the loop
`for (i = 0; i < list.size(); ++i, ++element) m_data[i] = *element` runs on the array
`m_data`; `init` is the contents of `m_data` before the loop (its declaration is in
`Vector.hpp`, which is not part of the sources). -/
def Vector.ofInitializerList {T : Type} {n : Nat} (init : Vector T n) (list : List T) :
    Option (Vector T n) :=
  if h : n = list.length then
    some (Fin.foldl list.length
      (fun data i => Function.update data (Fin.cast h.symm i) (list.get i)) init)
  else none

/-- The type `Matrix<T, W, H>`: row-major flat store of `W * H` scalars, `H` rows of `W`
entries; `mat k` is `mat[k]`. -/
abbrev Matrix (α : Type) (W H : Nat) := Fin (W * H) → α

/-- The type `Mat4f`. -/
abbrev Mat4f (α : Type) := Matrix α 4 4

/-- The flat index `heightIndex * W + widthIndex` of the entry in row `heightIndex` and
column `widthIndex`. -/
def Matrix.flatIndex {W H : Nat} (heightIndex : Fin H) (widthIndex : Fin W) : Fin (W * H) :=
  ⟨heightIndex.val * W + widthIndex.val, by
    have h1 : heightIndex.val * W + widthIndex.val < (heightIndex.val + 1) * W := by
      rw [Nat.add_mul, Nat.one_mul]
      exact Nat.add_lt_add_left widthIndex.isLt _
    have h2 : (heightIndex.val + 1) * W ≤ H * W := Nat.mul_le_mul_right W heightIndex.isLt
    rw [Nat.mul_comm W H]
    exact Nat.lt_of_lt_of_le h1 h2⟩

/-- The number of values of a `std::size_t` of `w` bits. -/
def sizeMod (w : Nat) : Nat := 2 ^ w

/-- One pass of the loop of `Vector::hash`:
`seed ^= std::hash<T>()(elt) + 0x9e3779b9 + (seed << 6) + (seed >> 2)`, each operation on
`std::size_t`, that is reduced modulo `sizeMod w`; `eltHash` is `std::hash<T>()(elt)`. -/
def hashCombine (w : Nat) (eltHash seed : Nat) : Nat :=
  seed ^^^ ((((eltHash + 0x9e3779b9) % sizeMod w + (seed <<< 6) % sizeMod w) % sizeMod w
    + (seed >>> 2)) % sizeMod w)

/-- The function `Vector::hash(std::size_t seed)`: the range-for loop over `m_data`;
`stdHash` is `std::hash<T>()`. -/
def Vector.hash {T : Type} {n : Nat} (w : Nat) (stdHash : T → Nat) (v : Vector T n)
    (seed : Nat) : Nat :=
  Fin.foldl n (fun acc i => hashCombine w (stdHash (v i)) acc) seed

/-- The mixing step in the words of the specification: `seed XOR (hash(elt) + 0x9e3779b9 +
(seed << 6) + (seed >> 2))`, the sum taken modulo `2 ^ w`. -/
def specHashStep {T : Type} (w : Nat) (stdHash : T → Nat) (seed : Nat) (elt : T) : Nat :=
  seed ^^^ ((stdHash elt + 0x9e3779b9 + (seed <<< 6) + (seed >>> 2)) % 2 ^ w)

/-- The hash in the words of the specification: the left-to-right fold of the mixing step
over a sequence of elements, from the seed supplied. -/
def specHashFold {T : Type} (w : Nat) (stdHash : T → Nat) (elts : List T) (seed : Nat) : Nat :=
  elts.foldl (specHashStep w stdHash) seed

/-- The function `Vertex::operator()()`:
`tangent.hash(normal.hash(texcoords.hash(position.hash(0))))`. -/
def Vertex.hash {α : Type} (w : Nat) (stdHash : α → Nat) (vert : Vertex α) : Nat :=
  Vector.hash w stdHash vert.tangent
    (Vector.hash w stdHash vert.normal
      (Vector.hash w stdHash vert.texcoords
        (Vector.hash w stdHash vert.position 0)))

/-- The eleven scalars of a vertex in the order position, texcoords, normal, tangent. -/
def Vertex.scalars {α : Type} (vert : Vertex α) : List α :=
  [vert.position 0, vert.position 1, vert.position 2,
   vert.texcoords 0, vert.texcoords 1,
   vert.normal 0, vert.normal 1, vert.normal 2,
   vert.tangent 0, vert.tangent 1, vert.tangent 2]

/-- Modelled from the spec: `Vector::operator==` is declared in `Vector.hpp`, which is not
part of the sources; "equality is exact component comparison". -/
def Vector.equals {T : Type} [DecidableEq T] {n : Nat} (a b : Vector T n) : Bool :=
  decide (∀ i : Fin n, a i = b i)

/-- The function `Vertex::operator==`: the conjunction of the four field comparisons. -/
def Vertex.equals {α : Type} [DecidableEq α] (a b : Vertex α) : Bool :=
  Vector.equals a.position b.position
    && Vector.equals a.texcoords b.texcoords
    && Vector.equals a.normal b.normal
    && Vector.equals a.tangent b.tangent

section MatrixKernel

variable {α : Type} [LinearOrderedField α]

/-- The function `Vector::operator*(const Matrix<T, Size, H>&)`: `res` starts at zero and
`res[widthIndex] += m_data[heightIndex] * mat[heightIndex * Size + widthIndex]` runs for
every `heightIndex < H`, for each `widthIndex < Size`. The source reads `m_data` out of
bounds when `H` exceeds `Size`; the embedding takes `H ≤ Size`. -/
def Vector.mulMatrix {Size H : Nat} (hH : H ≤ Size) (v : Vector α Size)
    (mat : Matrix α Size H) : Vector α Size :=
  fun widthIndex =>
    Fin.foldl H
      (fun acc heightIndex =>
        acc + v (Fin.castLE hH heightIndex) * mat (Matrix.flatIndex heightIndex widthIndex))
      0

/-- Modelled from the spec: the identity matrix (`Matrix.hpp` is not part of the sources)
in the "row-major flat store of W×H scalars": the entry of flat index `k` is in row `k / n`
and column `k % n`, and is one where they agree, zero elsewhere. -/
def Matrix.identity (n : Nat) : Matrix α n n :=
  fun k => if k.val / n = k.val % n then 1 else 0

end MatrixKernel

/-! ## Camera (`Camera.hpp`, `Camera.cpp`) -/

/-- The state of a `Transform` that `Camera.cpp` reads: position and rotation
(`Transform.hpp` is not part of the sources). -/
structure Transform (α : Type) where
  m_position : Vec3f α
  m_rotation : Mat4f α

/-- The class `Camera : public Transform`. -/
structure Camera (α : Type) extends Transform α where
  m_frameRatio : α
  m_fieldOfView : α
  m_nearPlane : α
  m_farPlane : α
  m_viewMat : Mat4f α
  m_invViewMat : Mat4f α
  m_projMat : Mat4f α
  m_invProjMat : Mat4f α

/-- The functions of `Transform.hpp` and `Matrix.hpp` that `Camera.cpp` calls; they are
not part of the sources and are parameters of the embedding. The three operations of
`Transform` act on the position and rotation state. -/
structure TransformOps (α : Type) where
  /-- The function `Transform::move(const Vec3f&)` -/
  move : Transform α → Vec3f α → Transform α
  /-- The function `Transform::translate(float, float, float)` -/
  translate : Transform α → α → α → α → Transform α
  /-- The function `Transform::rotate(float, float, float, float)` -/
  rotate : Transform α → α → α → α → α → Transform α
  /-- The translation matrix of a translation vector -/
  translationMatrix : Vec3f α → Mat4f α
  /-- The function `Matrix::inverse` -/
  inverse : Mat4f α → Mat4f α
  /-- The operator `Matrix::operator*(const Matrix&)` -/
  mul : Mat4f α → Mat4f α → Mat4f α

section CameraModel

variable {α : Type} [LinearOrderedField α]

/-- Modelled from the spec: `Transform::computeTranslationMatrix(bool)` (in
`Transform.hpp`, not part of the sources); called with `true` it is "a translation matrix
built from the negated position". -/
def Transform.computeTranslationMatrix (ops : TransformOps α) (t : Transform α)
    (reverse : Bool) : Mat4f α :=
  ops.translationMatrix (if reverse then Vector.neg t.m_position else t.m_position)

/-- The function `Camera::computeViewMatrix`:
`m_viewMat = m_rotation.inverse() * computeTranslationMatrix(true); return m_viewMat;`.
The result is the camera afterwards and the matrix returned. -/
def Camera.computeViewMatrix (ops : TransformOps α) (cam : Camera α) : Camera α × Mat4f α :=
  let view := ops.mul (ops.inverse cam.m_rotation)
    (Transform.computeTranslationMatrix ops cam.toTransform true)
  ({ cam with m_viewMat := view }, view)

/-- The function `Camera::move(const Vec3f& displacement)`:
`Transform::move(displacement); computeViewMatrix();`. -/
def Camera.move (ops : TransformOps α) (cam : Camera α) (displacement : Vec3f α) : Camera α :=
  (Camera.computeViewMatrix ops
    { cam with toTransform := ops.move cam.toTransform displacement }).1

/-- The function `Camera::translate(float x, float y, float z)`:
`Transform::translate(x, y, z); computeViewMatrix();`. -/
def Camera.translate (ops : TransformOps α) (cam : Camera α) (x y z : α) : Camera α :=
  (Camera.computeViewMatrix ops
    { cam with toTransform := ops.translate cam.toTransform x y z }).1

/-- The function `Camera::rotate(float angle, float x, float y, float z)`:
`Transform::rotate(angle, x, y, z); computeViewMatrix();`. -/
def Camera.rotate (ops : TransformOps α) (cam : Camera α) (angle x y z : α) : Camera α :=
  (Camera.computeViewMatrix ops
    { cam with toTransform := ops.rotate cam.toTransform angle x y z }).1

/-- The overload `Camera::move(float x, float y, float z)` of `Camera.hpp`:
`move(Vec3f({ x, y, z }))`. -/
def Camera.moveXYZ (ops : TransformOps α) (cam : Camera α) (x y z : α) : Camera α :=
  Camera.move ops cam ![x, y, z]

/-- The overload `Camera::translate(const Vec3f& values)` of `Camera.hpp`:
`translate(values[0], values[1], values[2])`. -/
def Camera.translateVec (ops : TransformOps α) (cam : Camera α) (values : Vec3f α) :
    Camera α :=
  Camera.translate ops cam (values 0) (values 1) (values 2)

/-- The stored view matrix is `rotation.inverse() * translationMatrix(-position)` of the
stored position and rotation. -/
def Camera.viewIsCurrent (ops : TransformOps α) (cam : Camera α) : Prop :=
  cam.m_viewMat
    = ops.mul (ops.inverse cam.m_rotation) (ops.translationMatrix (Vector.neg cam.m_position))

end CameraModel

/-! ## Camera: construction, look-at and projection (`Camera.cpp`) -/

section CameraMatrices

variable {α : Type} [LinearOrderedField α]

/-- Modelled from the spec: the constructor of `Mat4f` from four rows of four values
(`Matrix.hpp` is not part of the sources), in the "row-major flat store": the rows one
after the other. -/
def Mat4f.ofRows (r0 r1 r2 r3 : Vector α 4) : Mat4f α :=
  ![r0 0, r0 1, r0 2, r0 3, r1 0, r1 1, r1 2, r1 3,
    r2 0, r2 1, r2 2, r2 3, r3 0, r3 1, r3 2, r3 3]

/-- The row of the entry of flat index `k` in a square matrix. -/
def Matrix.rowOf {n : Nat} (k : Fin (n * n)) : Fin n :=
  ⟨k.val / n, Nat.div_lt_of_lt_mul k.isLt⟩

/-- The column of the entry of flat index `k` in a square matrix. -/
def Matrix.colOf {n : Nat} (k : Fin (n * n)) : Fin n :=
  ⟨k.val % n, Nat.mod_lt _ (Nat.pos_of_ne_zero (fun h => absurd k.isLt (by simp [h])))⟩

/-- Modelled from the spec: the product of two square matrices in the row-major flat
store (`Matrix.hpp` is not part of the sources): the entry in row `r` and column `c` is the
sum over `j` of `a[r][j] * b[j][c]`. -/
def Matrix.mulSquare {n : Nat} (a b : Matrix α n n) : Matrix α n n :=
  fun k => ∑ j : Fin n,
    a (Matrix.flatIndex (Matrix.rowOf k) j) * b (Matrix.flatIndex j (Matrix.colOf k))

/-- The matrix `b` is the inverse of the matrix `a`: both products are the identity. -/
def Matrix.isInverseOf {n : Nat} (b a : Matrix α n n) : Prop :=
  Matrix.mulSquare a b = Matrix.identity n ∧ Matrix.mulSquare b a = Matrix.identity n

/-- The function `Camera::computePerspectiveMatrix`. The result is the camera afterwards and
the matrix returned. -/
def Camera.computePerspectiveMatrix (fm : FloatMath α) (cam : Camera α) :
    Camera α × Mat4f α :=
  let halfFovTangent := fm.tan (cam.m_fieldOfView / 2)
  let planeDist := cam.m_farPlane - cam.m_nearPlane
  let planeMult := cam.m_farPlane * cam.m_nearPlane
  let fovRatio := cam.m_frameRatio * halfFovTangent
  let proj := Mat4f.ofRows
    ![1 / fovRatio, 0, 0, 0]
    ![0, 1 / halfFovTangent, 0, 0]
    ![0, 0, cam.m_farPlane / planeDist, 1]
    ![0, 0, -planeMult / planeDist, 1]
  ({ cam with m_projMat := proj }, proj)

/-- The constructor `Camera::Camera(frameWidth, frameHeight, fieldOfViewDegrees, nearPlane,
farPlane, position)`. `base` is the object before the body runs: the default `Transform`
and the default matrices, which `Transform.hpp` and `Matrix.hpp` decide. -/
def Camera.create (ops : TransformOps α) (fm : FloatMath α) (base : Camera α)
    (frameWidth frameHeight : Nat) (fieldOfViewDegrees nearPlane farPlane : α)
    (position : Vec3f α) : Camera α :=
  let cam0 : Camera α :=
    { base with
      m_frameRatio := (frameWidth : α) / (frameHeight : α)
      m_fieldOfView := fieldOfViewDegrees * fm.pi / 180
      m_nearPlane := nearPlane
      m_farPlane := farPlane }
  let cam1 : Camera α := { cam0 with m_position := position }
  let cam2 := (Camera.computeViewMatrix ops cam1).1
  (Camera.computePerspectiveMatrix fm cam2).1

/-- The function `Camera::computeLookAt(target, orientation)`. The result is the camera
afterwards and the matrix returned. -/
def Camera.computeLookAt (fm : FloatMath α) (cam : Camera α) (target orientation : Vec3f α) :
    Camera α × Mat4f α :=
  let zAxis := Vector.normalize fm (Vector.sub cam.m_position target)
  let xAxis := Vector.normalize fm (Vector.cross zAxis orientation)
  let yAxis := Vector.cross xAxis zAxis
  let view := Mat4f.ofRows
    ![xAxis 0, yAxis 0, -zAxis 0, 0]
    ![xAxis 1, yAxis 1, -zAxis 1, 0]
    ![xAxis 2, yAxis 2, -zAxis 2, 0]
    ![Vector.dot xAxis (Vector.neg cam.m_position),
      Vector.dot yAxis (Vector.neg cam.m_position),
      Vector.dot zAxis cam.m_position, 1]
  ({ cam with m_viewMat := view }, view)

/-- The axis "forward = normalize(position − target)" of the look-at construction, in the
words of the specification. -/
def lookAtForward (fm : FloatMath α) (position target : Vec3f α) : Vec3f α :=
  Vector.normalize fm (Vector.sub position target)

/-- The axis "right = normalize(cross(forward, up))" of the look-at construction, in the
words of the specification. -/
def lookAtRight (fm : FloatMath α) (position target up : Vec3f α) : Vec3f α :=
  Vector.normalize fm (Vector.cross (lookAtForward fm position target) up)

/-- The axis "trueUp = cross(right, forward)" of the look-at construction, in the words of
the specification. -/
def lookAtTrueUp (fm : FloatMath α) (position target up : Vec3f α) : Vec3f α :=
  Vector.cross (lookAtRight fm position target up) (lookAtForward fm position target)

/-- The vector `a.normalize()` where it is a vector of numbers: the division of a `float`
by a length that is zero gives a NaN or an infinity, which no element of the field stands
for; it is `none` here. -/
def Vector.normalizeChecked {n : Nat} (fm : FloatMath α) (a : Vector α n) :
    Option (Vector α n) :=
  if Vector.computeLength fm a = 0 then none else some (Vector.normalize fm a)

/-- The matrix of `Camera::computeLookAt(target, orientation)` where all its entries are
numbers: `none` when one of the two calls of `normalize` divides by zero. -/
def Camera.computeLookAtChecked (fm : FloatMath α) (cam : Camera α)
    (target orientation : Vec3f α) : Option (Mat4f α) :=
  (Vector.normalizeChecked fm (Vector.sub cam.m_position target)).bind (fun zAxis =>
    (Vector.normalizeChecked fm (Vector.cross zAxis orientation)).bind (fun xAxis =>
      let yAxis := Vector.cross xAxis zAxis
      some (Mat4f.ofRows
        ![xAxis 0, yAxis 0, -zAxis 0, 0]
        ![xAxis 1, yAxis 1, -zAxis 1, 0]
        ![xAxis 2, yAxis 2, -zAxis 2, 0]
        ![Vector.dot xAxis (Vector.neg cam.m_position),
          Vector.dot yAxis (Vector.neg cam.m_position),
          Vector.dot zAxis cam.m_position, 1])))

end CameraMatrices

/-! ## Index triangles and the plane patch (`MeshShape.cpp`) -/

/-- The index list cut into triples, one per triangle. -/
def trianglesOf : List Nat → List (Nat × Nat × Nat)
  | a :: b :: c :: rest => (a, b, c) :: trianglesOf rest
  | _ => []

/-- The three directed edges of an index triangle, in its winding order. -/
def faceEdges (face : Nat × Nat × Nat) : List (Nat × Nat) :=
  [(face.1, face.2.1), (face.2.1, face.2.2), (face.2.2, face.1)]

/-- The vertices of an index triangle. -/
def faceVertices (face : Nat × Nat × Nat) : List Nat :=
  [face.1, face.2.1, face.2.2]

/-- The twenty faces of the icosphere. -/
def icoFaces : List (Nat × Nat × Nat) := trianglesOf icoIndices

/-- The sixty directed edges of the faces of the icosphere. -/
def icoEdges : List (Nat × Nat) := icoFaces.flatMap faceEdges

/-- The edge `e` without its direction: the smaller end first. -/
def undirectedEdge (e : Nat × Nat) : Nat × Nat := (min e.1 e.2, max e.1 e.2)

/-- The number of faces of `faces` that have the directed edge `e`. -/
def facesWithEdge (faces : List (Nat × Nat × Nat)) (e : Nat × Nat) : Nat :=
  (faces.filter (fun face => decide (e ∈ faceEdges face))).length

/-- The number of faces of `faces` that have the vertex `v`. -/
def facesWithVertex (faces : List (Nat × Nat × Nat)) (v : Nat) : Nat :=
  (faces.filter (fun face => decide (v ∈ faceVertices face))).length

/-- The first vertex index of the row `r` of a UV sphere of `widthCount` subdivisions. -/
def uvRowStart (widthCount r : Nat) : Nat := r * (widthCount + 1)

/-- The first triangle `(cur, next, cur + 1)` of the cell pattern, on `unsigned int`. -/
def uvCellFirst (cur next : Nat) : List Nat :=
  [cur % U32, next % U32, (cur + 1) % U32]

/-- The second triangle `(cur + 1, next, next + 1)` of the cell pattern, on `unsigned int`. -/
def uvCellSecond (cur next : Nat) : List Nat :=
  [(cur + 1) % U32, next % U32, (next + 1) % U32]

section PlaneMesh

variable {α : Type} [LinearOrderedField α]

/-- The triangles of a submesh: for each triple of indices the positions of the three
vertices, or `none` when an index refers to no vertex. -/
def Submesh.triangles (submesh : Submesh α) : List (Option (Triangle α)) :=
  (trianglesOf submesh.m_indices).map (fun face =>
    match submesh.m_vertices[face.1]?, submesh.m_vertices[face.2.1]?,
      submesh.m_vertices[face.2.2]? with
    | some a, some b, some c => some ⟨a.position, b.position, c.position⟩
    | _, _, _ => none)

/-- The body of `Mesh::Mesh(const Plane&, float width, float depth, RenderMode)` on the
first submesh: `vertices.resize(4)` and `indices.resize(6)` followed by the assignment of
every element. Each corner is a value-initialised `Vertex {}` (all zero) whose position,
normal and texcoords are then set. -/
def planeSubmesh (plane : Plane α) (width depth : α) (submesh : Submesh α) : Submesh α :=
  let height : α := (Vector.scale plane.m_normal plane.m_distance) 1
  let firstCorner : Vertex α :=
    { position := ![-width, height, depth], normal := plane.m_normal
      texcoords := ![0, 0], tangent := Vector.fill 0 }
  let secondCorner : Vertex α :=
    { position := ![width, height, depth], normal := plane.m_normal
      texcoords := ![1, 0], tangent := Vector.fill 0 }
  let thirdCorner : Vertex α :=
    { position := ![width, height, -depth], normal := plane.m_normal
      texcoords := ![1, 1], tangent := Vector.fill 0 }
  let fourthCorner : Vertex α :=
    { position := ![-width, height, -depth], normal := plane.m_normal
      texcoords := ![0, 1], tangent := Vector.fill 0 }
  { submesh with
    m_vertices := [firstCorner, secondCorner, thirdCorner, fourthCorner]
    m_indices := [1, 0, 2, 2, 0, 3] }

/-- The constructor `Mesh::Mesh(const Plane&, float width, float depth, RenderMode)`. -/
def Mesh.mkPlane (plane : Plane α) (width depth : α) : Option (Mesh α) :=
  Mesh.onFront (fun s => some (planeSubmesh plane width depth s)) (Mesh.init α)

/-! ### Quad and box meshes (`Mesh::Mesh(const Quad&)`, `Mesh::Mesh(const AABB&)`) -/

/-- Modelled from the spec: the type `Quad` is declared in `Shape.hpp`, which is not part
of the sources; it is the "value type" of the four corners that the getters
`getLeftTopPos`, `getRightTopPos`, `getRightBottomPos` and `getLeftBottomPos` return. -/
structure Quad (α : Type) where
  m_leftTopPos : Vec3f α
  m_rightTopPos : Vec3f α
  m_rightBottomPos : Vec3f α
  m_leftBottomPos : Vec3f α

/-- The value-initialised vertex `Vertex {}`: the four members of `struct Vertex` have the
initialiser `{}`, all their components are zero. -/
def Vertex.init (α : Type) [LinearOrderedField α] : Vertex α :=
  ⟨Vector.fill 0, Vector.fill 0, Vector.fill 0, Vector.fill 0⟩

/-- The body of `Mesh::Mesh(const Quad&, RenderMode)` on the first submesh (lines 113-163):
four value-initialised vertices whose position, texcoords and normal are set,
`vertices.resize(4)`, `indices.resize(6)` and the assignment of every element. -/
def quadSubmesh (fm : FloatMath α) (quad : Quad α) (submesh : Submesh α) : Submesh α :=
  let leftTopPos := quad.m_leftTopPos
  let rightTopPos := quad.m_rightTopPos
  let rightBottomPos := quad.m_rightBottomPos
  let leftBottomPos := quad.m_leftBottomPos
  let leftTop : Vertex α :=
    { Vertex.init α with
      position := leftTopPos
      texcoords := ![0, 1]
      normal := Vector.normalize fm
        (Vector.cross (Vector.sub leftTopPos rightTopPos) (Vector.sub leftTopPos leftBottomPos)) }
  let rightTop : Vertex α :=
    { Vertex.init α with
      position := rightTopPos
      texcoords := ![1, 1]
      normal := Vector.normalize fm
        (Vector.cross (Vector.sub rightTopPos rightBottomPos)
          (Vector.sub rightTopPos leftTopPos)) }
  let rightBottom : Vertex α :=
    { Vertex.init α with
      position := rightBottomPos
      texcoords := ![1, 0]
      normal := Vector.normalize fm
        (Vector.cross (Vector.sub rightBottomPos leftBottomPos)
          (Vector.sub rightBottomPos rightTopPos)) }
  let leftBottom : Vertex α :=
    { Vertex.init α with
      position := leftBottomPos
      texcoords := ![0, 0]
      normal := Vector.normalize fm
        (Vector.cross (Vector.sub leftBottomPos leftTopPos)
          (Vector.sub leftBottomPos rightBottomPos)) }
  { submesh with
    m_vertices := [leftTop, leftBottom, rightBottom, rightTop]
    m_indices := [0, 1, 2, 0, 2, 3] }

/-- The constructor `Mesh::Mesh(const Quad&, RenderMode)`. -/
def Mesh.mkQuad (fm : FloatMath α) (quad : Quad α) : Option (Mesh α) :=
  Mesh.onFront (fun s => some (quadSubmesh fm quad s)) (Mesh.init α)

/-- The body of `Mesh::Mesh(const AABB&, RenderMode)` on the first submesh (lines 165-288):
eight value-initialised vertices whose position and texcoords are set, `vertices.resize(8)`,
`indices.resize(36)` and the assignment of every element. -/
def boxSubmesh (box : AABB α) (submesh : Submesh α) : Submesh α :=
  let rightTopFrontPos := box.m_rightTopFrontPos
  let leftBottomBackPos := box.m_leftBottomBackPos
  let rightPos := rightTopFrontPos 0
  let leftPos := leftBottomBackPos 0
  let topPos := rightTopFrontPos 1
  let bottomPos := leftBottomBackPos 1
  let frontPos := rightTopFrontPos 2
  let backPos := leftBottomBackPos 2
  let rightTopBack : Vertex α :=
    { Vertex.init α with position := ![rightPos, topPos, backPos], texcoords := ![0, 1] }
  let rightTopFront : Vertex α :=
    { Vertex.init α with position := rightTopFrontPos, texcoords := ![1, 1] }
  let rightBottomBack : Vertex α :=
    { Vertex.init α with position := ![rightPos, bottomPos, backPos], texcoords := ![0, 0] }
  let rightBottomFront : Vertex α :=
    { Vertex.init α with position := ![rightPos, bottomPos, frontPos], texcoords := ![1, 0] }
  let leftTopBack : Vertex α :=
    { Vertex.init α with position := ![leftPos, topPos, backPos], texcoords := ![1, 1] }
  let leftTopFront : Vertex α :=
    { Vertex.init α with position := ![leftPos, topPos, frontPos], texcoords := ![0, 1] }
  let leftBottomBack : Vertex α :=
    { Vertex.init α with position := leftBottomBackPos, texcoords := ![1, 0] }
  let leftBottomFront : Vertex α :=
    { Vertex.init α with position := ![leftPos, bottomPos, frontPos], texcoords := ![0, 0] }
  { submesh with
    m_vertices := [rightTopBack, rightTopFront, rightBottomBack, rightBottomFront,
      leftTopBack, leftTopFront, leftBottomBack, leftBottomFront]
    m_indices :=
      [ 1, 0, 2,  1, 2, 3,
        4, 5, 7,  4, 7, 6,
        4, 0, 1,  4, 1, 5,
        7, 3, 2,  7, 2, 6,
        5, 1, 3,  5, 3, 7,
        0, 4, 6,  0, 6, 2 ] }

/-- The constructor `Mesh::Mesh(const AABB&, RenderMode)`. -/
def Mesh.mkBox (box : AABB α) : Option (Mesh α) :=
  Mesh.onFront (fun s => some (boxSubmesh box s)) (Mesh.init α)

end PlaneMesh

/-! ## OFF import (`OffImporter.cpp`) -/

/-- What `operator>>` meets in the file: an unsigned decimal integer, another decimal
number (of value `x`), or the end of a line. Blanks are left out. -/
inductive OffToken (α : Type) where
  /-- an unsigned decimal integer -/
  | int (n : Nat) : OffToken α
  /-- a decimal number that is not an unsigned integer, of value `x` -/
  | real (x : α) : OffToken α
  /-- the character `'\n'` -/
  | eol : OffToken α

/-- The fan the specification describes for a face `i0, i1, ..., i(n-1)`: "the n-2
triangles (i0, i(k-1), i(k)) for k = 2..n-1", one after the other. -/
def fanTriangles (face : List Nat) : List Nat :=
  (List.range' 2 (face.length - 2)).flatMap
    (fun k => [face.getD 0 0, face.getD (k - 1) 0, face.getD k 0])

section OffImport

variable {α : Type} [LinearOrderedField α]

/-- The tokens of a stream other than the ends of lines. -/
def significant : List (OffToken α) → List (OffToken α)
  | [] => []
  | OffToken.eol :: rest => significant rest
  | tok :: rest => tok :: significant rest

/-- The token `operator>>` reads, after the white space (ends of lines included) it
skips, and the stream after it; `none` at the end of the file. -/
def nextToken : List (OffToken α) → Option (OffToken α × List (OffToken α))
  | [] => none
  | OffToken.eol :: rest => nextToken rest
  | tok :: rest => some (tok, rest)

/-- The call `file.ignore(100, '\n')`: the characters up to the next end of line, this one
included, are dropped (the line is taken to have fewer than 100 characters left). -/
def ignoreLine : List (OffToken α) → List (OffToken α)
  | [] => []
  | OffToken.eol :: rest => rest
  | _ :: rest => ignoreLine rest

/-- The extraction `file >> n` of a `std::size_t` of `w` bits. The extraction fails at
the end of the file, on a token that is not an unsigned integer and on a value out of
range; what the importer does with a failed stream is left out: `none`. -/
def readSize (w : Nat) (file : List (OffToken α)) : Option (Nat × List (OffToken α)) :=
  match nextToken file with
  | some (OffToken.int n, rest) => if n < sizeMod w then some (n, rest) else none
  | _ => none

/-- The extraction `file >> partCount` of a `uint16_t`; `none` when it fails. -/
def readUint16 (file : List (OffToken α)) : Option (Nat × List (OffToken α)) :=
  match nextToken file with
  | some (OffToken.int n, rest) => if n < 65536 then some (n, rest) else none
  | _ => none

/-- The extraction `file >> x` of a `float`, idealised: the value of the number read;
`none` when it fails. -/
def readFloat (file : List (OffToken α)) : Option (α × List (OffToken α)) :=
  match nextToken file with
  | some (OffToken.int n, rest) => some ((n : α), rest)
  | some (OffToken.real x, rest) => some (x, rest)
  | _ => none

/-- The value `operator>>` gives a `float` for a number token (zero for an end of line,
which it never reads). -/
def OffToken.toFloat : OffToken α → α
  | OffToken.int n => (n : α)
  | OffToken.real x => x
  | OffToken.eol => 0

/-- The call `std::vector::resize(count)`: the first `count` elements are kept, and
value-initialised elements `val` are appended up to the size `count`. -/
def vectorResize {β : Type} (l : List β) (count : Nat) (val : β) : List β :=
  l.take count ++ List.replicate (count - l.length) val

/-- The body of the vertex loop of lines 19-22: the three components of
`getVertices()[vertexIndex].position` are read from the file. An index out of the vector
is undefined behaviour: `none`. -/
def offReadVertex (vertexIndex : Nat) (st : List (Vertex α) × List (OffToken α)) :
    Option (List (Vertex α) × List (OffToken α)) :=
  match st.1[vertexIndex]? with
  | none => none
  | some vert =>
    (readFloat st.2).bind (fun r0 =>
      (readFloat r0.2).bind (fun r1 =>
        (readFloat r1.2).bind (fun r2 =>
          some (st.1.set vertexIndex { vert with position := ![r0.1, r1.1, r2.1] }, r2.2))))

/-- State of the loop of lines 36-42: the local vector `indices` (its elements by
position), the index list of the submesh and the stream. -/
structure OffFaceState (α : Type) where
  indices : Nat → Nat
  out : List Nat
  file : List (OffToken α)

/-- Body of the loop of lines 36-42 for `partIndex`: `indices[partIndex]` is read, and
`indices[0]`, `indices[partIndex - 1]`, `indices[partIndex]` are appended to the index list
of the submesh, converted to `unsigned int`. -/
def offFanStep (w : Nat) (partIndex : Nat) (st : OffFaceState α) : Option (OffFaceState α) :=
  (readSize w st.file).bind (fun r =>
    let indices := Function.update st.indices partIndex r.1
    some { indices := indices
           out := st.out ++ [indices 0 % U32, indices (partIndex - 1) % U32,
             indices partIndex % U32]
           file := r.2 })

/-- The body of the face loop of lines 25-43. `partCount` is a `uint16_t`, the local
vector `indices` has `partCount` value-initialised elements; with fewer than three, the
extraction into `indices[0]`, `indices[1]`, `indices[2]` is out of the vector, which is
undefined behaviour: `none`. -/
def offReadFace (w : Nat) (st : List Nat × List (OffToken α)) :
    Option (List Nat × List (OffToken α)) :=
  (readUint16 st.2).bind (fun rc =>
    let partCount := rc.1
    if partCount < 3 then none
    else
      (readSize w rc.2).bind (fun r0 =>
        (readSize w r0.2).bind (fun r1 =>
          (readSize w r1.2).bind (fun r2 =>
            let indices : Nat → Nat :=
              Function.update (Function.update (Function.update (fun _ => 0) 0 r0.1) 1 r1.1)
                2 r2.1
            let start : OffFaceState α :=
              { indices := indices
                out := st.1 ++ [indices 0 % U32, indices 1 % U32, indices 2 % U32]
                file := r2.2 }
            (forFromLt 3 partCount
              (fun partIndex acc => acc.bind (offFanStep w partIndex))
              (some start)).map (fun fin => (fin.out, fin.file))))))

/-- The function `Mesh::importOff(std::ifstream&)`, for a `std::size_t` of `w` bits. The
stream `file` is what follows the three characters that `file.ignore(3)` skips. A submesh
is appended to `m_submeshes` and the first submesh is filled: `resize(vertexCount * 3)`,
the vertex loop, the face loop (`reserve` and `shrink_to_fit` change no element). -/
def importOff (w : Nat) (mesh : Mesh α) (file : List (OffToken α)) : Option (Mesh α) :=
  match mesh.m_submeshes ++ [Submesh.empty α] with
  | [] => none
  | submesh :: rest =>
    (readSize w file).bind (fun rv =>
      (readSize w rv.2).bind (fun rf =>
        let vertexCount := rv.1
        let faceCount := rf.1
        let body := ignoreLine rf.2
        let vertices := vectorResize submesh.m_vertices ((vertexCount * 3) % sizeMod w)
          (Vertex.init α)
        (forLt vertexCount (fun vertexIndex st => st.bind (offReadVertex vertexIndex))
            (some (vertices, body))).bind (fun sv =>
          (forLt faceCount (fun _ st => st.bind (offReadFace w))
              (some (submesh.m_indices, sv.2))).map (fun sf =>
            { mesh with
              m_submeshes :=
                { submesh with m_vertices := sv.1, m_indices := sf.1 } :: rest }))))

end OffImport

/-! ## Concrete data for evaluation -/

/-- Rational stand-ins for the functions of `<cmath>`, to run the definitions on; the
general statements do not depend on their values. -/
def ratMath : FloatMath ℚ :=
  { sqrt := fun x => x
    cos := fun x => 1 - x * x / 2
    sin := fun x => x
    tan := fun x => x
    atan2 := fun y x => y - x
    pi := 355 / 113
    golden := 1618 / 1000 }

/-- The unit sphere at the origin. -/
def unitSphere : Sphere ℚ := ⟨![0, 0, 0], 1⟩

/-- A vertex at the given position, its other fields zero. -/
def vertexAt (x y z : ℚ) : Vertex ℚ := ⟨![x, y, z], ![0, 0], ![0, 0, 0], ![0, 0, 0]⟩

/-- A mesh of two submeshes, of two vertices each. -/
def twoSubmeshMesh : Mesh ℚ :=
  { m_submeshes :=
      [ ⟨[vertexAt (-1) 0 2, vertexAt 1 3 4], [], 0⟩,
        ⟨[vertexAt 0 (-2) 3, vertexAt 5 1 3], [], 0⟩ ]
    m_boundingBox := ⟨![0, 0, 0], ![0, 0, 0]⟩ }

/-- The box `aabb2` of `tests/RaZ/Utils/Shape.cpp`. -/
def aabb2 : AABB ℚ := ⟨![2, 3, -5], ![5, 5, 5]⟩

/-- The box `aabb3` of `tests/RaZ/Utils/Shape.cpp`. -/
def aabb3 : AABB ℚ := ⟨![-10, -10, -5], ![-6, -5, 5]⟩

/-- The point `point2` of the test "AABB point containment", on a face of `aabb2`. -/
def point2 : Vec3f ℚ := ![4, 3, 0]

/-- The segment `line2` of `tests/RaZ/Utils/Shape.cpp`. -/
def line2 : Line ℚ := ⟨![0, 0, 0], ![0, 1, 0]⟩

/-- The segment `line4` of `tests/RaZ/Utils/Shape.cpp`. -/
def line4 : Line ℚ := ⟨![-10, -10, 0], ![6, 6, 0]⟩

/-- The plane `plane1` of `tests/RaZ/Utils/Shape.cpp`: distance 1 along the Y axis. -/
def plane1 : Plane ℚ := ⟨1, ![0, 1, 0]⟩

/-- A plane parallel to `plane1`, just beyond the end of `line2`. -/
def planeBeyond : Plane ℚ := ⟨2001 / 2000, ![0, 1, 0]⟩

/-- A plane whose unit normal is `(3/5, 4/5, 0)`. -/
def planeTilted : Plane ℚ := ⟨1 / 2, ![3 / 5, 4 / 5, 0]⟩

/-- A plane whose unit normal makes an angle of about `0.0002` radian with the Y axis. -/
def planeNearlyY : Plane ℚ := ⟨1 / 2, ![20000 / 100000001, 99999999 / 100000001, 0]⟩

/-- The triangle `testTriangle1` of the test "Triangle clockwiseness". -/
def testTriangle1 : Triangle ℚ := ⟨![-1, 0, 0], ![0, 1, 0], ![1, 0, 0]⟩

/-- The axis `Axis::Z`. -/
def axisZ : Vec3f ℚ := ![0, 0, 1]

/-- A stand-in for `std::hash<float>` on rationals, to run the hash on. -/
def ratHash (x : ℚ) : Nat := x.num.natAbs + 7 * x.den

/-- A vertex with eleven distinct scalars. -/
def sampleVertex : Vertex ℚ := ⟨![1, 2, 3], ![4, 5], ![6, 7, 8], ![9, 10, 11]⟩

/-- Stand-ins for the functions of `Transform.hpp` and `Matrix.hpp`, to run the camera
on: translations add to the position, a rotation adds the angle to every entry of the
rotation, the translation matrix stores the vector in its last row, the inverse is the
opposite matrix and the product is the entry-wise product. -/
def sampleOps : TransformOps ℚ :=
  { move := fun t d => { t with m_position := Vector.add t.m_position d }
    translate := fun t x y z => { t with m_position := Vector.add t.m_position ![x, y, z] }
    rotate := fun t angle _ _ _ => { t with m_rotation := fun k => t.m_rotation k + angle }
    translationMatrix := fun d k =>
      if k.val = 12 then d 0 else if k.val = 13 then d 1 else if k.val = 14 then d 2 else 0
    inverse := fun m k => - m k
    mul := fun a b k => a k * b k }

/-- A camera at the origin, all its matrices zero. -/
def sampleCamera : Camera ℚ :=
  { m_position := ![0, 0, 0]
    m_rotation := fun _ => 0
    m_frameRatio := 1
    m_fieldOfView := 1
    m_nearPlane := 1
    m_farPlane := 2
    m_viewMat := fun _ => 0
    m_invViewMat := fun _ => 0
    m_projMat := fun _ => 0
    m_invProjMat := fun _ => 0 }

/-- A square in the plane `z = 0`, of side 2. -/
def sampleQuad : Quad ℚ := ⟨![-1, 1, 0], ![1, 1, 0], ![1, -1, 0], ![-1, -1, 0]⟩

/-- An OFF file of four vertices and two faces, a quad and a triangle, after its first
three characters:
`OFF / 4 2 0 / 0 0 0 / 1 0 0 / 1 1 0 / 0 0.5 0 / 4 0 1 2 3 / 3 0 1 2`. -/
def sampleOff : List (OffToken ℚ) :=
  [ OffToken.eol,
    OffToken.int 4, OffToken.int 2, OffToken.int 0, OffToken.eol,
    OffToken.int 0, OffToken.int 0, OffToken.int 0, OffToken.eol,
    OffToken.int 1, OffToken.int 0, OffToken.int 0, OffToken.eol,
    OffToken.int 1, OffToken.int 1, OffToken.int 0, OffToken.eol,
    OffToken.int 0, OffToken.real (1 / 2), OffToken.int 0, OffToken.eol,
    OffToken.int 4, OffToken.int 0, OffToken.int 1, OffToken.int 2, OffToken.int 3,
    OffToken.eol,
    OffToken.int 3, OffToken.int 0, OffToken.int 1, OffToken.int 2, OffToken.eol ]

/-- The camera `sampleCamera` moved to `(0, 0, 5)`. -/
def cameraOnZ : Camera ℚ := { sampleCamera with m_position := ![0, 0, 5] }

/-- A mesh whose first submesh already has three vertices, at `(7, 7, 7)`, `(8, 8, 8)` and
`(9, 9, 9)`. -/
def prefilledMesh : Mesh ℚ :=
  { m_submeshes := [⟨[vertexAt 7 7 7, vertexAt 8 8 8, vertexAt 9 9 9], [], 0⟩]
    m_boundingBox := ⟨![0, 0, 0], ![0, 0, 0]⟩ }

/-- An OFF file of one vertex and no face, after its first three characters:
`OFF / 1 0 0 / 1.0 2.0 3.0`. -/
def singleVertexOff : List (OffToken ℚ) :=
  [ OffToken.eol,
    OffToken.int 1, OffToken.int 0, OffToken.int 0, OffToken.eol,
    OffToken.real 1, OffToken.real 2, OffToken.real 3, OffToken.eol ]

/-- A mesh whose submesh list is empty. -/
def noSubmeshMesh : Mesh ℚ :=
  { m_submeshes := []
    m_boundingBox := ⟨![0, 0, 0], ![0, 0, 0]⟩ }

/-! ## Loops: termination and results -/

section LoopLemmas

variable {σ : Type}

/-- A `<=` loop whose bound is below the largest `unsigned int` terminates, and is the
left fold of its body over `start, …, count`. -/
theorem forLe_eq_foldl (count : Nat) (hc : count + 1 < U32) (body : Nat → σ → Option σ)
    (g : Nat → σ → σ) (hbody : ∀ i s, body i s = some (g i s)) :
    ∀ (fuel i : Nat) (s : σ), i ≤ count + 1 → count + 2 ≤ fuel + i →
      forLe count body fuel i s
        = some ((List.range' i (count + 1 - i)).foldl (fun acc j => g j acc) s) := by
  intro fuel
  induction fuel with
  | zero => intro i s hi hf; omega
  | succ fuel ih =>
    intro i s hi hf
    rw [forLe]
    by_cases hle : i ≤ count
    · have hmod : (i + 1) % U32 = i + 1 := Nat.mod_eq_of_lt (by omega)
      have hlen : count + 1 - i = (count + 1 - (i + 1)) + 1 := by omega
      rw [if_pos hle, hbody, Option.some_bind, hmod, ih (i + 1) (g i s) (by omega) (by omega),
        hlen, List.range'_succ, List.foldl_cons]
    · have hz : count + 1 - i = 0 := by omega
      rw [if_neg hle, hz]
      rfl

/-- A `<=` loop whose bound is the largest `unsigned int` never terminates: the counter
wraps to zero instead of exceeding the bound. -/
theorem forLe_max_none (body : Nat → σ → Option σ) :
    ∀ (fuel i : Nat) (s : σ), i < U32 → forLe (U32 - 1) body fuel i s = none := by
  intro fuel
  induction fuel with
  | zero => intro i s _; rfl
  | succ fuel ih =>
    intro i s hi
    rw [forLe, if_pos (by omega)]
    cases hb : body i s with
    | none => rfl
    | some s1 =>
      rw [Option.some_bind]
      exact ih _ s1 (Nat.mod_lt _ (by decide))

/-- Length of a list grown by `k` entries at each step of a fold. -/
theorem length_foldl_grow {ι β : Type} (k : Nat) (g : ι → List β → List β)
    (hg : ∀ j acc, (g j acc).length = acc.length + k) :
    ∀ (l : List ι) (s : List β),
      (l.foldl (fun acc j => g j acc) s).length = s.length + k * l.length := by
  intro l
  induction l with
  | nil => intro s; simp
  | cons j l ih =>
    intro s
    rw [List.foldl_cons, ih, hg, List.length_cons]
    ring

/-- Length of the index list of a stride state grown by `k` entries at each step. -/
theorem length_foldl_stride {ι : Type} (k : Nat) (step : StrideState → StrideState)
    (hstep : ∀ st, (step st).indices.length = st.indices.length + k) :
    ∀ (l : List ι) (st : StrideState),
      (l.foldl (fun acc _ => step acc) st).indices.length
        = st.indices.length + k * l.length := by
  intro l
  induction l with
  | nil => intro st; simp
  | cons j l ih =>
    intro st
    rw [List.foldl_cons, ih, hstep, List.length_cons]
    ring

end LoopLemmas

/-! ## UV sphere: vertex and index counts -/

section UvSphere

variable {α : Type} [LinearOrderedField α]

/-- The vertex loops of `createUvSphere` terminate for counts below `U32 - 1` and append
`(heightCount + 1) * (widthCount + 1)` vertices. -/
theorem uvSphereVertices_length (fm : FloatMath α) (sphere : Sphere α)
    (widthCount heightCount fuel : Nat) (vertices : List (Vertex α))
    (hw : widthCount < U32 - 1) (hh : heightCount < U32 - 1)
    (hfw : widthCount + 2 ≤ fuel) (hfh : heightCount + 2 ≤ fuel) :
    ∃ vs, uvSphereVertices fuel fm sphere widthCount heightCount vertices = some vs ∧
      vs.length = vertices.length + (heightCount + 1) * (widthCount + 1) := by
  have hU : U32 = 4294967296 := rfl
  have hinner : ∀ heightIndex (vs : List (Vertex α)),
      forLe widthCount
        (fun widthIndex ws =>
          some (ws ++ [uvSphereVertex fm sphere widthCount heightCount heightIndex widthIndex]))
        fuel 0 vs
      = some ((List.range' 0 (widthCount + 1 - 0)).foldl
          (fun acc j =>
            acc ++ [uvSphereVertex fm sphere widthCount heightCount heightIndex j]) vs) := by
    intro heightIndex vs
    exact forLe_eq_foldl widthCount (by omega) _
      (fun j acc => acc ++ [uvSphereVertex fm sphere widthCount heightCount heightIndex j])
      (fun _ _ => rfl) fuel 0 vs (by omega) (by omega)
  have houter := forLe_eq_foldl heightCount (by omega)
    (fun heightIndex vs =>
      forLe widthCount
        (fun widthIndex ws =>
          some (ws ++ [uvSphereVertex fm sphere widthCount heightCount heightIndex widthIndex]))
        fuel 0 vs)
    (fun heightIndex vs => (List.range' 0 (widthCount + 1 - 0)).foldl
      (fun acc j => acc ++ [uvSphereVertex fm sphere widthCount heightCount heightIndex j]) vs)
    hinner fuel 0 vertices (by omega) (by omega)
  refine ⟨_, houter, ?_⟩
  rw [length_foldl_grow (widthCount + 1)]
  · simp [List.length_range']
    ring
  · intro heightIndex acc
    rw [length_foldl_grow 1]
    · simp [List.length_range']
    · intro j acc2
      simp

/-- With `widthCount` the largest `unsigned int`, the inner vertex loop never exits and
the vertex loops return for no amount of fuel. -/
theorem uvSphereVertices_max_width_none (fm : FloatMath α) (sphere : Sphere α)
    (heightCount fuel : Nat) (vertices : List (Vertex α)) :
    uvSphereVertices fuel fm sphere (U32 - 1) heightCount vertices = none := by
  unfold uvSphereVertices
  cases fuel with
  | zero => rfl
  | succ fuel =>
    rw [forLe, if_pos (Nat.zero_le _), forLe_max_none _ (fuel + 1) 0 vertices (by decide)]
    rfl

/-- The upper circle pushes three indices per width step. -/
theorem uvUpperCircle_length (widthCount : Nat) (indices : List Nat) :
    (uvUpperCircle widthCount indices).length = indices.length + 3 * widthCount := by
  unfold uvUpperCircle forLt
  rw [length_foldl_grow 3]
  · simp
  · intro j acc
    simp

/-- One middle row pushes six indices per width step. -/
theorem uvMiddleRow_length (widthCount heightIndex : Nat) (indices : List Nat) :
    (uvMiddleRow widthCount heightIndex indices).length = indices.length + 6 * widthCount := by
  unfold uvMiddleRow forLt
  rw [length_foldl_stride 6 uvMiddleCell]
  · simp
  · intro st
    simp [uvMiddleCell]

/-- The middle band runs `heightCount - 2` rows when `2 ≤ heightCount`. -/
theorem uvMiddleRows_length (widthCount heightCount : Nat) (indices : List Nat)
    (hh2 : 2 ≤ heightCount) (hh : heightCount < U32) :
    (uvMiddleRows widthCount heightCount indices).length
      = indices.length + 6 * widthCount * (heightCount - 2) := by
  have hU : U32 = 4294967296 := rfl
  have hb : (heightCount + (U32 - 1)) % U32 = heightCount - 1 := by
    rw [hU] at hh ⊢
    omega
  unfold uvMiddleRows forFromLt
  rw [hb, length_foldl_grow (6 * widthCount)]
  · simp [List.length_range']
    left
    omega
  · intro j acc
    exact uvMiddleRow_length widthCount j acc

/-- The lower circle pushes three indices per width step. -/
theorem uvLowerCircle_length (widthCount heightCount : Nat) (indices : List Nat) :
    (uvLowerCircle widthCount heightCount indices).length
      = indices.length + 3 * widthCount := by
  unfold uvLowerCircle forLt
  rw [length_foldl_stride 3 uvLowerCell]
  · simp
  · intro st
    simp [uvLowerCell]

/-- C1 (amended): for subdivision counts below `U32 - 1 = 4294967295` and enough fuel,
`Mesh::createUvSphere` run on a submesh without vertices returns and leaves exactly
`(heightCount + 1) * (widthCount + 1)` vertices in it; `Mesh(sphere, n, UV)` returns a mesh
whose first submesh has `(n + 1) * (n + 1)` vertices. -/
theorem createUvSphere_vertex_count (fm : FloatMath α) (sphere : Sphere α)
    (widthCount heightCount n fuel : Nat) (submesh : Submesh α)
    (hw : widthCount < U32 - 1) (hh : heightCount < U32 - 1) (hn : n < U32 - 1)
    (hfw : widthCount + 2 ≤ fuel) (hfh : heightCount + 2 ≤ fuel) (hfn : n + 2 ≤ fuel)
    (hempty : submesh.m_vertices = []) :
    (∃ res, createUvSphere fuel fm sphere widthCount heightCount submesh = some res ∧
      res.m_vertices.length = (heightCount + 1) * (widthCount + 1)) ∧
    (∃ mesh first rest, Mesh.mkSphere fuel fm sphere n SphereMeshType.UV = some mesh ∧
      mesh.m_submeshes = first :: rest ∧
      first.m_vertices.length = (n + 1) * (n + 1)) := by
  constructor
  · obtain ⟨vs, hvs, hlen⟩ := uvSphereVertices_length fm sphere widthCount heightCount fuel
      submesh.m_vertices hw hh hfw hfh
    refine ⟨_, by rw [createUvSphere, hvs]; rfl, ?_⟩
    simp [hlen, hempty]
  · obtain ⟨vs, hvs, hlen⟩ := uvSphereVertices_length fm sphere n n fuel
      (Submesh.empty α).m_vertices hn hn hfn hfn
    refine ⟨_, _, [],
      by simp only [Mesh.mkSphere, Mesh.onFront, Mesh.init, createUvSphere, hvs]; rfl,
      rfl, ?_⟩
    simp [hlen, Submesh.empty]

/-- C1, witness: 81 vertices for `widthCount = heightCount = 8`. -/
theorem createUvSphere_vertex_count_witness :
    (∃ res, createUvSphere 10 ratMath unitSphere 8 8 (Submesh.empty ℚ) = some res ∧
      res.m_vertices.length = (8 + 1) * (8 + 1)) ∧
    (∃ mesh first rest, Mesh.mkSphere 10 ratMath unitSphere 8 SphereMeshType.UV = some mesh ∧
      mesh.m_submeshes = first :: rest ∧
      first.m_vertices.length = (8 + 1) * (8 + 1)) :=
  createUvSphere_vertex_count ratMath unitSphere 8 8 8 10 (Submesh.empty ℚ)
    (by decide) (by decide) (by decide) (by decide) (by decide) (by decide) rfl

/-- C1, counterexample: with `widthCount = 4294967295`, the largest `uint32_t`, the loop
`for (widthIndex = 0; widthIndex <= widthCount; ++widthIndex)` never exits, so
`createUvSphere` returns for no amount of fuel and leaves no submesh of
`(8 + 1) * (4294967295 + 1)` vertices. -/
theorem createUvSphere_max_count_diverges :
    ¬ ∃ fuel res,
      createUvSphere fuel ratMath unitSphere 4294967295 8 (Submesh.empty ℚ) = some res := by
  rintro ⟨fuel, res, h⟩
  have hnone := uvSphereVertices_max_width_none ratMath unitSphere 8 fuel
    (Submesh.empty ℚ).m_vertices
  have h32 : U32 - 1 = 4294967295 := by decide
  rw [h32] at hnone
  rw [createUvSphere, hnone] at h
  exact Option.noConfusion h

/-- With `heightCount` the largest `unsigned int`, the outer vertex loop never exits and
the vertex loops return for no amount of fuel. -/
theorem uvSphereVertices_max_height_none (fm : FloatMath α) (sphere : Sphere α)
    (widthCount fuel : Nat) (vertices : List (Vertex α)) :
    uvSphereVertices fuel fm sphere widthCount (U32 - 1) vertices = none := by
  unfold uvSphereVertices
  exact forLe_max_none _ fuel 0 vertices (by decide)

/-- C2 (amended): for `2 ≤ heightCount`, subdivision counts below `U32 - 1 = 4294967295`
and enough fuel, `Mesh::createUvSphere` returns a submesh to whose index list it appended
the entries of the three bands, `3 * w` for the top fan, `6 * w` for each of the `h - 2`
middle rows and `3 * w` for the bottom fan, `6 * w + 6 * w * (h - 2)` in all, a multiple
of three. -/
theorem createUvSphere_index_count (fm : FloatMath α) (sphere : Sphere α)
    (widthCount heightCount fuel : Nat) (submesh : Submesh α)
    (hh2 : 2 ≤ heightCount) (hw : widthCount < U32 - 1) (hh : heightCount < U32 - 1)
    (hfw : widthCount + 2 ≤ fuel) (hfh : heightCount + 2 ≤ fuel) :
    (∃ res, createUvSphere fuel fm sphere widthCount heightCount submesh = some res ∧
      res.m_indices
        = uvLowerCircle widthCount heightCount
            (uvMiddleRows widthCount heightCount
              (uvUpperCircle widthCount submesh.m_indices)) ∧
      res.m_indices.length
        = submesh.m_indices.length
          + (6 * widthCount + 6 * widthCount * (heightCount - 2))) ∧
    (uvUpperCircle widthCount submesh.m_indices).length
      = submesh.m_indices.length + 3 * widthCount ∧
    (∀ heightIndex ind,
      (uvMiddleRow widthCount heightIndex ind).length = ind.length + 6 * widthCount) ∧
    (∀ ind, (uvMiddleRows widthCount heightCount ind).length
      = ind.length + 6 * widthCount * (heightCount - 2)) ∧
    (∀ ind, (uvLowerCircle widthCount heightCount ind).length
      = ind.length + 3 * widthCount) ∧
    3 ∣ (6 * widthCount + 6 * widthCount * (heightCount - 2)) := by
  have hU : U32 = 4294967296 := rfl
  have hhU : heightCount < U32 := by rw [hU] at hh ⊢; omega
  have htotal : ∀ ind, (uvSphereIndices widthCount heightCount ind).length
      = ind.length + (6 * widthCount + 6 * widthCount * (heightCount - 2)) := by
    intro ind
    unfold uvSphereIndices
    rw [uvLowerCircle_length, uvMiddleRows_length _ _ _ hh2 hhU, uvUpperCircle_length]
    ring
  obtain ⟨vs, hvs, _⟩ := uvSphereVertices_length fm sphere widthCount heightCount fuel
    submesh.m_vertices hw hh hfw hfh
  refine ⟨⟨_, by rw [createUvSphere, hvs]; rfl, rfl, htotal _⟩, uvUpperCircle_length _ _,
    uvMiddleRow_length _, ?_, uvLowerCircle_length _ _, ?_⟩
  · intro ind
    exact uvMiddleRows_length _ _ _ hh2 hhU
  · exact ⟨2 * widthCount + 2 * widthCount * (heightCount - 2), by ring⟩

/-- C2, witness: 336 index entries for `widthCount = heightCount = 8`. -/
theorem createUvSphere_index_count_witness :
    ∃ res, createUvSphere 10 ratMath unitSphere 8 8 (Submesh.empty ℚ) = some res ∧
      res.m_indices.length = 336 := by
  obtain ⟨res, hres, _, hlen⟩ := (createUvSphere_index_count ratMath unitSphere 8 8 10
    (Submesh.empty ℚ) (by decide) (by decide) (by decide) (by decide) (by decide)).1
  exact ⟨res, hres, by simpa [Submesh.empty] using hlen⟩

/-- C2, counterexample: with `widthCount = 8 ≥ 1` and `heightCount = 4294967295 ≥ 2`, the
largest `uint32_t`, the loop `for (heightIndex = 0; heightIndex <= heightCount;
++heightIndex)` never exits, so `createUvSphere` returns for no amount of fuel: it emits no
index entry at all. -/
theorem createUvSphere_max_height_diverges :
    ¬ ∃ fuel res,
      createUvSphere fuel ratMath unitSphere 8 4294967295 (Submesh.empty ℚ) = some res := by
  rintro ⟨fuel, res, h⟩
  have hnone := uvSphereVertices_max_height_none ratMath unitSphere 8 fuel
    (Submesh.empty ℚ).m_vertices
  have h32 : U32 - 1 = 4294967295 := by decide
  rw [h32] at hnone
  rw [createUvSphere, hnone] at h
  exact Option.noConfusion h

/-- C3: `Mesh::createIcosphere` leaves exactly 12 vertices and exactly 60 indices, that is
20 triangles, whatever the sphere and the former contents of the submesh; its result is
the same for every value of the subdivision parameter. -/
theorem createIcosphere_counts (fm : FloatMath α) (sphere : Sphere α) (subdivCount : Nat)
    (submesh : Submesh α) :
    (createIcosphere fm sphere subdivCount submesh).m_vertices.length = 12 ∧
    (createIcosphere fm sphere subdivCount submesh).m_indices.length = 60 ∧
    (createIcosphere fm sphere subdivCount submesh).m_indices.length = 3 * 20 ∧
    (∀ other : Nat, createIcosphere fm sphere other submesh
      = createIcosphere fm sphere subdivCount submesh) := by
  refine ⟨?_, ?_, ?_, fun _ => rfl⟩ <;> simp [createIcosphere, icoDirections, icoIndices]

end UvSphere

/-! ## Bounding box of a mesh -/

section BoundingBox

variable {α : Type} [LinearOrderedField α]

/-- One pass of the loop body takes the minimum on each component of `minPos`. -/
theorem boundingBoxStep_min (acc : Vec3f α × Vec3f α) (b : AABB α) (i : Fin 3) :
    (boundingBoxStep acc b).2 i = min (acc.2 i) (b.m_leftBottomBackPos i) := by
  fin_cases i <;> rfl

/-- One pass of the loop body takes the maximum on each component of `maxPos`. -/
theorem boundingBoxStep_max (acc : Vec3f α × Vec3f α) (b : AABB α) (i : Fin 3) :
    (boundingBoxStep acc b).1 i = max (acc.1 i) (b.m_rightTopFrontPos i) := by
  fin_cases i <;> rfl

/-- After the loop, `minPos` is below its initial value and below every box. -/
theorem foldl_boundingBoxStep_min_le (l : List (AABB α)) :
    ∀ (acc : Vec3f α × Vec3f α) (i : Fin 3),
      (l.foldl boundingBoxStep acc).2 i ≤ acc.2 i ∧
      ∀ b ∈ l, (l.foldl boundingBoxStep acc).2 i ≤ b.m_leftBottomBackPos i := by
  induction l with
  | nil => intro acc i; simp
  | cons b l ih =>
    intro acc i
    rw [List.foldl_cons]
    obtain ⟨h1, h2⟩ := ih (boundingBoxStep acc b) i
    rw [boundingBoxStep_min] at h1
    refine ⟨le_trans h1 (min_le_left _ _), ?_⟩
    intro c hc
    rcases List.mem_cons.mp hc with rfl | hc
    · exact le_trans h1 (min_le_right _ _)
    · exact h2 c hc

/-- After the loop, `maxPos` is above its initial value and above every box. -/
theorem foldl_boundingBoxStep_le_max (l : List (AABB α)) :
    ∀ (acc : Vec3f α × Vec3f α) (i : Fin 3),
      acc.1 i ≤ (l.foldl boundingBoxStep acc).1 i ∧
      ∀ b ∈ l, b.m_rightTopFrontPos i ≤ (l.foldl boundingBoxStep acc).1 i := by
  induction l with
  | nil => intro acc i; simp
  | cons b l ih =>
    intro acc i
    rw [List.foldl_cons]
    obtain ⟨h1, h2⟩ := ih (boundingBoxStep acc b) i
    rw [boundingBoxStep_max] at h1
    refine ⟨le_trans (le_max_left _ _) h1, ?_⟩
    intro c hc
    rcases List.mem_cons.mp hc with rfl | hc
    · exact le_trans (le_max_right _ _) h1
    · exact h2 c hc

/-- After the loop, each component of `minPos` is its initial value or that of a box. -/
theorem foldl_boundingBoxStep_min_attained (l : List (AABB α)) :
    ∀ (acc : Vec3f α × Vec3f α) (i : Fin 3),
      (l.foldl boundingBoxStep acc).2 i = acc.2 i ∨
      ∃ b ∈ l, (l.foldl boundingBoxStep acc).2 i = b.m_leftBottomBackPos i := by
  induction l with
  | nil => intro acc i; simp
  | cons b l ih =>
    intro acc i
    rw [List.foldl_cons]
    rcases ih (boundingBoxStep acc b) i with h | ⟨c, hc, h⟩
    · rw [boundingBoxStep_min] at h
      rcases min_choice (acc.2 i) (b.m_leftBottomBackPos i) with hm | hm
      · exact Or.inl (h.trans hm)
      · exact Or.inr ⟨b, List.mem_cons_self _ _, h.trans hm⟩
    · exact Or.inr ⟨c, List.mem_cons_of_mem _ hc, h⟩

/-- After the loop, each component of `maxPos` is its initial value or that of a box. -/
theorem foldl_boundingBoxStep_max_attained (l : List (AABB α)) :
    ∀ (acc : Vec3f α × Vec3f α) (i : Fin 3),
      (l.foldl boundingBoxStep acc).1 i = acc.1 i ∨
      ∃ b ∈ l, (l.foldl boundingBoxStep acc).1 i = b.m_rightTopFrontPos i := by
  induction l with
  | nil => intro acc i; simp
  | cons b l ih =>
    intro acc i
    rw [List.foldl_cons]
    rcases ih (boundingBoxStep acc b) i with h | ⟨c, hc, h⟩
    · rw [boundingBoxStep_max] at h
      rcases max_choice (acc.1 i) (b.m_rightTopFrontPos i) with hm | hm
      · exact Or.inl (h.trans hm)
      · exact Or.inr ⟨b, List.mem_cons_self _ _, h.trans hm⟩
    · exact Or.inr ⟨c, List.mem_cons_of_mem _ hc, h⟩

/-- The box returned by `Mesh::computeBoundingBox`, as a fold over the list of the
submesh boxes. -/
theorem computeBoundingBox_eq (submeshBox : Submesh α → AABB α) (mesh : Mesh α) :
    (Mesh.computeBoundingBox submeshBox mesh).2 =
      ⟨((mesh.m_submeshes.map submeshBox).foldl boundingBoxStep
          ((Vector.fill floatLowest : Vec3f α), (Vector.fill floatMax : Vec3f α))).2,
       ((mesh.m_submeshes.map submeshBox).foldl boundingBoxStep
          ((Vector.fill floatLowest : Vec3f α), (Vector.fill floatMax : Vec3f α))).1⟩ := by
  simp [Mesh.computeBoundingBox, List.foldl_map]

/-- C4: for a non-empty submesh list whose boxes have finite `float` coordinates (between
`lowest()` and `max()`), `Mesh::computeBoundingBox` stores the box it returns, and each
component of the min corner of that box is the minimum of the `leftBottomBack` components
of the submesh boxes (a lower bound of them that one of them attains), each component of
its max corner the maximum of their `rightTopFront` components; every AABB that encloses
all the submesh boxes encloses it. -/
theorem computeBoundingBox_min_max (submeshBox : Submesh α → AABB α) (mesh : Mesh α)
    (hne : mesh.m_submeshes ≠ [])
    (hfin : ∀ s ∈ mesh.m_submeshes, ∀ i : Fin 3,
      floatLowest ≤ (submeshBox s).m_rightTopFrontPos i ∧
      (submeshBox s).m_leftBottomBackPos i ≤ floatMax) :
    (Mesh.computeBoundingBox submeshBox mesh).1.m_boundingBox
      = (Mesh.computeBoundingBox submeshBox mesh).2 ∧
    (Mesh.computeBoundingBox submeshBox mesh).1.m_submeshes = mesh.m_submeshes ∧
    (∀ i : Fin 3,
      (∀ s ∈ mesh.m_submeshes,
        (Mesh.computeBoundingBox submeshBox mesh).2.m_leftBottomBackPos i
          ≤ (submeshBox s).m_leftBottomBackPos i) ∧
      (∃ s ∈ mesh.m_submeshes,
        (Mesh.computeBoundingBox submeshBox mesh).2.m_leftBottomBackPos i
          = (submeshBox s).m_leftBottomBackPos i)) ∧
    (∀ i : Fin 3,
      (∀ s ∈ mesh.m_submeshes,
        (submeshBox s).m_rightTopFrontPos i
          ≤ (Mesh.computeBoundingBox submeshBox mesh).2.m_rightTopFrontPos i) ∧
      (∃ s ∈ mesh.m_submeshes,
        (Mesh.computeBoundingBox submeshBox mesh).2.m_rightTopFrontPos i
          = (submeshBox s).m_rightTopFrontPos i)) ∧
    (∀ c : AABB α,
      (∀ s ∈ mesh.m_submeshes, ∀ i : Fin 3,
        c.m_leftBottomBackPos i ≤ (submeshBox s).m_leftBottomBackPos i ∧
        (submeshBox s).m_rightTopFrontPos i ≤ c.m_rightTopFrontPos i) →
      ∀ i : Fin 3,
        c.m_leftBottomBackPos i
          ≤ (Mesh.computeBoundingBox submeshBox mesh).2.m_leftBottomBackPos i ∧
        (Mesh.computeBoundingBox submeshBox mesh).2.m_rightTopFrontPos i
          ≤ c.m_rightTopFrontPos i) := by
  obtain ⟨s0, hs0⟩ := List.exists_mem_of_ne_nil _ hne
  rw [computeBoundingBox_eq]
  have hminle := foldl_boundingBoxStep_min_le (mesh.m_submeshes.map submeshBox)
    ((Vector.fill floatLowest : Vec3f α), (Vector.fill floatMax : Vec3f α))
  have hmaxle := foldl_boundingBoxStep_le_max (mesh.m_submeshes.map submeshBox)
    ((Vector.fill floatLowest : Vec3f α), (Vector.fill floatMax : Vec3f α))
  have hminat := foldl_boundingBoxStep_min_attained (mesh.m_submeshes.map submeshBox)
    ((Vector.fill floatLowest : Vec3f α), (Vector.fill floatMax : Vec3f α))
  have hmaxat := foldl_boundingBoxStep_max_attained (mesh.m_submeshes.map submeshBox)
    ((Vector.fill floatLowest : Vec3f α), (Vector.fill floatMax : Vec3f α))
  have hmin : ∀ i : Fin 3, ∃ s ∈ mesh.m_submeshes,
      ((mesh.m_submeshes.map submeshBox).foldl boundingBoxStep
        ((Vector.fill floatLowest : Vec3f α), (Vector.fill floatMax : Vec3f α))).2 i
        = (submeshBox s).m_leftBottomBackPos i := by
    intro i
    rcases hminat i with h | ⟨b, hb, h⟩
    · refine ⟨s0, hs0, le_antisymm ((hminle i).2 _ (List.mem_map_of_mem _ hs0)) ?_⟩
      rw [h]
      exact (hfin s0 hs0 i).2
    · obtain ⟨s, hs, rfl⟩ := List.mem_map.mp hb
      exact ⟨s, hs, h⟩
  have hmax : ∀ i : Fin 3, ∃ s ∈ mesh.m_submeshes,
      ((mesh.m_submeshes.map submeshBox).foldl boundingBoxStep
        ((Vector.fill floatLowest : Vec3f α), (Vector.fill floatMax : Vec3f α))).1 i
        = (submeshBox s).m_rightTopFrontPos i := by
    intro i
    rcases hmaxat i with h | ⟨b, hb, h⟩
    · refine ⟨s0, hs0, le_antisymm ?_ ((hmaxle i).2 _ (List.mem_map_of_mem _ hs0))⟩
      rw [h]
      exact (hfin s0 hs0 i).1
    · obtain ⟨s, hs, rfl⟩ := List.mem_map.mp hb
      exact ⟨s, hs, h⟩
  refine ⟨?_, rfl, ?_, ?_, ?_⟩
  · simp [Mesh.computeBoundingBox, List.foldl_map]
  · intro i
    exact ⟨fun s hs => (hminle i).2 _ (List.mem_map_of_mem _ hs), hmin i⟩
  · intro i
    exact ⟨fun s hs => (hmaxle i).2 _ (List.mem_map_of_mem _ hs), hmax i⟩
  · intro c hc i
    obtain ⟨s, hs, h⟩ := hmin i
    obtain ⟨t, ht, h2⟩ := hmax i
    exact ⟨le_of_le_of_eq (hc s hs i).1 h.symm, le_of_eq_of_le h2 (hc t ht i).2⟩

/-- C4, witness: a mesh of two submeshes, their boxes computed from their vertices. -/
theorem computeBoundingBox_min_max_witness :
    (Mesh.computeBoundingBox Submesh.computeBoundingBox twoSubmeshMesh).2.m_leftBottomBackPos
        = ![-1, -2, 2] ∧
    (Mesh.computeBoundingBox Submesh.computeBoundingBox twoSubmeshMesh).2.m_rightTopFrontPos
        = ![5, 3, 4] ∧
    (∀ i : Fin 3,
      (∀ s ∈ twoSubmeshMesh.m_submeshes,
        (Mesh.computeBoundingBox Submesh.computeBoundingBox
            twoSubmeshMesh).2.m_leftBottomBackPos i
          ≤ (Submesh.computeBoundingBox s).m_leftBottomBackPos i) ∧
      (∃ s ∈ twoSubmeshMesh.m_submeshes,
        (Mesh.computeBoundingBox Submesh.computeBoundingBox
            twoSubmeshMesh).2.m_leftBottomBackPos i
          = (Submesh.computeBoundingBox s).m_leftBottomBackPos i)) := by
  refine ⟨?_, ?_, (computeBoundingBox_min_max Submesh.computeBoundingBox twoSubmeshMesh
    (by simp [twoSubmeshMesh]) ?_).2.2.1⟩
  · ext i
    fin_cases i <;>
      simp only [Mesh.computeBoundingBox, Submesh.computeBoundingBox, twoSubmeshMesh,
        List.foldl_cons, List.foldl_nil, boundingBoxStep, vertexAt, Vector.fill, floatMax,
        floatLowest] <;>
      norm_num
  · ext i
    fin_cases i <;>
      simp only [Mesh.computeBoundingBox, Submesh.computeBoundingBox, twoSubmeshMesh,
        List.foldl_cons, List.foldl_nil, boundingBoxStep, vertexAt, Vector.fill, floatMax,
        floatLowest] <;>
      norm_num
  · intro s hs i
    simp only [twoSubmeshMesh, List.mem_cons, List.mem_singleton, List.not_mem_nil,
      or_false] at hs
    rcases hs with rfl | rfl <;> fin_cases i <;>
      simp only [Submesh.computeBoundingBox, List.foldl_cons, List.foldl_nil,
        boundingBoxStep, vertexAt, Vector.fill, floatMax, floatLowest] <;>
      norm_num

/-- C5 (amended): for every mesh with at least one submesh, all of whose submesh bounding
boxes have each min corner component at most the matching max corner component, the box
returned by `Mesh::computeBoundingBox` has each component of its min corner at most the
matching component of its max corner. -/
theorem computeBoundingBox_invariant (submeshBox : Submesh α → AABB α) (mesh : Mesh α)
    (hne : mesh.m_submeshes ≠ [])
    (hinv : ∀ s ∈ mesh.m_submeshes, ∀ i : Fin 3,
      (submeshBox s).m_leftBottomBackPos i ≤ (submeshBox s).m_rightTopFrontPos i) :
    ∀ i : Fin 3,
      (Mesh.computeBoundingBox submeshBox mesh).2.m_leftBottomBackPos i
        ≤ (Mesh.computeBoundingBox submeshBox mesh).2.m_rightTopFrontPos i := by
  intro i
  obtain ⟨s0, hs0⟩ := List.exists_mem_of_ne_nil _ hne
  rw [computeBoundingBox_eq]
  have h1 := (foldl_boundingBoxStep_min_le (mesh.m_submeshes.map submeshBox)
    ((Vector.fill floatLowest : Vec3f α), (Vector.fill floatMax : Vec3f α)) i).2 _
    (List.mem_map_of_mem _ hs0)
  have h2 := (foldl_boundingBoxStep_le_max (mesh.m_submeshes.map submeshBox)
    ((Vector.fill floatLowest : Vec3f α), (Vector.fill floatMax : Vec3f α)) i).2 _
    (List.mem_map_of_mem _ hs0)
  exact le_trans h1 (le_trans (hinv s0 hs0 i) h2)

/-- C5, witness: the mesh of two submeshes. -/
theorem computeBoundingBox_invariant_witness :
    twoSubmeshMesh.m_submeshes ≠ [] ∧
    (∀ i : Fin 3,
      (Mesh.computeBoundingBox Submesh.computeBoundingBox
          twoSubmeshMesh).2.m_leftBottomBackPos i
        ≤ (Mesh.computeBoundingBox Submesh.computeBoundingBox
          twoSubmeshMesh).2.m_rightTopFrontPos i) :=
  ⟨by simp [twoSubmeshMesh],
   computeBoundingBox_invariant Submesh.computeBoundingBox twoSubmeshMesh
    (by simp [twoSubmeshMesh])
    (by
      intro s hs i
      simp only [twoSubmeshMesh, List.mem_cons, List.mem_singleton, List.not_mem_nil,
        or_false] at hs
      rcases hs with rfl | rfl <;> fin_cases i <;>
        simp only [Submesh.computeBoundingBox, List.foldl_cons, List.foldl_nil,
          boundingBoxStep, vertexAt, Vector.fill, floatMax, floatLowest] <;>
        norm_num)⟩

/-- C5, counterexample: on a mesh without submeshes every submesh box satisfies the
invariant, and the loop body never runs: the box returned has min corner
`max()` and max corner `lowest()` on each axis, min above max. -/
theorem computeBoundingBox_no_submesh_inverted :
    (∀ s ∈ noSubmeshMesh.m_submeshes, ∀ i : Fin 3,
      (Submesh.computeBoundingBox s).m_leftBottomBackPos i
        ≤ (Submesh.computeBoundingBox s).m_rightTopFrontPos i) ∧
    ¬ (∀ i : Fin 3,
      (Mesh.computeBoundingBox Submesh.computeBoundingBox
          noSubmeshMesh).2.m_leftBottomBackPos i
        ≤ (Mesh.computeBoundingBox Submesh.computeBoundingBox
          noSubmeshMesh).2.m_rightTopFrontPos i) := by
  constructor
  · intro s hs
    simp [noSubmeshMesh] at hs
  · intro h
    have h0 := h 0
    simp only [Mesh.computeBoundingBox, noSubmeshMesh, List.foldl_nil, Vector.fill, floatMax,
      floatLowest] at h0
    norm_num at h0

end BoundingBox

/-! ## Shape predicates -/

section ShapeTheorems

variable {α : Type} [LinearOrderedField α]

/-- The dot product of two three-dimensional vectors, its loop unrolled. -/
theorem dot_vec3 (a b : Vec3f α) :
    Vector.dot a b = a 0 * b 0 + a 1 * b 1 + a 2 * b 2 := by
  simp [Vector.dot, Fin.foldl_succ]

/-- C6: `AABB::contains(p)` is true if and only if on every axis the coordinate of `p`
lies between the coordinates of the min and max corners, both bounds included; a box with
min ≤ max contains its centroid, its `leftBottomBack` corner and its `rightTopFront`
corner, and a point of the box lying on one of its faces is contained. -/
theorem AABB_contains_inclusive (box : AABB α) (point : Vec3f α)
    (hbox : ∀ i : Fin 3, box.m_leftBottomBackPos i ≤ box.m_rightTopFrontPos i) :
    (AABB.contains box point = true ↔
      ∀ i : Fin 3, box.m_leftBottomBackPos i ≤ point i ∧ point i ≤ box.m_rightTopFrontPos i) ∧
    AABB.contains box (AABB.computeCentroid box) = true ∧
    AABB.contains box box.m_leftBottomBackPos = true ∧
    AABB.contains box box.m_rightTopFrontPos = true ∧
    ((∀ i : Fin 3, box.m_leftBottomBackPos i ≤ point i ∧ point i ≤ box.m_rightTopFrontPos i) →
      (∃ i : Fin 3, point i = box.m_leftBottomBackPos i ∨ point i = box.m_rightTopFrontPos i) →
      AABB.contains box point = true) := by
  have hiff : ∀ p : Vec3f α, AABB.contains box p = true ↔
      ∀ i : Fin 3, box.m_leftBottomBackPos i ≤ p i ∧ p i ≤ box.m_rightTopFrontPos i := by
    intro p
    simp only [AABB.contains, decide_eq_true_eq]
    constructor
    · rintro ⟨h0, h1, h2⟩ i
      fin_cases i
      · exact h0
      · exact h1
      · exact h2
    · intro h
      exact ⟨h 0, h 1, h 2⟩
  refine ⟨hiff point, (hiff _).mpr ?_, (hiff _).mpr ?_, (hiff _).mpr ?_,
    fun h _ => (hiff _).mpr h⟩
  · intro i
    have h := hbox i
    simp only [AABB.computeCentroid, Vector.divScalar, Vector.add]
    constructor
    · rw [le_div_iff₀ (by norm_num)]
      linarith
    · rw [div_le_iff₀ (by norm_num)]
      linarith
  · intro i
    exact ⟨le_refl _, hbox i⟩
  · intro i
    exact ⟨hbox i, le_refl _⟩

/-- C6, witness: `aabb2` and `point2` of the tests; the point lies on the face `y = 3`. -/
theorem AABB_contains_inclusive_witness :
    (∀ i : Fin 3, aabb2.m_leftBottomBackPos i ≤ aabb2.m_rightTopFrontPos i) ∧
    AABB.contains aabb2 point2 = true ∧
    AABB.contains aabb2 (AABB.computeCentroid aabb2) = true := by
  have hbox : ∀ i : Fin 3, aabb2.m_leftBottomBackPos i ≤ aabb2.m_rightTopFrontPos i := by
    intro i
    fin_cases i <;> norm_num [aabb2]
  have h := AABB_contains_inclusive aabb2 point2 hbox
  refine ⟨hbox, h.2.2.2.2 ?_ ⟨1, Or.inl (by simp [aabb2, point2])⟩, h.2.1⟩
  intro i
  fin_cases i <;> norm_num [aabb2, point2]

/-- The dot product with a difference is the difference of the dot products. -/
theorem dot_sub_vec3 (n a b : Vec3f α) :
    Vector.dot n (Vector.sub a b) = Vector.dot n a - Vector.dot n b := by
  simp only [dot_vec3, Vector.sub]
  ring

/-- For any tolerance: with `d = end − start` and `denom = dot(plane.normal, d)`,
`Line::intersects(Plane)` is false whenever `|denom|` is below the epsilon, in particular
when both end points lie in the plane; otherwise it is true if and only if
`t = (plane.distance − dot(plane.normal, start)) / denom` lies within the tolerance of
`[0,1]`, that is `-tolerance ≤ t ≤ 1 + tolerance`; in particular it is true for every `t`
in `[0,1]`. -/
theorem Line_intersectsPlane_tolerance (epsilon tolerance : α) (line : Line α)
    (plane : Plane α) (heps : 0 < epsilon) (htol : 0 ≤ tolerance) :
    (|Vector.dot plane.m_normal (Vector.sub line.m_endPos line.m_beginPos)| < epsilon →
      Line.intersectsPlane epsilon tolerance line plane = false) ∧
    (Vector.dot plane.m_normal line.m_beginPos = plane.m_distance →
      Vector.dot plane.m_normal line.m_endPos = plane.m_distance →
      Line.intersectsPlane epsilon tolerance line plane = false) ∧
    (¬ |Vector.dot plane.m_normal (Vector.sub line.m_endPos line.m_beginPos)| < epsilon →
      (Line.intersectsPlane epsilon tolerance line plane = true ↔
        -tolerance ≤ Line.planeParam line plane ∧
        Line.planeParam line plane ≤ 1 + tolerance)) ∧
    (¬ |Vector.dot plane.m_normal (Vector.sub line.m_endPos line.m_beginPos)| < epsilon →
      0 ≤ Line.planeParam line plane → Line.planeParam line plane ≤ 1 →
      Line.intersectsPlane epsilon tolerance line plane = true) := by
  have hpar : |Vector.dot plane.m_normal (Vector.sub line.m_endPos line.m_beginPos)| < epsilon →
      Line.intersectsPlane epsilon tolerance line plane = false := by
    intro h
    simp only [Line.intersectsPlane, if_pos h]
  have hiff : ¬ |Vector.dot plane.m_normal (Vector.sub line.m_endPos line.m_beginPos)| < epsilon →
      (Line.intersectsPlane epsilon tolerance line plane = true ↔
        -tolerance ≤ Line.planeParam line plane ∧
        Line.planeParam line plane ≤ 1 + tolerance) := by
    intro h
    simp only [Line.intersectsPlane, if_neg h, Line.planeParam, decide_eq_true_eq]
  refine ⟨hpar, ?_, hiff, ?_⟩
  · intro hb he
    apply hpar
    rw [dot_sub_vec3, hb, he, sub_self, abs_zero]
    exact heps
  · intro h h0 h1
    exact (hiff h).mpr ⟨by linarith, by linarith⟩

/-- With a tolerance of `1/1000`: `line2` and `plane1` of the tests, `t = 1`. -/
theorem Line_intersectsPlane_tolerance_witness :
    Line.intersectsPlane (1 / 1000) (1 / 1000) line2 plane1 = true := by
  have h := (Line_intersectsPlane_tolerance (1 / 1000 : ℚ) (1 / 1000) line2 plane1
    (by norm_num) (by norm_num)).2.2.2
  apply h <;>
    simp only [Line.planeParam, dot_vec3, Vector.sub, line2, plane1] <;>
    norm_num

/-- With an epsilon and a positive tolerance of `1/1000`, `line2` and a plane at
`t = 1.0005`: the denominator is `1`, not within epsilon of zero, `t` is outside `[0,1]`
by less than the tolerance, and the result is true. -/
theorem Line_intersectsPlane_beyond_end :
    ¬ |Vector.dot planeBeyond.m_normal (Vector.sub line2.m_endPos line2.m_beginPos)|
        < (1 / 1000 : ℚ) ∧
    Line.intersectsPlane (1 / 1000) (1 / 1000) line2 planeBeyond = true ∧
    ¬ (0 ≤ Line.planeParam line2 planeBeyond ∧ Line.planeParam line2 planeBeyond ≤ 1) := by
  refine ⟨?_, ?_, ?_⟩
  · simp only [dot_vec3, Vector.sub, line2, planeBeyond]
    norm_num
  · simp only [Line.intersectsPlane, dot_vec3, Vector.sub, line2, planeBeyond]
    norm_num
  · simp only [Line.planeParam, dot_vec3, Vector.sub, line2, planeBeyond]
    norm_num

/-- C7: with the tolerance zero, the "within a tolerance of [0,1]" of the specification
read as the claim reads it, and any positive epsilon: with `d = end − start` and
`denom = dot(plane.normal, d)`, `Line::intersects(Plane)` is false whenever `|denom|` is
below the epsilon, also when both end points lie in the plane; otherwise it is true if and
only if `t = (plane.distance − dot(plane.normal, start)) / denom` lies in `[0,1]`, and
false if and only if `t` is below 0 or above 1. -/
theorem Line_intersectsPlane_segment (epsilon : α) (line : Line α) (plane : Plane α)
    (heps : 0 < epsilon) :
    (|Vector.dot plane.m_normal (Vector.sub line.m_endPos line.m_beginPos)| < epsilon →
      Line.intersectsPlane epsilon 0 line plane = false) ∧
    (Vector.dot plane.m_normal line.m_beginPos = plane.m_distance →
      Vector.dot plane.m_normal line.m_endPos = plane.m_distance →
      Line.intersectsPlane epsilon 0 line plane = false) ∧
    (¬ |Vector.dot plane.m_normal (Vector.sub line.m_endPos line.m_beginPos)| < epsilon →
      (Line.intersectsPlane epsilon 0 line plane = true ↔
        0 ≤ (plane.m_distance - Vector.dot plane.m_normal line.m_beginPos)
            / Vector.dot plane.m_normal (Vector.sub line.m_endPos line.m_beginPos) ∧
        (plane.m_distance - Vector.dot plane.m_normal line.m_beginPos)
            / Vector.dot plane.m_normal (Vector.sub line.m_endPos line.m_beginPos) ≤ 1)) ∧
    (¬ |Vector.dot plane.m_normal (Vector.sub line.m_endPos line.m_beginPos)| < epsilon →
      (Line.intersectsPlane epsilon 0 line plane = false ↔
        (plane.m_distance - Vector.dot plane.m_normal line.m_beginPos)
            / Vector.dot plane.m_normal (Vector.sub line.m_endPos line.m_beginPos) < 0 ∨
        1 < (plane.m_distance - Vector.dot plane.m_normal line.m_beginPos)
            / Vector.dot plane.m_normal (Vector.sub line.m_endPos line.m_beginPos))) := by
  have hpar : |Vector.dot plane.m_normal (Vector.sub line.m_endPos line.m_beginPos)| < epsilon →
      Line.intersectsPlane epsilon 0 line plane = false := by
    intro h
    simp only [Line.intersectsPlane, if_pos h]
  have hiff : ¬ |Vector.dot plane.m_normal (Vector.sub line.m_endPos line.m_beginPos)| < epsilon →
      (Line.intersectsPlane epsilon 0 line plane = true ↔
        0 ≤ (plane.m_distance - Vector.dot plane.m_normal line.m_beginPos)
            / Vector.dot plane.m_normal (Vector.sub line.m_endPos line.m_beginPos) ∧
        (plane.m_distance - Vector.dot plane.m_normal line.m_beginPos)
            / Vector.dot plane.m_normal (Vector.sub line.m_endPos line.m_beginPos) ≤ 1) := by
    intro h
    simp only [Line.intersectsPlane, if_neg h, decide_eq_true_eq, neg_zero, add_zero]
  refine ⟨hpar, ?_, hiff, ?_⟩
  · intro hb he
    apply hpar
    rw [dot_sub_vec3, hb, he, sub_self, abs_zero]
    exact heps
  · intro h
    rw [← Bool.not_eq_true, hiff h, not_and_or, not_le, not_le]

/-- C7, witness: `line2` and `plane1` of the tests, crossed at the end of the segment,
`t = 1`; the plane `planeBeyond`, crossed by the infinite line at `t = 1.0005`, is not
crossed within the segment. -/
theorem Line_intersectsPlane_segment_witness :
    Line.intersectsPlane (1 / 1000 : ℚ) 0 line2 plane1 = true ∧
    Line.intersectsPlane (1 / 1000 : ℚ) 0 line2 planeBeyond = false := by
  have h1 := (Line_intersectsPlane_segment (1 / 1000 : ℚ) line2 plane1 (by norm_num)).2.2.1
  have h2 := (Line_intersectsPlane_segment (1 / 1000 : ℚ) line2 planeBeyond
    (by norm_num)).2.2.2
  constructor
  · refine (h1 ?_).mpr ?_ <;>
      simp only [dot_vec3, Vector.sub, line2, plane1] <;> norm_num
  · refine (h2 ?_).mpr ?_ <;>
      simp only [dot_vec3, Vector.sub, line2, planeBeyond] <;> norm_num

/-- For a non-zero direction component, the interval between the entry and the exit
parameters of a slab is the set of parameters whose point lies in the slab. -/
theorem slab_interval (start dir lo hi t : α) (hd : dir ≠ 0) (hlohi : lo ≤ hi) :
    (min ((lo - start) * (1 / dir)) ((hi - start) * (1 / dir)) ≤ t ∧
      t ≤ max ((lo - start) * (1 / dir)) ((hi - start) * (1 / dir))) ↔
    (lo ≤ start + dir * t ∧ start + dir * t ≤ hi) := by
  rcases lt_or_gt_of_ne hd with hneg | hpos
  · have hinv : 1 / dir ≤ 0 := le_of_lt (one_div_neg.mpr hneg)
    have h12 : (hi - start) * (1 / dir) ≤ (lo - start) * (1 / dir) :=
      mul_le_mul_of_nonpos_right (sub_le_sub_right hlohi start) hinv
    rw [min_eq_right h12, max_eq_left h12, mul_one_div, mul_one_div,
      div_le_iff_of_neg hneg, le_div_iff_of_neg hneg]
    constructor <;> rintro ⟨h1, h2⟩ <;> constructor <;> linarith
  · have hinv : 0 ≤ 1 / dir := le_of_lt (one_div_pos.mpr hpos)
    have h12 : (lo - start) * (1 / dir) ≤ (hi - start) * (1 / dir) :=
      mul_le_mul_of_nonneg_right (sub_le_sub_right hlohi start) hinv
    rw [min_eq_left h12, max_eq_right h12, mul_one_div, mul_one_div,
      div_le_iff₀ hpos, le_div_iff₀ hpos]
    constructor <;> rintro ⟨h1, h2⟩ <;> constructor <;> linarith

/-- One axis of the slab method keeps exactly the parameters allowed so far whose point
lies in the slab of that axis. -/
theorem slabAxis_admits (start dir lo hi : α) (hlohi : lo ≤ hi) (acc : SlabRange α) (t : α) :
    SlabRange.admits (slabAxis start dir lo hi acc) t ↔
      SlabRange.admits acc t ∧ lo ≤ start + dir * t ∧ start + dir * t ≤ hi := by
  cases acc with
  | rejected => simp [slabAxis, SlabRange.admits]
  | unconstrained =>
    by_cases hd : dir = 0
    · subst hd
      by_cases hout : start < lo ∨ hi < start
      · simp only [slabAxis, if_true, if_pos hout, SlabRange.admits, zero_mul, add_zero,
          true_and, false_iff, not_and, not_le]
        intro h
        rcases hout with h1 | h1
        · exact absurd h (not_le.mpr h1)
        · exact h1
      · simp only [slabAxis, if_true, if_neg hout, SlabRange.admits, zero_mul, add_zero,
          true_and, true_iff]
        push_neg at hout
        exact hout
    · simp only [slabAxis, if_neg hd, SlabRange.admits, true_and]
      exact slab_interval start dir lo hi t hd hlohi
  | range tMin tMax =>
    by_cases hd : dir = 0
    · subst hd
      by_cases hout : start < lo ∨ hi < start
      · simp only [slabAxis, if_true, if_pos hout, SlabRange.admits, zero_mul, add_zero,
          false_iff, not_and, not_le]
        intro _ h
        rcases hout with h1 | h1
        · exact absurd h (not_le.mpr h1)
        · exact h1
      · simp only [slabAxis, if_true, if_neg hout, SlabRange.admits, zero_mul, add_zero]
        push_neg at hout
        tauto
    · simp only [slabAxis, if_neg hd, SlabRange.admits, max_le_iff, le_min_iff]
      have h := slab_interval start dir lo hi t hd hlohi
      tauto

/-- The result of `Line::intersects(AABB)` in terms of the final running interval: some
parameter of `[0,1]` is allowed. -/
theorem intersectsAABB_iff_admits (line : Line α) (box : AABB α) :
    Line.intersectsAABB line box = true ↔
      ∃ t : α, 0 ≤ t ∧ t ≤ 1 ∧ SlabRange.admits (Line.slabRange line box) t := by
  unfold Line.intersectsAABB
  cases Line.slabRange line box with
  | rejected => simp [SlabRange.admits]
  | unconstrained =>
    simp only [SlabRange.admits, and_true, true_iff]
    exact ⟨0, le_refl _, zero_le_one⟩
  | range tMin tMax =>
    simp only [SlabRange.admits, decide_eq_true_eq]
    constructor
    · rintro ⟨h1, h2, h3⟩
      exact ⟨max tMin 0, le_max_right _ _, max_le h2 zero_le_one, le_max_left _ _,
        max_le h1 h3⟩
    · rintro ⟨t, h0, h1, h2, h3⟩
      exact ⟨le_trans h2 h3, le_trans h2 h1, le_trans h0 h3⟩

/-- C8: for a box with min ≤ max on each axis, `Line::intersects(AABB)` returns true
exactly when the running interval of the slab method, intersected over the three axes,
meets the segment range `[0,1]`, that is exactly when some point
`start + t * (end − start)` with `0 ≤ t ≤ 1` lies in the box, boundary included. -/
theorem Line_intersectsAABB_iff (line : Line α) (box : AABB α)
    (hbox : ∀ i : Fin 3, box.m_leftBottomBackPos i ≤ box.m_rightTopFrontPos i) :
    (Line.intersectsAABB line box = true ↔
      ∃ t : α, 0 ≤ t ∧ t ≤ 1 ∧ SlabRange.admits (Line.slabRange line box) t) ∧
    (Line.intersectsAABB line box = true ↔
      ∃ t : α, 0 ≤ t ∧ t ≤ 1 ∧ AABB.contains box (Line.pointAt line t) = true) := by
  refine ⟨intersectsAABB_iff_admits line box, ?_⟩
  rw [intersectsAABB_iff_admits]
  have hpt : ∀ t : α, SlabRange.admits (Line.slabRange line box) t ↔
      AABB.contains box (Line.pointAt line t) = true := by
    intro t
    simp only [Line.slabRange]
    rw [slabAxis_admits _ _ _ _ (hbox 2), slabAxis_admits _ _ _ _ (hbox 1),
      slabAxis_admits _ _ _ _ (hbox 0)]
    simp only [SlabRange.admits, true_and, AABB.contains, decide_eq_true_eq, Line.pointAt,
      Vector.add, Vector.scale, Vector.sub]
    tauto
  constructor
  · rintro ⟨t, h0, h1, h⟩
    exact ⟨t, h0, h1, (hpt t).mp h⟩
  · rintro ⟨t, h0, h1, h⟩
    exact ⟨t, h0, h1, (hpt t).mpr h⟩

/-- C8, witness: `line4` and `aabb3` of the tests; the segment starts on an edge of the
box and has a zero direction component along Z. -/
theorem Line_intersectsAABB_iff_witness :
    (∀ i : Fin 3, aabb3.m_leftBottomBackPos i ≤ aabb3.m_rightTopFrontPos i) ∧
    Line.intersectsAABB line4 aabb3 = true := by
  have hbox : ∀ i : Fin 3, aabb3.m_leftBottomBackPos i ≤ aabb3.m_rightTopFrontPos i := by
    intro i
    fin_cases i <;> norm_num [aabb3]
  refine ⟨hbox, (Line_intersectsAABB_iff line4 aabb3 hbox).2.mpr
    ⟨0, le_refl _, zero_le_one, ?_⟩⟩
  simp only [AABB.contains, Line.pointAt, Vector.add, Vector.scale, Vector.sub, line4, aabb3]
  norm_num

/-- The cross product of a vector with itself is zero on each component. -/
theorem cross_self_apply (a : Vec3f α) (i : Fin 3) : Vector.cross a a i = 0 := by
  fin_cases i <;> simp [Vector.cross] <;> ring

/-- The cross product of a vector with its opposite is zero on each component. -/
theorem cross_neg_self_apply (a : Vec3f α) (i : Fin 3) :
    Vector.cross a (Vector.neg a) i = 0 := by
  fin_cases i <;> simp [Vector.cross, Vector.neg] <;> ring

/-- The result of `Plane::intersects` in terms of the cross product of the normals. -/
theorem Plane_intersects_iff (epsilon : α) (plane other : Plane α) :
    Plane.intersects epsilon plane other = true ↔
      ∃ i : Fin 3, epsilon ≤ |Vector.cross plane.m_normal other.m_normal i| := by
  simp only [Plane.intersects, Bool.not_eq_true', decide_eq_false_iff_not, not_and_or, not_lt]
  constructor
  · rintro (h | h | h)
    · exact ⟨0, h⟩
    · exact ⟨1, h⟩
    · exact ⟨2, h⟩
  · rintro ⟨i, h⟩
    fin_cases i
    · exact Or.inl h
    · exact Or.inr (Or.inl h)
    · exact Or.inr (Or.inr h)

/-- C9 (amended): `Plane::intersects` is false for every plane tested against itself and
for every pair of planes with equal or opposite normals, and it is true exactly for the
pairs of planes whose normals are not parallel up to the tolerance: the cross product of
the normals has a component of absolute value at least epsilon. -/
theorem Plane_intersects_parallel (epsilon : α) (plane other : Plane α) (heps : 0 < epsilon) :
    Plane.intersects epsilon plane plane = false ∧
    ((other.m_normal = plane.m_normal ∨ other.m_normal = Vector.neg plane.m_normal) →
      Plane.intersects epsilon plane other = false) ∧
    (Plane.intersects epsilon plane other = true ↔
      ∃ i : Fin 3, epsilon ≤ |Vector.cross plane.m_normal other.m_normal i|) := by
  refine ⟨?_, ?_, Plane_intersects_iff epsilon plane other⟩
  · rw [← Bool.not_eq_true, Plane_intersects_iff]
    rintro ⟨i, h⟩
    rw [cross_self_apply, abs_zero] at h
    exact absurd heps (not_lt.mpr h)
  · intro hn
    rw [← Bool.not_eq_true, Plane_intersects_iff]
    rintro ⟨i, h⟩
    rcases hn with hn | hn
    · rw [hn, cross_self_apply, abs_zero] at h
      exact absurd heps (not_lt.mpr h)
    · rw [hn, cross_neg_self_apply, abs_zero] at h
      exact absurd heps (not_lt.mpr h)

/-- C9, witness: `plane1` of the tests against itself and against a tilted plane, with an
epsilon of `1/1000`. -/
theorem Plane_intersects_parallel_witness :
    Plane.intersects (1 / 1000) plane1 plane1 = false ∧
    Plane.intersects (1 / 1000) plane1 planeTilted = true := by
  have h := Plane_intersects_parallel (1 / 1000 : ℚ) plane1 planeTilted (by norm_num)
  refine ⟨h.1, h.2.2.mpr ⟨2, ?_⟩⟩
  simp only [Vector.cross, plane1, planeTilted]
  norm_num
  rw [abs_of_pos (by norm_num)]
  norm_num

/-- C9, counterexample: with an epsilon of `1/1000`, `plane1` and a plane whose unit normal
is neither equal nor opposite to that of `plane1` (their cross product is not zero) do not
intersect. -/
theorem Plane_intersects_nearly_parallel :
    Vector.dot plane1.m_normal plane1.m_normal = 1 ∧
    Vector.dot planeNearlyY.m_normal planeNearlyY.m_normal = 1 ∧
    planeNearlyY.m_normal ≠ plane1.m_normal ∧
    planeNearlyY.m_normal ≠ Vector.neg plane1.m_normal ∧
    Vector.cross plane1.m_normal planeNearlyY.m_normal 2 ≠ 0 ∧
    Plane.intersects (1 / 1000) plane1 planeNearlyY = false := by
  refine ⟨?_, ?_, ?_, ?_, ?_, ?_⟩
  · simp only [dot_vec3, plane1]
    norm_num
  · simp only [dot_vec3, planeNearlyY]
    norm_num
  · intro h
    have h0 := congrFun h 0
    simp only [plane1, planeNearlyY] at h0
    norm_num at h0
  · intro h
    have h0 := congrFun h 0
    simp only [plane1, planeNearlyY, Vector.neg] at h0
    norm_num at h0
  · simp only [Vector.cross, plane1, planeNearlyY]
    norm_num
  · simp only [Plane.intersects, Vector.cross, plane1, planeNearlyY]
    norm_num
    rw [abs_of_pos (by norm_num)]
    norm_num

/-- Exchanging two vertices of a triangle negates the dot product of its normal with any
axis. -/
theorem dot_computeNormal_swapVertices (sw : VertexSwap) (triangle : Triangle α)
    (axis : Vec3f α) :
    Vector.dot (Triangle.computeNormal (Triangle.swapVertices sw triangle)) axis
      = - Vector.dot (Triangle.computeNormal triangle) axis := by
  cases sw <;>
    simp [dot_vec3, Triangle.computeNormal, Triangle.swapVertices, Vector.cross, Vector.sub] <;>
    ring

/-- C10: for a triangle and an axis with `dot(cross(v1 − v0, v2 − v0), axis) ≠ 0`,
`isCounterClockwise(axis)` holds iff that dot product is positive; after
`makeCounterClockwise(axis)` the triangle is counter-clockwise; a triangle that was
counter-clockwise is unchanged, one that was not has two vertices exchanged; the set of its
vertices is the same in both cases. -/
theorem Triangle_makeCounterClockwise (sw : VertexSwap) (triangle : Triangle α)
    (axis : Vec3f α)
    (hne : Vector.dot (Vector.cross (Vector.sub triangle.m_secondPos triangle.m_firstPos)
      (Vector.sub triangle.m_thirdPos triangle.m_firstPos)) axis ≠ 0) :
    (Triangle.isCounterClockwise triangle axis = true ↔
      0 < Vector.dot (Vector.cross (Vector.sub triangle.m_secondPos triangle.m_firstPos)
        (Vector.sub triangle.m_thirdPos triangle.m_firstPos)) axis) ∧
    Triangle.isCounterClockwise (Triangle.makeCounterClockwise sw triangle axis) axis = true ∧
    (Triangle.isCounterClockwise triangle axis = true →
      Triangle.makeCounterClockwise sw triangle axis = triangle) ∧
    (Triangle.isCounterClockwise triangle axis = false →
      Triangle.makeCounterClockwise sw triangle axis = Triangle.swapVertices sw triangle) ∧
    (∀ v : Vec3f α, v ∈ Triangle.vertices (Triangle.makeCounterClockwise sw triangle axis) ↔
      v ∈ Triangle.vertices triangle) := by
  have hccw : ∀ t : Triangle α, Triangle.isCounterClockwise t axis = true ↔
      0 < Vector.dot (Triangle.computeNormal t) axis := by
    intro t
    simp only [Triangle.isCounterClockwise, decide_eq_true_eq]
  refine ⟨hccw triangle, ?_, ?_, ?_, ?_⟩
  · unfold Triangle.makeCounterClockwise
    by_cases h : Triangle.isCounterClockwise triangle axis = true
    · rw [if_pos h]
      exact h
    · rw [if_neg h, hccw, dot_computeNormal_swapVertices]
      have hle := not_lt.mp (fun hpos => h ((hccw triangle).mpr hpos))
      have hlt : Vector.dot (Triangle.computeNormal triangle) axis < 0 :=
        lt_of_le_of_ne hle hne
      linarith
  · intro h
    simp only [Triangle.makeCounterClockwise, if_pos h]
  · intro h
    simp only [Triangle.makeCounterClockwise, h, Bool.false_eq_true, if_false]
  · intro v
    unfold Triangle.makeCounterClockwise
    by_cases h : Triangle.isCounterClockwise triangle axis = true
    · rw [if_pos h]
    · rw [if_neg h]
      cases sw <;> simp only [Triangle.swapVertices, Triangle.vertices, List.mem_cons,
        List.mem_singleton, List.not_mem_nil, or_false] <;> tauto

/-- C10, witness: `testTriangle1` of the tests and the Z axis; the triangle is clockwise
and is made counter-clockwise. -/
theorem Triangle_makeCounterClockwise_witness :
    Triangle.isCounterClockwise testTriangle1 axisZ = false ∧
    Triangle.isCounterClockwise
      (Triangle.makeCounterClockwise VertexSwap.firstThird testTriangle1 axisZ) axisZ = true := by
  have hdot : Vector.dot (Vector.cross
      (Vector.sub testTriangle1.m_secondPos testTriangle1.m_firstPos)
      (Vector.sub testTriangle1.m_thirdPos testTriangle1.m_firstPos)) axisZ = -2 := by
    simp only [dot_vec3, Vector.cross, Vector.sub, testTriangle1, axisZ]
    norm_num
  have h := Triangle_makeCounterClockwise VertexSwap.firstThird testTriangle1 axisZ
    (by rw [hdot]; norm_num)
  refine ⟨?_, h.2.1⟩
  rw [← Bool.not_eq_true, h.1, hdot]
  norm_num

end ShapeTheorems

/-! ## Vector kernel: construction and algebra -/

section VectorTheorems

/-- Assigning `g i` at every index `i` of a list of indices, one after the other, leaves
`g j` at the indices `j` of the list and the initial value elsewhere. -/
theorem foldl_update_apply {T : Type} {m : Nat} (g : Fin m → T) (l : List (Fin m)) :
    ∀ (init : Fin m → T) (j : Fin m),
      (l.foldl (fun data i => Function.update data i (g i)) init) j
        = if j ∈ l then g j else init j := by
  induction l with
  | nil => intro init j; simp
  | cons a l ih =>
    intro init j
    rw [List.foldl_cons, ih]
    by_cases hj : j ∈ l
    · simp [hj]
    · by_cases hja : j = a
      · subst hja
        simp [hj]
      · simp [hj, hja, Function.update_noteq hja]

/-- The loop of the initializer-list constructor, run on a list of the size of the
vector, leaves the list's `i`-th value at index `i`. -/
theorem ofInitializerList_eq_get {T : Type} (list : List T) (init : Vector T list.length) :
    Vector.ofInitializerList init list = some (fun i => list.get i) := by
  unfold Vector.ofInitializerList
  rw [dif_pos rfl]
  congr 1
  funext j
  rw [Fin.foldl_eq_foldl_finRange]
  have h := foldl_update_apply (fun i => list.get i) (List.finRange list.length) init j
  simp only [Fin.cast_eq_self]
  rw [h, if_pos (List.mem_finRange j)]

/-- C11: a `Vector` of dimension `N` constructed from an initializer list of exactly `N`
scalars is produced, and its element `i` is the `i`-th scalar supplied, for every
`i < N`, whatever the array held before. -/
theorem ofInitializerList_elements {T : Type} {n : Nat} (init : Vector T n) (list : List T)
    (hlen : list.length = n) :
    ∃ v : Vector T n, Vector.ofInitializerList init list = some v ∧
      ∀ (i : Nat) (hi : i < n), v ⟨i, hi⟩ = list.get ⟨i, hlen ▸ hi⟩ := by
  subst hlen
  exact ⟨fun i => list.get i, ofInitializerList_eq_get list init, fun _ _ => rfl⟩

/-- C11, witness: `Vec3f({ 1, 2, 3 })`. -/
theorem ofInitializerList_elements_witness :
    ∃ v : Vec3f ℚ, Vector.ofInitializerList (Vector.fill 0) [1, 2, 3] = some v ∧
      v 0 = 1 ∧ v 1 = 2 ∧ v 2 = 3 := by
  obtain ⟨v, hv, h⟩ := ofInitializerList_elements (Vector.fill 0 : Vec3f ℚ) [1, 2, 3] rfl
  exact ⟨v, hv, h 0 (by decide), h 1 (by decide), h 2 (by decide)⟩

/-- C12: the construction of a `Vector` of dimension `N` from an initializer list fails
(the assertion does not hold) if and only if the number of values supplied differs from
`N`; a vector is produced only from a list of exactly `N` values. -/
theorem ofInitializerList_fails_iff {T : Type} {n : Nat} (init : Vector T n) (list : List T) :
    (Vector.ofInitializerList init list = none ↔ list.length ≠ n) ∧
    (∀ v : Vector T n, Vector.ofInitializerList init list = some v → list.length = n) ∧
    (list.length < n → Vector.ofInitializerList init list = none) ∧
    (n < list.length → Vector.ofInitializerList init list = none) := by
  have hiff : Vector.ofInitializerList init list = none ↔ list.length ≠ n := by
    unfold Vector.ofInitializerList
    by_cases h : n = list.length
    · rw [dif_pos h]
      simp [h]
    · rw [dif_neg h]
      simp only [true_iff]
      exact fun h2 => h h2.symm
  refine ⟨hiff, ?_, fun h => hiff.mpr (Nat.ne_of_lt h), fun h => hiff.mpr (Nat.ne_of_gt h)⟩
  intro v hv
  by_contra hne
  rw [hiff.mpr hne] at hv
  exact Option.noConfusion hv

/-- C12, witness: `Vec3f({ 1, 2 })` and `Vec3f({ 1, 2, 3, 4 })` produce no vector. -/
theorem ofInitializerList_fails_iff_witness :
    Vector.ofInitializerList (Vector.fill 0 : Vec3f ℚ) [1, 2] = none ∧
    Vector.ofInitializerList (Vector.fill 0 : Vec3f ℚ) [1, 2, 3, 4] = none :=
  ⟨(ofInitializerList_fails_iff (Vector.fill 0 : Vec3f ℚ) [1, 2]).1.mpr (by decide),
   (ofInitializerList_fails_iff (Vector.fill 0 : Vec3f ℚ) [1, 2, 3, 4]).2.2.2 (by decide)⟩

variable {α : Type} [LinearOrderedField α]

/-- A loop that adds `g i` to an accumulator starting at zero computes the sum of the
`g i`. -/
theorem foldl_add_eq_sum : ∀ (n : Nat) (g : Fin n → α),
    Fin.foldl n (fun res i => res + g i) 0 = ∑ i : Fin n, g i := by
  intro n
  induction n with
  | zero => intro g; simp
  | succ n ih =>
    intro g
    rw [Fin.foldl_succ_last, Fin.sum_univ_castSucc]
    have h := ih (fun i => g i.castSucc)
    simp only at h
    rw [h]

/-- The dot product is the sum of the products of the components. -/
theorem dot_eq_sum {n : Nat} (a b : Vector α n) :
    Vector.dot a b = ∑ i : Fin n, a i * b i :=
  foldl_add_eq_sum n (fun i => a i * b i)

/-- C13: for all three-dimensional vectors `a` and `b`, `a.cross(b)` is the component-wise
negation of `b.cross(a)`. -/
theorem cross_anticommutative (a b : Vec3f α) :
    Vector.cross a b = Vector.neg (Vector.cross b a) ∧
    (∀ i : Fin 3, Vector.cross a b i = - Vector.cross b a i) := by
  have h : ∀ i : Fin 3, Vector.cross a b i = - Vector.cross b a i := by
    intro i
    fin_cases i <;> simp [Vector.cross] <;> ring
  exact ⟨funext h, h⟩

/-- C14: for all vectors `a` and `b` of the same dimension, `a.dot(b)` equals `b.dot(a)`,
and both are the sum over `i` of `a[i] * b[i]`. -/
theorem dot_commutative {n : Nat} (a b : Vector α n) :
    Vector.dot a b = Vector.dot b a ∧
    Vector.dot a b = ∑ i : Fin n, a i * b i ∧
    Vector.dot b a = ∑ i : Fin n, a i * b i := by
  have hba : Vector.dot b a = ∑ i : Fin n, a i * b i := by
    rw [dot_eq_sum]
    exact Finset.sum_congr rfl (fun i _ => mul_comm _ _)
  exact ⟨(dot_eq_sum a b).trans hba.symm, dot_eq_sum a b, hba⟩

/-- The entry of the identity matrix at row `i` and column `j`. -/
theorem identity_flatIndex {n : Nat} (i j : Fin n) :
    (Matrix.identity n : Matrix α n n) (Matrix.flatIndex i j) = if i = j then 1 else 0 := by
  have hn : 0 < n := Nat.lt_of_le_of_lt (Nat.zero_le _) i.isLt
  have hdiv : (i.val * n + j.val) / n = i.val := by
    rw [Nat.add_comm, Nat.add_mul_div_right _ _ hn, Nat.div_eq_of_lt j.isLt, Nat.zero_add]
  have hmod : (i.val * n + j.val) % n = j.val := by
    rw [Nat.add_comm, Nat.add_mul_mod_self_right, Nat.mod_eq_of_lt j.isLt]
  simp only [Matrix.identity, Matrix.flatIndex, hdiv, hmod, Fin.val_inj]

/-- C16: `Vector * Matrix` uses the row-vector convention on a row-major matrix: for a
square matrix `M`, component `j` of `v * M` is the sum over `i` of
`v[i] * M[i * Size + j]`; consequently `v * identity = v`. -/
theorem mulMatrix_row_vector {n : Nat} (v : Vector α n) (M : Matrix α n n) :
    (∀ j : Fin n, Vector.mulMatrix (le_refl n) v M j
      = ∑ i : Fin n, v i * M (Matrix.flatIndex i j)) ∧
    (∀ i j : Fin n, (Matrix.flatIndex i j : Fin (n * n)).val = i.val * n + j.val) ∧
    Vector.mulMatrix (le_refl n) v (Matrix.identity n) = v := by
  have hsum : ∀ (N : Matrix α n n) (j : Fin n), Vector.mulMatrix (le_refl n) v N j
      = ∑ i : Fin n, v i * N (Matrix.flatIndex i j) := by
    intro N j
    unfold Vector.mulMatrix
    rw [foldl_add_eq_sum]
    rfl
  refine ⟨hsum M, fun _ _ => rfl, ?_⟩
  funext j
  rw [hsum]
  simp only [identity_flatIndex, mul_ite, mul_one, mul_zero]
  rw [Finset.sum_ite_eq' Finset.univ j (fun i => v i), if_pos (Finset.mem_univ j)]

end VectorTheorems

/-! ## Hashing -/

section HashTheorems

/-- One pass of the loop of `Vector::hash`, each operation reduced modulo `2 ^ w`, is the
mixing step of the specification, the sum reduced once. -/
theorem hashCombine_eq_spec {T : Type} (w : Nat) (stdHash : T → Nat) (seed : Nat) (elt : T) :
    hashCombine w (stdHash elt) seed = specHashStep w stdHash seed elt := by
  simp only [hashCombine, specHashStep, sizeMod, Nat.add_mod_mod, Nat.mod_add_mod]

/-- The loop of `Vector::hash` is the fold of the mixing step over the elements. -/
theorem hash_eq_specHashFold {T : Type} {n : Nat} (w : Nat) (stdHash : T → Nat)
    (v : Vector T n) (seed : Nat) :
    Vector.hash w stdHash v seed = specHashFold w stdHash (List.ofFn v) seed := by
  unfold Vector.hash specHashFold
  rw [Fin.foldl_eq_foldl_finRange, List.ofFn_eq_map, List.foldl_map]
  congr 1
  funext acc i
  exact hashCombine_eq_spec w stdHash acc (v i)

/-- The mixing step keeps the seed below `2 ^ w`. -/
theorem specHashStep_lt {T : Type} (w : Nat) (stdHash : T → Nat) (seed : Nat) (elt : T)
    (hseed : seed < 2 ^ w) : specHashStep w stdHash seed elt < 2 ^ w :=
  Nat.xor_lt_two_pow hseed (Nat.mod_lt _ (Nat.two_pow_pos w))

/-- The fold of the mixing step keeps the seed below `2 ^ w`. -/
theorem specHashFold_lt {T : Type} (w : Nat) (stdHash : T → Nat) (elts : List T) :
    ∀ seed : Nat, seed < 2 ^ w → specHashFold w stdHash elts seed < 2 ^ w := by
  induction elts with
  | nil => intro seed h; exact h
  | cons elt elts ih =>
    intro seed h
    exact ih _ (specHashStep_lt w stdHash seed elt h)

/-- C17: for a seed that is a `w`-bit `size_t`, `Vector::hash(seed)` is the left-to-right
fold over the elements of the vector of the step
`seed := seed XOR (hash(elt) + 0x9e3779b9 + (seed << 6) + (seed >> 2))`, the arithmetic
modulo `2 ^ w`, starting from the seed supplied; the result is again below `2 ^ w`. -/
theorem Vector_hash_fold {T : Type} {n : Nat} (w : Nat) (stdHash : T → Nat) (v : Vector T n)
    (seed : Nat) (hseed : seed < 2 ^ w) :
    Vector.hash w stdHash v seed
      = (List.ofFn v).foldl
          (fun s elt => s ^^^ ((stdHash elt + 0x9e3779b9 + (s <<< 6) + (s >>> 2)) % 2 ^ w))
          seed ∧
    Vector.hash w stdHash v seed = specHashFold w stdHash (List.ofFn v) seed ∧
    Vector.hash w stdHash v seed < 2 ^ w ∧
    (∀ (s : Nat) (elt : T), specHashStep w stdHash s elt
      = s ^^^ ((stdHash elt + 2654435769 + s * 64 + s / 4) % 2 ^ w)) := by
  have h := hash_eq_specHashFold w stdHash v seed
  refine ⟨h, h, ?_, ?_⟩
  · rw [h]
    exact specHashFold_lt w stdHash _ seed hseed
  · intro s elt
    simp only [specHashStep, Nat.shiftLeft_eq, Nat.shiftRight_eq_div_pow]

/-- C17, witness: the hash of `(1, 2, 3)` from the seed `0` on a 64-bit `size_t`. -/
theorem Vector_hash_fold_witness :
    Vector.hash 64 ratHash (![1, 2, 3] : Vec3f ℚ) 0
        = specHashFold 64 ratHash (List.ofFn (![1, 2, 3] : Vec3f ℚ)) 0 ∧
    Vector.hash 64 ratHash (![1, 2, 3] : Vec3f ℚ) 0 < 2 ^ 64 :=
  ⟨(Vector_hash_fold 64 ratHash (![1, 2, 3] : Vec3f ℚ) 0 (by norm_num)).2.1,
   (Vector_hash_fold 64 ratHash (![1, 2, 3] : Vec3f ℚ) 0 (by norm_num)).2.2.1⟩

/-- C18: the hash of a `Vertex` chains the four field hashes in the order position,
texcoords, normal, tangent from the seed `0`; it is the single fold of the mixing step,
from the seed `0`, over the eleven scalars `position[0..2]`, `texcoords[0..1]`,
`normal[0..2]`, `tangent[0..2]` in that order. -/
theorem Vertex_hash_single_fold {α : Type} (w : Nat) (stdHash : α → Nat) (vert : Vertex α) :
    Vertex.hash w stdHash vert
      = Vector.hash w stdHash vert.tangent
          (Vector.hash w stdHash vert.normal
            (Vector.hash w stdHash vert.texcoords
              (Vector.hash w stdHash vert.position 0))) ∧
    Vertex.hash w stdHash vert = specHashFold w stdHash (Vertex.scalars vert) 0 ∧
    Vertex.scalars vert
      = List.ofFn vert.position ++ List.ofFn vert.texcoords ++ List.ofFn vert.normal
          ++ List.ofFn vert.tangent ∧
    (Vertex.scalars vert).length = 11 := by
  have hs : Vertex.scalars vert
      = List.ofFn vert.position ++ List.ofFn vert.texcoords ++ List.ofFn vert.normal
          ++ List.ofFn vert.tangent := by
    simp [Vertex.scalars, List.ofFn_succ]
  refine ⟨rfl, ?_, hs, rfl⟩
  rw [hs]
  simp only [Vertex.hash, hash_eq_specHashFold, specHashFold, List.foldl_append]

/-- The comparison of two vectors is true exactly when they are equal. -/
theorem Vector_equals_iff {T : Type} [DecidableEq T] {n : Nat} (a b : Vector T n) :
    Vector.equals a b = true ↔ a = b := by
  simp only [Vector.equals, decide_eq_true_eq]
  exact ⟨funext, fun h i => congrFun h i⟩

/-- C19: two vertices compare equal iff their position, texcoords, normal and tangent are
component-wise equal; two vertices that compare equal have the same hash; the hash of a
vertex is a function of its fields, the same at every call. -/
theorem Vertex_equals_hash_consistent {α : Type} [DecidableEq α] (w : Nat) (stdHash : α → Nat)
    (a b : Vertex α) :
    (Vertex.equals a b = true ↔
      (∀ i : Fin 3, a.position i = b.position i) ∧
      (∀ i : Fin 2, a.texcoords i = b.texcoords i) ∧
      (∀ i : Fin 3, a.normal i = b.normal i) ∧
      (∀ i : Fin 3, a.tangent i = b.tangent i)) ∧
    (Vertex.equals a b = true ↔ a = b) ∧
    (Vertex.equals a b = true → Vertex.hash w stdHash a = Vertex.hash w stdHash b) ∧
    Vertex.hash w stdHash a = Vertex.hash w stdHash a := by
  have hcomp : Vertex.equals a b = true ↔
      (∀ i : Fin 3, a.position i = b.position i) ∧
      (∀ i : Fin 2, a.texcoords i = b.texcoords i) ∧
      (∀ i : Fin 3, a.normal i = b.normal i) ∧
      (∀ i : Fin 3, a.tangent i = b.tangent i) := by
    simp only [Vertex.equals, Vector.equals, Bool.and_eq_true, decide_eq_true_eq, and_assoc]
  have heq : Vertex.equals a b = true ↔ a = b := by
    rw [hcomp]
    constructor
    · rintro ⟨h1, h2, h3, h4⟩
      cases a
      cases b
      simp only [Vertex.mk.injEq]
      exact ⟨funext h1, funext h2, funext h3, funext h4⟩
    · rintro rfl
      exact ⟨fun _ => rfl, fun _ => rfl, fun _ => rfl, fun _ => rfl⟩
  refine ⟨hcomp, heq, ?_, rfl⟩
  intro h
  rw [heq.mp h]

end HashTheorems

/-! ## Camera: the view matrix after a mutator -/

section CameraTheorems

variable {α : Type} [LinearOrderedField α]

/-- After `computeViewMatrix` the stored view matrix is current, the position and rotation
are as before, and a second call changes nothing. -/
theorem computeViewMatrix_current (ops : TransformOps α) (cam : Camera α) :
    (Camera.computeViewMatrix ops cam).1.toTransform = cam.toTransform ∧
    Camera.viewIsCurrent ops (Camera.computeViewMatrix ops cam).1 ∧
    (Camera.computeViewMatrix ops cam).2 = (Camera.computeViewMatrix ops cam).1.m_viewMat ∧
    Camera.computeViewMatrix ops (Camera.computeViewMatrix ops cam).1
      = Camera.computeViewMatrix ops cam := by
  refine ⟨rfl, ?_, rfl, rfl⟩
  simp [Camera.viewIsCurrent, Camera.computeViewMatrix, Transform.computeTranslationMatrix]

/-- C20: each of `Camera::move`, `Camera::translate` and `Camera::rotate` (and the two
overloads of `Camera.hpp`) applies the operation of `Transform` to the position and
rotation and then recomputes the view matrix: afterwards the position and rotation are
those the operation of `Transform` gives, the stored view matrix is
`rotation.inverse() * translationMatrix(-position)` of that state, and calling
`computeViewMatrix` again changes nothing. -/
theorem Camera_mutators_recompute_view (ops : TransformOps α) (cam : Camera α)
    (displacement : Vec3f α) (angle x y z : α) :
    ((Camera.move ops cam displacement).toTransform = ops.move cam.toTransform displacement ∧
      Camera.viewIsCurrent ops (Camera.move ops cam displacement) ∧
      (Camera.computeViewMatrix ops (Camera.move ops cam displacement)).1
        = Camera.move ops cam displacement) ∧
    ((Camera.translate ops cam x y z).toTransform = ops.translate cam.toTransform x y z ∧
      Camera.viewIsCurrent ops (Camera.translate ops cam x y z) ∧
      (Camera.computeViewMatrix ops (Camera.translate ops cam x y z)).1
        = Camera.translate ops cam x y z) ∧
    ((Camera.rotate ops cam angle x y z).toTransform
        = ops.rotate cam.toTransform angle x y z ∧
      Camera.viewIsCurrent ops (Camera.rotate ops cam angle x y z) ∧
      (Camera.computeViewMatrix ops (Camera.rotate ops cam angle x y z)).1
        = Camera.rotate ops cam angle x y z) ∧
    ((Camera.moveXYZ ops cam x y z).toTransform = ops.move cam.toTransform ![x, y, z] ∧
      Camera.viewIsCurrent ops (Camera.moveXYZ ops cam x y z) ∧
      (Camera.computeViewMatrix ops (Camera.moveXYZ ops cam x y z)).1
        = Camera.moveXYZ ops cam x y z) ∧
    ((Camera.translateVec ops cam displacement).toTransform
        = ops.translate cam.toTransform (displacement 0) (displacement 1) (displacement 2) ∧
      Camera.viewIsCurrent ops (Camera.translateVec ops cam displacement) ∧
      (Camera.computeViewMatrix ops (Camera.translateVec ops cam displacement)).1
        = Camera.translateVec ops cam displacement) := by
  have key : ∀ c : Camera α,
      (Camera.computeViewMatrix ops c).1.toTransform = c.toTransform ∧
      Camera.viewIsCurrent ops (Camera.computeViewMatrix ops c).1 ∧
      (Camera.computeViewMatrix ops (Camera.computeViewMatrix ops c).1).1
        = (Camera.computeViewMatrix ops c).1 := by
    intro c
    have h := computeViewMatrix_current ops c
    exact ⟨h.1, h.2.1, by rw [h.2.2.2]⟩
  exact ⟨key _, key _, key _, key _, key _⟩

/-- C20, evaluation: on the sample camera, rotated then moved, the view matrix stored is
the one recomputed from the final position and rotation. -/
theorem Camera_mutators_sample :
    (Camera.move sampleOps (Camera.rotate sampleOps sampleCamera 2 0 1 0) ![1, 2, 3]).m_viewMat
        ⟨13, by decide⟩ = 4 ∧
    (Camera.move sampleOps (Camera.rotate sampleOps sampleCamera 2 0 1 0)
        ![1, 2, 3]).m_position = Vector.add ![0, 0, 0] ![1, 2, 3] := by
  constructor
  · simp only [Camera.move, Camera.rotate, Camera.computeViewMatrix,
      Transform.computeTranslationMatrix, sampleOps, sampleCamera]
    norm_num
    simp only [Vector.neg, Vector.add, Matrix.cons_val_one, Matrix.head_cons]
    norm_num
  · rfl

/-- No function of `Camera.cpp` assigns `m_invViewMat` or `m_invProjMat`: after the
constructor they are those of the object before its body ran, and the mutators leave them as
they are. -/
theorem inverse_matrices_untouched (ops : TransformOps α) (fm : FloatMath α)
    (base cam : Camera α) (frameWidth frameHeight : Nat)
    (fieldOfViewDegrees nearPlane farPlane : α) (position displacement : Vec3f α)
    (angle x y z : α) :
    ((Camera.create ops fm base frameWidth frameHeight fieldOfViewDegrees nearPlane farPlane
        position).m_invViewMat = base.m_invViewMat ∧
      (Camera.create ops fm base frameWidth frameHeight fieldOfViewDegrees nearPlane farPlane
        position).m_invProjMat = base.m_invProjMat) ∧
    ((Camera.move ops cam displacement).m_invViewMat = cam.m_invViewMat ∧
      (Camera.move ops cam displacement).m_invProjMat = cam.m_invProjMat) ∧
    ((Camera.translate ops cam x y z).m_invViewMat = cam.m_invViewMat ∧
      (Camera.translate ops cam x y z).m_invProjMat = cam.m_invProjMat) ∧
    ((Camera.rotate ops cam angle x y z).m_invViewMat = cam.m_invViewMat ∧
      (Camera.rotate ops cam angle x y z).m_invProjMat = cam.m_invProjMat) :=
  ⟨⟨rfl, rfl⟩, ⟨rfl, rfl⟩, ⟨rfl, rfl⟩, ⟨rfl, rfl⟩⟩

/-- The projection matrix the constructor stores, row by row. -/
theorem create_projMat (ops : TransformOps α) (fm : FloatMath α) (base : Camera α)
    (frameWidth frameHeight : Nat) (fieldOfViewDegrees nearPlane farPlane : α)
    (position : Vec3f α) :
    (Camera.create ops fm base frameWidth frameHeight fieldOfViewDegrees nearPlane farPlane
      position).m_projMat
      = Mat4f.ofRows
          ![1 / ((frameWidth : α) / (frameHeight : α)
              * fm.tan (fieldOfViewDegrees * fm.pi / 180 / 2)), 0, 0, 0]
          ![0, 1 / fm.tan (fieldOfViewDegrees * fm.pi / 180 / 2), 0, 0]
          ![0, 0, farPlane / (farPlane - nearPlane), 1]
          ![0, 0, -(farPlane * nearPlane) / (farPlane - nearPlane), 1] :=
  rfl

/-- C22: `Camera::computeLookAt` changes only the stored view matrix: the position, the
rotation, the projection matrix, both inverse matrices and the scalar parameters are as
before; a `move`, `translate` or `rotate` performed after `computeLookAt` leaves the camera
in the state the same call leaves it in without the preceding `computeLookAt`, with the same
view matrix. -/
theorem computeLookAt_changes_view_only (ops : TransformOps α) (fm : FloatMath α)
    (cam : Camera α) (target orientation displacement : Vec3f α) (angle x y z : α) :
    (Camera.computeLookAt fm cam target orientation).1
      = { cam with m_viewMat := (Camera.computeLookAt fm cam target orientation).2 } ∧
    ((Camera.computeLookAt fm cam target orientation).1.m_position = cam.m_position ∧
      (Camera.computeLookAt fm cam target orientation).1.m_rotation = cam.m_rotation ∧
      (Camera.computeLookAt fm cam target orientation).1.m_projMat = cam.m_projMat ∧
      (Camera.computeLookAt fm cam target orientation).1.m_invViewMat = cam.m_invViewMat ∧
      (Camera.computeLookAt fm cam target orientation).1.m_invProjMat = cam.m_invProjMat ∧
      (Camera.computeLookAt fm cam target orientation).1.m_frameRatio = cam.m_frameRatio ∧
      (Camera.computeLookAt fm cam target orientation).1.m_fieldOfView = cam.m_fieldOfView ∧
      (Camera.computeLookAt fm cam target orientation).1.m_nearPlane = cam.m_nearPlane ∧
      (Camera.computeLookAt fm cam target orientation).1.m_farPlane = cam.m_farPlane) ∧
    (Camera.move ops (Camera.computeLookAt fm cam target orientation).1 displacement
        = Camera.move ops cam displacement ∧
      Camera.translate ops (Camera.computeLookAt fm cam target orientation).1 x y z
        = Camera.translate ops cam x y z ∧
      Camera.rotate ops (Camera.computeLookAt fm cam target orientation).1 angle x y z
        = Camera.rotate ops cam angle x y z) ∧
    ((Camera.move ops (Camera.computeLookAt fm cam target orientation).1
        displacement).m_viewMat = (Camera.move ops cam displacement).m_viewMat ∧
      (Camera.translate ops (Camera.computeLookAt fm cam target orientation).1
        x y z).m_viewMat = (Camera.translate ops cam x y z).m_viewMat ∧
      (Camera.rotate ops (Camera.computeLookAt fm cam target orientation).1
        angle x y z).m_viewMat = (Camera.rotate ops cam angle x y z).m_viewMat) :=
  ⟨rfl, ⟨rfl, rfl, rfl, rfl, rfl, rfl, rfl, rfl, rfl⟩, ⟨rfl, rfl, rfl⟩, ⟨rfl, rfl, rfl⟩⟩

/-- The projection matrix the constructor stores, entry by entry: for a camera built with
frame size `(width, height)`, field of view `fovDegrees` and planes `near`, `far`, with
`t = tan((fovDegrees * pi / 180) / 2)` and `ratio = width / height`, the entries are
`[0][0] = 1 / (ratio * t)`, `[1][1] = 1 / t`, `[2][2] = far / (far − near)`,
`[3][2] = −far * near / (far − near)`, `[2][3] = 1` and `[3][3] = 1`; every other entry
is `0`. -/
theorem create_projection_entries (ops : TransformOps α) (fm : FloatMath α) (base : Camera α)
    (frameWidth frameHeight : Nat) (fieldOfViewDegrees nearPlane farPlane : α)
    (position : Vec3f α) :
    (Camera.create ops fm base frameWidth frameHeight fieldOfViewDegrees nearPlane farPlane
      position).m_projMat
      = Mat4f.ofRows
          ![1 / ((frameWidth : α) / (frameHeight : α)
              * fm.tan (fieldOfViewDegrees * fm.pi / 180 / 2)), 0, 0, 0]
          ![0, 1 / fm.tan (fieldOfViewDegrees * fm.pi / 180 / 2), 0, 0]
          ![0, 0, farPlane / (farPlane - nearPlane), 1]
          ![0, 0, -(farPlane * nearPlane) / (farPlane - nearPlane), 1] ∧
    (Camera.create ops fm base frameWidth frameHeight fieldOfViewDegrees nearPlane farPlane
      position).m_projMat (Matrix.flatIndex 0 0)
      = 1 / ((frameWidth : α) / (frameHeight : α)
          * fm.tan (fieldOfViewDegrees * fm.pi / 180 / 2)) ∧
    (Camera.create ops fm base frameWidth frameHeight fieldOfViewDegrees nearPlane farPlane
      position).m_projMat (Matrix.flatIndex 1 1)
      = 1 / fm.tan (fieldOfViewDegrees * fm.pi / 180 / 2) ∧
    (Camera.create ops fm base frameWidth frameHeight fieldOfViewDegrees nearPlane farPlane
      position).m_projMat (Matrix.flatIndex 2 2) = farPlane / (farPlane - nearPlane) ∧
    (Camera.create ops fm base frameWidth frameHeight fieldOfViewDegrees nearPlane farPlane
      position).m_projMat (Matrix.flatIndex 3 2)
      = -(farPlane * nearPlane) / (farPlane - nearPlane) ∧
    (Camera.create ops fm base frameWidth frameHeight fieldOfViewDegrees nearPlane farPlane
      position).m_projMat (Matrix.flatIndex 2 3) = 1 ∧
    (Camera.create ops fm base frameWidth frameHeight fieldOfViewDegrees nearPlane farPlane
      position).m_projMat (Matrix.flatIndex 3 3) = 1 ∧
    (∀ row col : Fin 4, row ≠ col → ¬ (row = 2 ∧ col = 3) → ¬ (row = 3 ∧ col = 2) →
      (Camera.create ops fm base frameWidth frameHeight fieldOfViewDegrees nearPlane farPlane
        position).m_projMat (Matrix.flatIndex row col) = 0) := by
  refine ⟨rfl, rfl, rfl, rfl, rfl, rfl, rfl, ?_⟩
  intro row col h1 h2 h3
  rw [create_projMat]
  fin_cases row <;> fin_cases col <;> first
    | rfl
    | simp at h1 h2 h3

/-- C23, on the code: for the camera of frame 800 × 600, field of view 90 degrees and
planes 1 and 2, the entry `[3][3]` of the projection matrix is `1`, where the standard
symmetric-frustum matrix has `0`; the last row of `computePerspectiveMatrix` is
`{ 0, 0, -planeMult / planeDist, 1.f }`. -/
theorem create_projection_last_entry :
    (Camera.create sampleOps ratMath sampleCamera 800 600 90 1 2 ![0, 0, 0]).m_projMat
        (Matrix.flatIndex 3 3) = 1 ∧
    (Camera.create sampleOps ratMath sampleCamera 800 600 90 1 2 ![0, 0, 0]).m_projMat
        (Matrix.flatIndex 3 3) ≠ 0 := by
  have h : (Camera.create sampleOps ratMath sampleCamera 800 600 90 1 2 ![0, 0, 0]).m_projMat
      (Matrix.flatIndex 3 3) = 1 := rfl
  exact ⟨h, by rw [h]; exact one_ne_zero⟩

/-- The entry `[0][0]` of the product of a matrix whose first row is `(a, 0, 0, 0)` with a
matrix `d`. -/
theorem mulSquare_first_entry (a : α) (r1 r2 r3 : Vector α 4) (d : Mat4f α) :
    Matrix.mulSquare (Mat4f.ofRows ![a, 0, 0, 0] r1 r2 r3) d (Matrix.flatIndex 0 0)
      = a * d (Matrix.flatIndex 0 0) := by
  simp only [Matrix.mulSquare, Fin.sum_univ_four]
  change a * d (Matrix.flatIndex 0 0) + 0 * d (Matrix.flatIndex 1 0)
    + 0 * d (Matrix.flatIndex 2 0) + 0 * d (Matrix.flatIndex 3 0) = _
  simp

/-- C21, on the code: `Camera.cpp` never assigns the inverse matrices. Two cameras built
from the same default object with frames 1 × 1 and 2 × 1 (field of view 90 degrees, planes 1
and 2) both store, as inverse projection matrix, the matrix of the default object, whatever
it is; their projection matrices differ in the entry `[0][0]`, and no matrix is the inverse
of both. -/
theorem Camera_inverse_projection_not_maintained :
    (∀ base : Camera ℚ,
      (Camera.create sampleOps ratMath base 1 1 90 1 2 ![0, 0, 0]).m_invProjMat
          = base.m_invProjMat ∧
      (Camera.create sampleOps ratMath base 2 1 90 1 2 ![0, 0, 0]).m_invProjMat
          = base.m_invProjMat ∧
      (Camera.create sampleOps ratMath base 1 1 90 1 2 ![0, 0, 0]).m_invViewMat
          = base.m_invViewMat) ∧
    ¬ ∃ base : Camera ℚ,
      Matrix.isInverseOf
        (Camera.create sampleOps ratMath base 1 1 90 1 2 ![0, 0, 0]).m_invProjMat
        (Camera.create sampleOps ratMath base 1 1 90 1 2 ![0, 0, 0]).m_projMat ∧
      Matrix.isInverseOf
        (Camera.create sampleOps ratMath base 2 1 90 1 2 ![0, 0, 0]).m_invProjMat
        (Camera.create sampleOps ratMath base 2 1 90 1 2 ![0, 0, 0]).m_projMat := by
  refine ⟨fun base => ⟨rfl, rfl, rfl⟩, ?_⟩
  rintro ⟨base, hA, hB⟩
  have hA0 := congrFun hA.1 (Matrix.flatIndex 0 0)
  have hB0 := congrFun hB.1 (Matrix.flatIndex 0 0)
  rw [create_projMat, mulSquare_first_entry, identity_flatIndex, if_pos rfl] at hA0 hB0
  have hinv : (Camera.create sampleOps ratMath base 2 1 90 1 2 ![0, 0, 0]).m_invProjMat
      = (Camera.create sampleOps ratMath base 1 1 90 1 2 ![0, 0, 0]).m_invProjMat := rfl
  rw [hinv] at hB0
  simp only [ratMath] at hA0 hB0
  norm_num at hA0 hB0
  linarith

end CameraTheorems

/-! ## UV sphere: the index bands and the vertex layout -/

section UvBands

/-- A fold whose step appends `g r` to the accumulator appends the `g r` in order. -/
theorem foldl_append_flatMap {ι β : Type} (f : List β → ι → List β) (g : ι → List β)
    (hf : ∀ acc r, f acc r = acc ++ g r) :
    ∀ (l : List ι) (init : List β), l.foldl f init = init ++ l.flatMap g := by
  intro l
  induction l with
  | nil => intro init; simp
  | cons r l ih =>
    intro init
    rw [List.foldl_cons, ih, hf, List.flatMap_cons, List.append_assoc]

/-- One more pass of a `<` loop. -/
theorem forLt_succ {σ : Type} (k : Nat) (body : Nat → σ → σ) (s : σ) :
    forLt (k + 1) body s = body k (forLt k body s) := by
  unfold forLt
  rw [List.range_succ, List.foldl_append]
  rfl

/-- The first triangle of the cell pattern depends on its arguments modulo `U32`. -/
theorem uvCellFirst_congr {a b c d : Nat} (h1 : a % U32 = c % U32) (h2 : b % U32 = d % U32) :
    uvCellFirst a b = uvCellFirst c d := by
  simp only [uvCellFirst]
  rw [Nat.add_mod a, Nat.add_mod c, h1, h2]

/-- The second triangle of the cell pattern depends on its arguments modulo `U32`. -/
theorem uvCellSecond_congr {a b c d : Nat} (h1 : a % U32 = c % U32)
    (h2 : b % U32 = d % U32) : uvCellSecond a b = uvCellSecond c d := by
  simp only [uvCellSecond]
  rw [Nat.add_mod a, Nat.add_mod c, Nat.add_mod b, Nat.add_mod d, h1, h2]

/-- The next row starts `widthCount + 1` vertices further. -/
theorem uvRowStart_succ (widthCount r : Nat) :
    uvRowStart widthCount (r + 1) = uvRowStart widthCount r + (widthCount + 1) := by
  unfold uvRowStart
  ring

/-- The row starts grow with the row. -/
theorem uvRowStart_mono (widthCount : Nat) {r t : Nat} (h : r ≤ t) :
    uvRowStart widthCount r ≤ uvRowStart widthCount t :=
  Nat.mul_le_mul_right _ h

/-- The stride computed on `unsigned int` for the row `r` is the row start modulo `U32`. -/
theorem stride_mod (widthCount r : Nat) :
    (r * ((widthCount + 1) % U32)) % U32 = uvRowStart widthCount r % U32 := by
  unfold uvRowStart
  rw [Nat.mul_mod, Nat.mod_mod, ← Nat.mul_mod]

/-- The upper circle pushes, for each `i`, the second triangle of the cell pattern on the
rows 0 and 1. -/
theorem uvUpperCircle_eq (widthCount : Nat) (indices : List Nat) :
    uvUpperCircle widthCount indices
      = indices ++ (List.range widthCount).flatMap (fun i =>
          uvCellSecond (uvRowStart widthCount 0 + i) (uvRowStart widthCount 1 + i)) := by
  unfold uvUpperCircle forLt
  apply foldl_append_flatMap
  intro acc i
  have hU : U32 = 4294967296 := rfl
  simp only [uvCellSecond, uvRowStart, hU]
  congr 2
  · omega
  · congr 1
    · omega
    · congr 1
      omega

/-- The inner loop of a middle row, from the strides `c` and `n`. -/
theorem forLt_middleCell (c n : Nat) (hc : c < U32) (hn : n < U32) :
    ∀ (k : Nat) (indices : List Nat),
      forLt k (fun _ st => uvMiddleCell st) ⟨c, n, indices⟩
        = ⟨(c + k) % U32, (n + k) % U32,
            indices ++ (List.range k).flatMap (fun i =>
              uvCellFirst (c + i) (n + i) ++ uvCellSecond (c + i) (n + i))⟩ := by
  have hU : U32 = 4294967296 := rfl
  intro k
  induction k with
  | zero =>
    intro indices
    simp [forLt, Nat.mod_eq_of_lt hc, Nat.mod_eq_of_lt hn]
  | succ k ih =>
    intro indices
    rw [forLt_succ, ih, List.range_succ, List.flatMap_append]
    simp only [uvMiddleCell, uvCellFirst, uvCellSecond, List.flatMap_cons, List.flatMap_nil,
      List.append_nil, StrideState.mk.injEq, hU]
    refine ⟨by omega, by omega, ?_⟩
    simp only [List.append_assoc, List.cons_append, List.nil_append, List.append_cancel_left_eq,
      List.cons.injEq, and_true]
    repeat' apply And.intro
    all_goals first | trivial | omega

/-- The loop of the lower circle, from the strides `c` and `n`. -/
theorem forLt_lowerCell (c n : Nat) (hc : c < U32) (hn : n < U32) :
    ∀ (k : Nat) (indices : List Nat),
      forLt k (fun _ st => uvLowerCell st) ⟨c, n, indices⟩
        = ⟨(c + k) % U32, (n + k) % U32,
            indices ++ (List.range k).flatMap (fun i => uvCellFirst (c + i) (n + i))⟩ := by
  have hU : U32 = 4294967296 := rfl
  intro k
  induction k with
  | zero =>
    intro indices
    simp [forLt, Nat.mod_eq_of_lt hc, Nat.mod_eq_of_lt hn]
  | succ k ih =>
    intro indices
    rw [forLt_succ, ih, List.range_succ, List.flatMap_append]
    simp only [uvLowerCell, uvCellFirst, List.flatMap_cons, List.flatMap_nil,
      List.append_nil, StrideState.mk.injEq, hU]
    refine ⟨by omega, by omega, ?_⟩
    simp only [List.append_assoc, List.cons_append, List.nil_append, List.append_cancel_left_eq,
      List.cons.injEq, and_true]
    repeat' apply And.intro
    all_goals first | trivial | omega

/-- One middle row pushes, for each `i`, both triangles of the cell pattern on the rows `r`
and `r + 1`. -/
theorem uvMiddleRow_eq (widthCount r : Nat) (indices : List Nat) :
    uvMiddleRow widthCount r indices
      = indices ++ (List.range widthCount).flatMap (fun i =>
          uvCellFirst (uvRowStart widthCount r + i) (uvRowStart widthCount (r + 1) + i)
            ++ uvCellSecond (uvRowStart widthCount r + i)
                (uvRowStart widthCount (r + 1) + i)) := by
  have hU : U32 = 4294967296 := rfl
  have hpos : 0 < U32 := by decide
  unfold uvMiddleRow
  simp only
  rw [forLt_middleCell _ _ (Nat.mod_lt _ hpos) (Nat.mod_lt _ hpos), stride_mod]
  simp only
  congr 2
  funext i
  have h1 : (uvRowStart widthCount r % U32 + i) % U32
      = (uvRowStart widthCount r + i) % U32 := by
    rw [hU]; omega
  have h2 : (((uvRowStart widthCount r % U32 + widthCount) % U32 + 1) % U32 + i) % U32
      = (uvRowStart widthCount (r + 1) + i) % U32 := by
    rw [uvRowStart_succ, hU]; omega
  rw [uvCellFirst_congr h1 h2, uvCellSecond_congr h1 h2]

/-- The lower circle pushes, for each `i`, the first triangle of the cell pattern on the
rows `h - 1` and `h`. -/
theorem uvLowerCircle_eq (widthCount heightCount : Nat) (indices : List Nat)
    (hh1 : 1 ≤ heightCount) (hh : heightCount < U32) :
    uvLowerCircle widthCount heightCount indices
      = indices ++ (List.range widthCount).flatMap (fun i =>
          uvCellFirst (uvRowStart widthCount (heightCount - 1) + i)
            (uvRowStart widthCount heightCount + i)) := by
  have hU : U32 = 4294967296 := rfl
  have hpos : 0 < U32 := by decide
  have hb : (heightCount + (U32 - 1)) % U32 = heightCount - 1 := by
    rw [hU] at hh ⊢
    omega
  have hsucc : uvRowStart widthCount heightCount
      = uvRowStart widthCount (heightCount - 1) + (widthCount + 1) := by
    rw [← uvRowStart_succ, Nat.sub_add_cancel hh1]
  unfold uvLowerCircle
  simp only
  rw [forLt_lowerCell _ _ (Nat.mod_lt _ hpos) (Nat.mod_lt _ hpos), hb, stride_mod]
  simp only
  refine congrArg (fun t => indices ++ t) ?_
  refine congrArg (List.flatMap (List.range widthCount)) ?_
  funext i
  have h1 : (uvRowStart widthCount (heightCount - 1) % U32 + i) % U32
      = (uvRowStart widthCount (heightCount - 1) + i) % U32 := by
    rw [hU]; omega
  have h2 : (((uvRowStart widthCount (heightCount - 1) % U32 + widthCount) % U32 + 1) % U32
      + i) % U32 = (uvRowStart widthCount heightCount + i) % U32 := by
    rw [hsucc, hU]; omega
  rw [uvCellFirst_congr h1 h2]

/-- The middle band pushes the rows `1, …, h - 2` in order. -/
theorem uvMiddleRows_eq (widthCount heightCount : Nat) (indices : List Nat)
    (hh1 : 1 ≤ heightCount) (hh : heightCount < U32) :
    uvMiddleRows widthCount heightCount indices
      = indices ++ (List.range' 1 (heightCount - 2)).flatMap (fun r =>
          (List.range widthCount).flatMap (fun i =>
            uvCellFirst (uvRowStart widthCount r + i) (uvRowStart widthCount (r + 1) + i)
              ++ uvCellSecond (uvRowStart widthCount r + i)
                  (uvRowStart widthCount (r + 1) + i))) := by
  have hU : U32 = 4294967296 := rfl
  have hb : (heightCount + (U32 - 1)) % U32 = heightCount - 1 := by
    rw [hU] at hh ⊢
    omega
  have hlen : heightCount - 1 - 1 = heightCount - 2 := by omega
  unfold uvMiddleRows forFromLt
  rw [hb, hlen]
  apply foldl_append_flatMap
  intro acc r
  exact uvMiddleRow_eq widthCount r acc

/-- A fold whose step appends the single element `g j` appends the `g j` in order. -/
theorem foldl_append_map {ι β : Type} (f : List β → ι → List β) (g : ι → β)
    (hf : ∀ acc j, f acc j = acc ++ [g j]) :
    ∀ (l : List ι) (init : List β), l.foldl f init = init ++ l.map g := by
  intro l
  induction l with
  | nil => intro init; simp
  | cons j l ih =>
    intro init
    rw [List.foldl_cons, ih, hf, List.map_cons, List.append_assoc]
    rfl

/-- The number of elements of `k` rows of `m` elements. -/
theorem length_rows {β : Type} (m : Nat) (g : Nat → Nat → β) (k : Nat) :
    ((List.range k).flatMap (fun r => (List.range m).map (g r))).length = k * m := by
  induction k with
  | zero => simp
  | succ k ih =>
    rw [List.range_succ, List.flatMap_append, List.length_append, ih]
    simp [Nat.succ_mul]

/-- The element `b` of the row `a`, in a list of rows of `m` elements, is at index
`a * m + b`. -/
theorem getElem?_rows {β : Type} (m : Nat) (g : Nat → Nat → β) :
    ∀ (k a b : Nat), a < k → b < m →
      ((List.range k).flatMap (fun r => (List.range m).map (g r)))[a * m + b]?
        = some (g a b) := by
  intro k
  induction k with
  | zero => intro a b ha; omega
  | succ k ih =>
    intro a b ha hb
    rw [List.range_succ, List.flatMap_append]
    by_cases hak : a < k
    · have hlt : a * m + b < k * m := by
        have h1 : (a + 1) * m ≤ k * m := Nat.mul_le_mul_right m hak
        rw [Nat.succ_mul] at h1
        omega
      rw [List.getElem?_append_left (by rw [length_rows]; exact hlt)]
      exact ih a b hak hb
    · have hk : a = k := by omega
      subst hk
      rw [List.getElem?_append_right (by rw [length_rows]; omega), length_rows]
      simp [List.getElem?_range hb]

section UvVertices

variable {α : Type} [LinearOrderedField α]

/-- The vertex loops of `createUvSphere`, for counts below `U32 - 1`, append the vertices
row by row, each row by increasing width index. -/
theorem uvSphereVertices_eq (fm : FloatMath α) (sphere : Sphere α)
    (widthCount heightCount fuel : Nat) (vertices : List (Vertex α))
    (hw : widthCount < U32 - 1) (hh : heightCount < U32 - 1)
    (hfw : widthCount + 2 ≤ fuel) (hfh : heightCount + 2 ≤ fuel) :
    uvSphereVertices fuel fm sphere widthCount heightCount vertices
      = some (vertices ++ (List.range (heightCount + 1)).flatMap (fun heightIndex =>
          (List.range (widthCount + 1)).map
            (uvSphereVertex fm sphere widthCount heightCount heightIndex))) := by
  have hU : U32 = 4294967296 := rfl
  have hinner : ∀ heightIndex (vs : List (Vertex α)),
      forLe widthCount
        (fun widthIndex ws =>
          some (ws ++ [uvSphereVertex fm sphere widthCount heightCount heightIndex widthIndex]))
        fuel 0 vs
      = some (vs ++ (List.range (widthCount + 1)).map
          (uvSphereVertex fm sphere widthCount heightCount heightIndex)) := by
    intro heightIndex vs
    rw [forLe_eq_foldl widthCount (by omega) _
      (fun j acc => acc ++ [uvSphereVertex fm sphere widthCount heightCount heightIndex j])
      (fun _ _ => rfl) fuel 0 vs (by omega) (by omega)]
    rw [foldl_append_map _ (uvSphereVertex fm sphere widthCount heightCount heightIndex)
      (fun _ _ => rfl), Nat.sub_zero, ← List.range_eq_range']
  unfold uvSphereVertices
  rw [forLe_eq_foldl heightCount (by omega) _
    (fun heightIndex vs => vs ++ (List.range (widthCount + 1)).map
      (uvSphereVertex fm sphere widthCount heightCount heightIndex))
    hinner fuel 0 vertices (by omega) (by omega)]
  rw [foldl_append_flatMap _
    (fun heightIndex => (List.range (widthCount + 1)).map
      (uvSphereVertex fm sphere widthCount heightCount heightIndex))
    (fun _ _ => rfl), Nat.sub_zero, ← List.range_eq_range']

/-- C25: in the UV sphere built on a submesh without vertices, for counts below
`U32 - 1`, the vertex of latitude index `hi ≤ heightCount` and longitude index
`wi ≤ widthCount` is stored at index `hi * (widthCount + 1) + wi`, has texcoords
`(wi / widthCount, hi / heightCount)`, a normal equal to `(position − center) / radius` and
a tangent equal to that normal with its X and Y components exchanged; the row `hi = 0` is
at the +Y pole when the cosine and sine of `pi / 2` are `0` and `1`. -/
theorem uvSphere_vertex_layout (fm : FloatMath α) (sphere : Sphere α)
    (widthCount heightCount fuel : Nat) (submesh : Submesh α) (hi wi : Nat)
    (hw : widthCount < U32 - 1) (hh : heightCount < U32 - 1)
    (hfw : widthCount + 2 ≤ fuel) (hfh : heightCount + 2 ≤ fuel)
    (hempty : submesh.m_vertices = []) (hhi : hi ≤ heightCount) (hwi : wi ≤ widthCount) :
    ∃ res vert, createUvSphere fuel fm sphere widthCount heightCount submesh = some res ∧
      res.m_vertices[hi * (widthCount + 1) + wi]? = some vert ∧
      vert = uvSphereVertex fm sphere widthCount heightCount hi wi ∧
      vert.texcoords = ![(wi : α) / (widthCount : α), (hi : α) / (heightCount : α)] ∧
      (∀ i : Fin 3, vert.normal i
        = (vert.position i - sphere.m_centerPos i) / sphere.m_radius) ∧
      vert.tangent = ![vert.normal 1, vert.normal 0, vert.normal 2] ∧
      (fm.cos (fm.pi / 2) = 0 → fm.sin (fm.pi / 2) = 1 → hi = 0 →
        vert.position = ![sphere.m_centerPos 0, sphere.m_radius + sphere.m_centerPos 1,
          sphere.m_centerPos 2]) := by
  have hvs := uvSphereVertices_eq fm sphere widthCount heightCount fuel submesh.m_vertices
    hw hh hfw hfh
  refine ⟨_, uvSphereVertex fm sphere widthCount heightCount hi wi,
    by rw [createUvSphere, hvs]; rfl, ?_, rfl, rfl, ?_, rfl, ?_⟩
  · simp only [hempty, List.nil_append]
    exact getElem?_rows (widthCount + 1)
      (uvSphereVertex fm sphere widthCount heightCount) (heightCount + 1) hi wi
      (by omega) (by omega)
  · intro i
    fin_cases i <;> simp [uvSphereVertex, div_eq_mul_inv]
  · intro hcos hsin h0
    subst h0
    funext i
    fin_cases i <;> simp [uvSphereVertex, hcos, hsin]

/-- C25, witness: the sphere of 8 by 8 subdivisions, the vertex of latitude 3 and
longitude 5 is at index 32. -/
theorem uvSphere_vertex_layout_witness :
    ∃ res vert, createUvSphere 10 ratMath unitSphere 8 8 (Submesh.empty ℚ) = some res ∧
      res.m_vertices[3 * (8 + 1) + 5]? = some vert ∧
      vert.texcoords = ![((5 : Nat) : ℚ) / ((8 : Nat) : ℚ), ((3 : Nat) : ℚ) / ((8 : Nat) : ℚ)] := by
  obtain ⟨res, vert, h1, h2, _, h4, _⟩ := uvSphere_vertex_layout ratMath unitSphere 8 8 10
    (Submesh.empty ℚ) 3 5 (by decide) (by decide) (by decide) (by decide) rfl
    (by decide) (by decide)
  exact ⟨res, vert, h1, h2, h4⟩

/-- An index of the cell pattern on `cur` and `next` is at most `cur + 1` or `next + 1`. -/
theorem uvCell_mem_lt (cur next bound idx : Nat) (h1 : cur + 1 < bound)
    (h2 : next + 1 < bound)
    (hmem : idx ∈ uvCellFirst cur next ∨ idx ∈ uvCellSecond cur next) : idx < bound := by
  have hc := Nat.mod_le cur U32
  have hc1 := Nat.mod_le (cur + 1) U32
  have hn := Nat.mod_le next U32
  have hn1 := Nat.mod_le (next + 1) U32
  simp only [uvCellFirst, uvCellSecond, List.mem_cons, List.mem_singleton, List.mem_nil_iff,
    or_false] at hmem
  rcases hmem with (h | h | h) | (h | h | h) <;> omega

/-- The vertex after the cell `i < widthCount` of a row `r ≤ heightCount` is among the
`(heightCount + 1) * (widthCount + 1)` vertices. -/
theorem uvRowStart_lt (widthCount heightCount r i : Nat) (hr : r ≤ heightCount)
    (hi : i < widthCount) :
    uvRowStart widthCount r + i + 1 < (heightCount + 1) * (widthCount + 1) := by
  have hmono := uvRowStart_mono widthCount hr
  have hsucc := uvRowStart_succ widthCount heightCount
  unfold uvRowStart at hmono hsucc ⊢
  omega

/-- C26: for `heightCount ≥ 1` and `(heightCount + 1) * (widthCount + 1) < U32`, with
enough fuel, `createUvSphere` returns a submesh; it appended
`(heightCount + 1) * (widthCount + 1)` vertices and a list of indices each of which is
strictly below that number. -/
theorem uvSphere_indices_in_range (fm : FloatMath α) (sphere : Sphere α)
    (widthCount heightCount fuel : Nat) (submesh : Submesh α)
    (hh1 : 1 ≤ heightCount) (hsize : (heightCount + 1) * (widthCount + 1) < U32)
    (hfw : widthCount + 2 ≤ fuel) (hfh : heightCount + 2 ≤ fuel) :
    ∃ res emitted, createUvSphere fuel fm sphere widthCount heightCount submesh = some res ∧
      res.m_vertices.length
        = submesh.m_vertices.length + (heightCount + 1) * (widthCount + 1) ∧
      res.m_indices = submesh.m_indices ++ emitted ∧
      ∀ idx ∈ emitted, idx < (heightCount + 1) * (widthCount + 1) := by
  have hU : U32 = 4294967296 := rfl
  have hwlt : widthCount < U32 - 1 := by
    have h2 : 2 * (widthCount + 1) ≤ (heightCount + 1) * (widthCount + 1) :=
      Nat.mul_le_mul_right _ (by omega)
    rw [hU] at hsize ⊢
    omega
  have hhlt : heightCount < U32 - 1 := by
    have h2 : (heightCount + 1) * 1 ≤ (heightCount + 1) * (widthCount + 1) :=
      Nat.mul_le_mul_left _ (by omega)
    rw [hU] at hsize ⊢
    omega
  have hvs := uvSphereVertices_eq fm sphere widthCount heightCount fuel submesh.m_vertices
    hwlt hhlt hfw hfh
  have hind : uvSphereIndices widthCount heightCount submesh.m_indices
      = submesh.m_indices ++
        ((List.range widthCount).flatMap (fun i =>
            uvCellSecond (uvRowStart widthCount 0 + i) (uvRowStart widthCount 1 + i))
          ++ ((List.range' 1 (heightCount - 2)).flatMap (fun r =>
            (List.range widthCount).flatMap (fun i =>
              uvCellFirst (uvRowStart widthCount r + i) (uvRowStart widthCount (r + 1) + i)
                ++ uvCellSecond (uvRowStart widthCount r + i)
                    (uvRowStart widthCount (r + 1) + i)))
          ++ (List.range widthCount).flatMap (fun i =>
            uvCellFirst (uvRowStart widthCount (heightCount - 1) + i)
              (uvRowStart widthCount heightCount + i)))) := by
    unfold uvSphereIndices
    rw [uvUpperCircle_eq, uvMiddleRows_eq _ _ _ hh1 (by omega),
      uvLowerCircle_eq _ _ _ hh1 (by omega), List.append_assoc, List.append_assoc]
  refine ⟨_, _, by rw [createUvSphere, hvs]; rfl, ?_, hind, ?_⟩
  · simp only [List.length_append, length_rows]
  · intro idx hidx
    simp only [List.mem_append, List.mem_flatMap, List.mem_range, List.mem_range'_1] at hidx
    rcases hidx with ⟨i, hi, hmem⟩ | ⟨r, hr, i, hi, hmem⟩ | ⟨i, hi, hmem⟩
    · exact uvCell_mem_lt _ _ _ idx
        (by have := uvRowStart_lt widthCount heightCount 0 i (by omega) hi; omega)
        (by have := uvRowStart_lt widthCount heightCount 1 i hh1 hi; omega)
        (Or.inr hmem)
    · exact uvCell_mem_lt _ _ _ idx
        (by have := uvRowStart_lt widthCount heightCount r i (by omega) hi; omega)
        (by have := uvRowStart_lt widthCount heightCount (r + 1) i (by omega) hi; omega)
        hmem
    · exact uvCell_mem_lt _ _ _ idx
        (by have := uvRowStart_lt widthCount heightCount (heightCount - 1) i (by omega) hi
            omega)
        (by have := uvRowStart_lt widthCount heightCount heightCount i (le_refl _) hi; omega)
        (Or.inl hmem)

/-- C26, witness: the sphere of 2 by 3 subdivisions has 12 vertices and 24 indices, all
below 12. -/
theorem uvSphere_indices_in_range_witness :
    ∃ res emitted, createUvSphere 5 ratMath unitSphere 2 3 (Submesh.empty ℚ) = some res ∧
      res.m_vertices.length = (Submesh.empty ℚ).m_vertices.length + (3 + 1) * (2 + 1) ∧
      res.m_indices = (Submesh.empty ℚ).m_indices ++ emitted ∧
      ∀ idx ∈ emitted, idx < (3 + 1) * (2 + 1) :=
  uvSphere_indices_in_range ratMath unitSphere 2 3 5 (Submesh.empty ℚ) (by decide)
    (by decide) (by decide) (by decide)

end UvVertices

end UvBands

/-! ## The icosphere -/

section Icosphere

variable {α : Type} [LinearOrderedField α]

/-- C27: the indices written by `createIcosphere` are the table `icoIndices`, for 12
vertices; its 20 faces have every index below 12, every vertex in exactly 5 faces,
exactly 30 undirected edges, and every directed edge of a face in exactly one face, with
its reverse in exactly one face, and no face has both an edge and its reverse. -/
theorem icosphere_closed_oriented (fm : FloatMath α) (sphere : Sphere α) (subdivCount : Nat)
    (submesh : Submesh α) :
    (createIcosphere fm sphere subdivCount submesh).m_indices = icoIndices ∧
    (createIcosphere fm sphere subdivCount submesh).m_vertices.length = 12 ∧
    icoFaces.length = 20 ∧
    icoFaces.flatMap faceVertices = icoIndices ∧
    (∀ idx ∈ icoIndices, idx < 12) ∧
    (∀ v ∈ List.range 12, facesWithVertex icoFaces v = 5) ∧
    (icoEdges.map undirectedEdge).dedup.length = 30 ∧
    (∀ e ∈ icoEdges, facesWithEdge icoFaces e = 1 ∧ facesWithEdge icoFaces (e.2, e.1) = 1 ∧
      ∀ face ∈ icoFaces, ¬ (e ∈ faceEdges face ∧ (e.2, e.1) ∈ faceEdges face)) := by
  refine ⟨rfl, rfl, ?_, ?_, ?_, ?_, ?_, ?_⟩
  · decide
  · decide
  · decide
  · decide
  · decide
  · decide

/-- A square root that is exact and non-negative on the non-negative numbers gives `y`
back at `y * y`, for `y ≥ 0`. -/
theorem sqrt_mul_self (fm : FloatMath α)
    (hsq : ∀ x, 0 ≤ x → fm.sqrt x * fm.sqrt x = x) (hnn : ∀ x, 0 ≤ x → 0 ≤ fm.sqrt x)
    (y : α) (hy : 0 ≤ y) : fm.sqrt (y * y) = y := by
  have h1 := hsq (y * y) (mul_self_nonneg y)
  have h2 := hnn (y * y) (mul_self_nonneg y)
  rcases mul_self_eq_mul_self_iff.mp h1 with h | h
  · exact h
  · have h0 : y = 0 := by linarith
    rw [h, h0, neg_zero]

/-- With an exact square root, the dot product of a normalised vector of positive squared
length with itself is `1`. -/
theorem dot_normalize (fm : FloatMath α) (hsq : ∀ x, 0 ≤ x → fm.sqrt x * fm.sqrt x = x)
    (d : Vec3f α) (hd : 0 < Vector.dot d d) :
    Vector.dot (Vector.normalize fm d) (Vector.normalize fm d) = 1 := by
  have hL := hsq (Vector.dot d d) hd.le
  have hL0 : fm.sqrt (Vector.dot d d) ≠ 0 := by
    intro h0
    rw [h0, mul_zero] at hL
    exact hd.ne hL
  rw [dot_vec3]
  simp only [Vector.normalize, Vector.divScalar, Vector.computeLength, div_mul_div_comm]
  rw [← add_div, ← add_div, hL, ← dot_vec3]
  exact div_self hd.ne'

end Icosphere

/-! ## The plane patch -/

section PlanePatch

variable {α : Type} [LinearOrderedField α]

/-- C29: `Mesh(plane, width, depth)` gives a mesh whose first submesh has exactly the four
vertices at `(-width, y, depth)`, `(width, y, depth)`, `(width, y, -depth)`,
`(-width, y, -depth)`, with `y` the Y component of `plane.normal * plane.distance`, each
with the normal of the plane and the texcoords `(0,0)`, `(1,0)`, `(1,1)`, `(0,1)` in this
order, and exactly the six indices `1, 0, 2, 2, 0, 3`. -/
theorem mkPlane_four_corners (plane : Plane α) (width depth : α) :
    ∃ mesh first rest, Mesh.mkPlane plane width depth = some mesh ∧
      mesh.m_submeshes = first :: rest ∧
      first.m_vertices.map (fun vert => (vert.position, vert.normal, vert.texcoords))
        = [ (![-width, (Vector.scale plane.m_normal plane.m_distance) 1, depth],
              plane.m_normal, ![0, 0]),
            (![width, (Vector.scale plane.m_normal plane.m_distance) 1, depth],
              plane.m_normal, ![1, 0]),
            (![width, (Vector.scale plane.m_normal plane.m_distance) 1, -depth],
              plane.m_normal, ![1, 1]),
            (![-width, (Vector.scale plane.m_normal plane.m_distance) 1, -depth],
              plane.m_normal, ![0, 1]) ] ∧
      first.m_vertices.length = 4 ∧
      first.m_indices = [1, 0, 2, 2, 0, 3] ∧
      (Vector.scale plane.m_normal plane.m_distance) 1
        = plane.m_normal 1 * plane.m_distance :=
  ⟨_, _, _, rfl, rfl, rfl, rfl, rfl, rfl⟩

/-- The two triangles of the plane patch. -/
theorem planeSubmesh_triangles (plane : Plane α) (width depth : α) (submesh : Submesh α) :
    Submesh.triangles (planeSubmesh plane width depth submesh)
      = [ some ⟨![width, (Vector.scale plane.m_normal plane.m_distance) 1, depth],
            ![-width, (Vector.scale plane.m_normal plane.m_distance) 1, depth],
            ![width, (Vector.scale plane.m_normal plane.m_distance) 1, -depth]⟩,
          some ⟨![width, (Vector.scale plane.m_normal plane.m_distance) 1, -depth],
            ![-width, (Vector.scale plane.m_normal plane.m_distance) 1, depth],
            ![-width, (Vector.scale plane.m_normal plane.m_distance) 1, -depth]⟩ ] :=
  rfl

/-- The face normal of a triangle of the plane patch, against the axis +Y. -/
theorem planeTriangle_dot (a b c : Vec3f α) :
    Vector.dot (Triangle.computeNormal ⟨a, b, c⟩) ![0, 1, 0]
      = (b 2 - a 2) * (c 0 - a 0) - (b 0 - a 0) * (c 2 - a 2) := by
  rw [dot_vec3]
  simp [Triangle.computeNormal, Vector.cross, Vector.sub]

/-- C30, amended: for a plane of normal +Y and positive width and depth, the two index
triangles `(v_a, v_b, v_c)` of the plane patch have a face normal
`cross(v_b - v_a, v_c - v_a)` whose dot product with the normal of the plane is
`-(4 * width * depth)`, strictly negative: neither is counter-clockwise with respect to
the normal of the plane. -/
theorem planePatch_winding (plane : Plane α) (width depth : α) (submesh : Submesh α)
    (hnormal : plane.m_normal = ![0, 1, 0]) (hw : 0 < width) (hd : 0 < depth) :
    ∃ first second, Submesh.triangles (planeSubmesh plane width depth submesh)
        = [some first, some second] ∧
      Vector.dot (Triangle.computeNormal first) plane.m_normal = -(4 * width * depth) ∧
      Vector.dot (Triangle.computeNormal second) plane.m_normal = -(4 * width * depth) ∧
      Vector.dot (Triangle.computeNormal first) plane.m_normal < 0 ∧
      Vector.dot (Triangle.computeNormal second) plane.m_normal < 0 ∧
      Triangle.isCounterClockwise first plane.m_normal = false ∧
      Triangle.isCounterClockwise second plane.m_normal = false := by
  have hwd : 0 < 4 * width * depth := by positivity
  have h1 : Vector.dot (Triangle.computeNormal
      ⟨![width, (Vector.scale plane.m_normal plane.m_distance) 1, depth],
        ![-width, (Vector.scale plane.m_normal plane.m_distance) 1, depth],
        ![width, (Vector.scale plane.m_normal plane.m_distance) 1, -depth]⟩) plane.m_normal
      = -(4 * width * depth) := by
    rw [hnormal, planeTriangle_dot]
    simp
    ring
  have h2 : Vector.dot (Triangle.computeNormal
      ⟨![width, (Vector.scale plane.m_normal plane.m_distance) 1, -depth],
        ![-width, (Vector.scale plane.m_normal plane.m_distance) 1, depth],
        ![-width, (Vector.scale plane.m_normal plane.m_distance) 1, -depth]⟩) plane.m_normal
      = -(4 * width * depth) := by
    rw [hnormal, planeTriangle_dot]
    simp
    ring
  refine ⟨_, _, planeSubmesh_triangles plane width depth submesh, h1, h2, ?_, ?_, ?_, ?_⟩
  · rw [h1]; linarith
  · rw [h2]; linarith
  · unfold Triangle.isCounterClockwise
    rw [h1]
    exact decide_eq_false (by linarith)
  · unfold Triangle.isCounterClockwise
    rw [h2]
    exact decide_eq_false (by linarith)

/-- C30, amended, witness: the plane `plane1` of normal +Y, with width 2 and depth 3. -/
theorem planePatch_winding_witness :
    ∃ first second, Submesh.triangles (planeSubmesh plane1 2 3 (Submesh.empty ℚ))
        = [some first, some second] ∧
      Vector.dot (Triangle.computeNormal first) plane1.m_normal = -(4 * 2 * 3) ∧
      Vector.dot (Triangle.computeNormal second) plane1.m_normal = -(4 * 2 * 3) := by
  obtain ⟨first, second, h, h1, h2, _⟩ :=
    planePatch_winding plane1 2 3 (Submesh.empty ℚ) rfl (by norm_num) (by norm_num)
  exact ⟨first, second, h, h1, h2⟩

/-- C30, counterexample: for the plane `plane1` of normal +Y, with width 1 and depth 1,
the two triangles of the plane patch have a face normal whose dot product with the normal
of the plane is `-4`, not a strictly positive number. -/
theorem planePatch_winding_not_positive :
    Submesh.triangles (planeSubmesh plane1 1 1 (Submesh.empty ℚ))
      = [ some ⟨![1, 1, 1], ![-1, 1, 1], ![1, 1, -1]⟩,
          some ⟨![1, 1, -1], ![-1, 1, 1], ![-1, 1, -1]⟩ ] ∧
    Vector.dot (Triangle.computeNormal (⟨![1, 1, 1], ![-1, 1, 1], ![1, 1, -1]⟩ : Triangle ℚ))
      plane1.m_normal = -4 ∧
    Vector.dot (Triangle.computeNormal (⟨![1, 1, -1], ![-1, 1, 1], ![-1, 1, -1]⟩ : Triangle ℚ))
      plane1.m_normal = -4 ∧
    ¬ (0 < Vector.dot
      (Triangle.computeNormal (⟨![1, 1, 1], ![-1, 1, 1], ![1, 1, -1]⟩ : Triangle ℚ))
      plane1.m_normal) ∧
    Triangle.isCounterClockwise (⟨![1, 1, 1], ![-1, 1, 1], ![1, 1, -1]⟩ : Triangle ℚ)
      plane1.m_normal = false := by
  have h1 : Vector.dot
      (Triangle.computeNormal (⟨![1, 1, 1], ![-1, 1, 1], ![1, 1, -1]⟩ : Triangle ℚ))
      plane1.m_normal = -4 := by
    show Vector.dot _ ![0, 1, 0] = -4
    rw [planeTriangle_dot]
    simp
    norm_num
  have h2 : Vector.dot
      (Triangle.computeNormal (⟨![1, 1, -1], ![-1, 1, 1], ![-1, 1, -1]⟩ : Triangle ℚ))
      plane1.m_normal = -4 := by
    show Vector.dot _ ![0, 1, 0] = -4
    rw [planeTriangle_dot]
    simp
    norm_num
  refine ⟨?_, h1, h2, ?_, ?_⟩
  · rw [planeSubmesh_triangles]
    simp [plane1, Vector.scale]
  · rw [h1]; norm_num
  · unfold Triangle.isCounterClockwise
    rw [h1]
    exact decide_eq_false (by norm_num)

end PlanePatch

/-! ## The quad and box meshes -/

section QuadBox

variable {α : Type} [LinearOrderedField α]

/-- A three-dimensional vector other than zero has a positive squared length. -/
theorem dot_self_pos (v : Vec3f α) (hv : v ≠ Vector.fill 0) : 0 < Vector.dot v v := by
  rw [dot_vec3]
  by_contra hneg
  have hzero : v 0 * v 0 + v 1 * v 1 + v 2 * v 2 = 0 :=
    le_antisymm (not_lt.mp hneg)
      (by nlinarith [mul_self_nonneg (v 0), mul_self_nonneg (v 1), mul_self_nonneg (v 2)])
  have e0 : v 0 = 0 := by
    have : v 0 * v 0 = 0 := by
      nlinarith [mul_self_nonneg (v 0), mul_self_nonneg (v 1), mul_self_nonneg (v 2)]
    exact mul_self_eq_zero.mp this
  have e1 : v 1 = 0 := by
    have : v 1 * v 1 = 0 := by
      nlinarith [mul_self_nonneg (v 0), mul_self_nonneg (v 1), mul_self_nonneg (v 2)]
    exact mul_self_eq_zero.mp this
  have e2 : v 2 = 0 := by
    have : v 2 * v 2 = 0 := by
      nlinarith [mul_self_nonneg (v 0), mul_self_nonneg (v 1), mul_self_nonneg (v 2)]
    exact mul_self_eq_zero.mp this
  apply hv
  funext i
  fin_cases i
  · exact e0
  · exact e1
  · exact e2

/-- C31: `Mesh(quad)` gives a mesh whose first submesh has exactly the four vertices
leftTop, leftBottom, rightBottom, rightTop in this order and the six indices
`0, 1, 2, 0, 2, 3`; the normal of each vertex is the normalised cross product of the two
edge vectors of its own corner: `(LT - RT) x (LT - LB)` for leftTop, `(LB - LT) x (LB - RB)`
for leftBottom, `(RB - LB) x (RB - RT)` for rightBottom, `(RT - RB) x (RT - LT)` for
rightTop. -/
theorem mkQuad_four_corners (fm : FloatMath α) (quad : Quad α) :
    ∃ mesh first rest, Mesh.mkQuad fm quad = some mesh ∧
      mesh.m_submeshes = first :: rest ∧
      first.m_vertices.length = 4 ∧
      first.m_vertices.map (fun vert => vert.position)
        = [quad.m_leftTopPos, quad.m_leftBottomPos, quad.m_rightBottomPos,
            quad.m_rightTopPos] ∧
      first.m_vertices.map (fun vert => vert.normal)
        = [ Vector.normalize fm (Vector.cross
              (Vector.sub quad.m_leftTopPos quad.m_rightTopPos)
              (Vector.sub quad.m_leftTopPos quad.m_leftBottomPos)),
            Vector.normalize fm (Vector.cross
              (Vector.sub quad.m_leftBottomPos quad.m_leftTopPos)
              (Vector.sub quad.m_leftBottomPos quad.m_rightBottomPos)),
            Vector.normalize fm (Vector.cross
              (Vector.sub quad.m_rightBottomPos quad.m_leftBottomPos)
              (Vector.sub quad.m_rightBottomPos quad.m_rightTopPos)),
            Vector.normalize fm (Vector.cross
              (Vector.sub quad.m_rightTopPos quad.m_rightBottomPos)
              (Vector.sub quad.m_rightTopPos quad.m_leftTopPos)) ] ∧
      first.m_indices = [0, 1, 2, 0, 2, 3] :=
  ⟨_, _, _, rfl, rfl, rfl, rfl, rfl, rfl⟩

/-- The two triangles of the quad mesh. -/
theorem quadSubmesh_triangles (fm : FloatMath α) (quad : Quad α) (submesh : Submesh α) :
    Submesh.triangles (quadSubmesh fm quad submesh)
      = [ some ⟨quad.m_leftTopPos, quad.m_leftBottomPos, quad.m_rightBottomPos⟩,
          some ⟨quad.m_leftTopPos, quad.m_rightBottomPos, quad.m_rightTopPos⟩ ] :=
  rfl

/-- The normalised opposite of a vector is the opposite of the normalised vector. -/
theorem normalize_neg (fm : FloatMath α) (c : Vec3f α) :
    Vector.normalize fm (Vector.neg c) = Vector.neg (Vector.normalize fm c) := by
  have hdot : Vector.dot (Vector.neg c) (Vector.neg c) = Vector.dot c c := by
    rw [dot_vec3, dot_vec3]
    simp only [Vector.neg]
    ring
  funext i
  simp only [Vector.normalize, Vector.divScalar, Vector.computeLength, hdot, Vector.neg,
    neg_div]

/-- The four corner cross products and the two triangle cross products of a
parallelogram. -/
theorem quad_cross_products (quad : Quad α)
    (hpar : Vector.sub quad.m_leftTopPos quad.m_leftBottomPos
      = Vector.sub quad.m_rightTopPos quad.m_rightBottomPos) :
    Vector.cross (Vector.sub quad.m_rightTopPos quad.m_rightBottomPos)
        (Vector.sub quad.m_rightTopPos quad.m_leftTopPos)
      = Vector.cross (Vector.sub quad.m_leftTopPos quad.m_rightTopPos)
          (Vector.sub quad.m_leftTopPos quad.m_leftBottomPos) ∧
    Vector.cross (Vector.sub quad.m_rightBottomPos quad.m_leftBottomPos)
        (Vector.sub quad.m_rightBottomPos quad.m_rightTopPos)
      = Vector.cross (Vector.sub quad.m_leftTopPos quad.m_rightTopPos)
          (Vector.sub quad.m_leftTopPos quad.m_leftBottomPos) ∧
    Vector.cross (Vector.sub quad.m_leftBottomPos quad.m_leftTopPos)
        (Vector.sub quad.m_leftBottomPos quad.m_rightBottomPos)
      = Vector.cross (Vector.sub quad.m_leftTopPos quad.m_rightTopPos)
          (Vector.sub quad.m_leftTopPos quad.m_leftBottomPos) ∧
    Triangle.computeNormal ⟨quad.m_leftTopPos, quad.m_leftBottomPos, quad.m_rightBottomPos⟩
      = Vector.neg (Vector.cross (Vector.sub quad.m_leftTopPos quad.m_rightTopPos)
          (Vector.sub quad.m_leftTopPos quad.m_leftBottomPos)) ∧
    Triangle.computeNormal ⟨quad.m_leftTopPos, quad.m_rightBottomPos, quad.m_rightTopPos⟩
      = Vector.neg (Vector.cross (Vector.sub quad.m_leftTopPos quad.m_rightTopPos)
          (Vector.sub quad.m_leftTopPos quad.m_leftBottomPos)) := by
  have h0 : quad.m_rightTopPos 0
      = quad.m_leftTopPos 0 - quad.m_leftBottomPos 0 + quad.m_rightBottomPos 0 := by
    have h := congrFun hpar 0
    simp only [Vector.sub] at h
    linarith
  have h1 : quad.m_rightTopPos 1
      = quad.m_leftTopPos 1 - quad.m_leftBottomPos 1 + quad.m_rightBottomPos 1 := by
    have h := congrFun hpar 1
    simp only [Vector.sub] at h
    linarith
  have h2 : quad.m_rightTopPos 2
      = quad.m_leftTopPos 2 - quad.m_leftBottomPos 2 + quad.m_rightBottomPos 2 := by
    have h := congrFun hpar 2
    simp only [Vector.sub] at h
    linarith
  refine ⟨?_, ?_, ?_, ?_, ?_⟩ <;>
  · funext i
    fin_cases i <;>
      simp [Triangle.computeNormal, Vector.cross, Vector.sub, Vector.neg, h0, h1, h2] <;>
      ring

/-- C32: for a quad that is a parallelogram (`LT - LB = RT - RB`) and is not degenerate
(the cross product of the two edges at leftTop is not zero, so that the squared length the
normalisation starts from is positive), the four corner cross products of `Mesh(quad)` are
equal, the four vertex normals are one and the same vector, and this vector is the opposite
of the normalised `cross(v1 - v0, v2 - v0)` of each of the two index triangles `(0, 1, 2)`
and `(0, 2, 3)`, whose cross products are the opposite of the corner cross product. -/
theorem quad_normals_coincide (fm : FloatMath α) (quad : Quad α) (submesh : Submesh α)
    (hpar : Vector.sub quad.m_leftTopPos quad.m_leftBottomPos
      = Vector.sub quad.m_rightTopPos quad.m_rightBottomPos)
    (hnd : Vector.cross (Vector.sub quad.m_leftTopPos quad.m_rightTopPos)
      (Vector.sub quad.m_leftTopPos quad.m_leftBottomPos) ≠ Vector.fill 0) :
    0 < Vector.dot
      (Vector.cross (Vector.sub quad.m_leftTopPos quad.m_rightTopPos)
        (Vector.sub quad.m_leftTopPos quad.m_leftBottomPos))
      (Vector.cross (Vector.sub quad.m_leftTopPos quad.m_rightTopPos)
        (Vector.sub quad.m_leftTopPos quad.m_leftBottomPos)) ∧
    (∀ vert ∈ (quadSubmesh fm quad submesh).m_vertices,
      vert.normal = Vector.normalize fm
        (Vector.cross (Vector.sub quad.m_leftTopPos quad.m_rightTopPos)
          (Vector.sub quad.m_leftTopPos quad.m_leftBottomPos))) ∧
    ∃ first second, Submesh.triangles (quadSubmesh fm quad submesh)
        = [some first, some second] ∧
      Triangle.computeNormal first
        = Vector.neg (Vector.cross (Vector.sub quad.m_leftTopPos quad.m_rightTopPos)
            (Vector.sub quad.m_leftTopPos quad.m_leftBottomPos)) ∧
      Triangle.computeNormal second
        = Vector.neg (Vector.cross (Vector.sub quad.m_leftTopPos quad.m_rightTopPos)
            (Vector.sub quad.m_leftTopPos quad.m_leftBottomPos)) ∧
      ∀ vert ∈ (quadSubmesh fm quad submesh).m_vertices,
        vert.normal = Vector.neg (Vector.normalize fm (Triangle.computeNormal first)) ∧
        vert.normal = Vector.neg (Vector.normalize fm (Triangle.computeNormal second)) := by
  obtain ⟨hRT, hRB, hLB, hT1, hT2⟩ := quad_cross_products quad hpar
  have hverts : ∀ vert ∈ (quadSubmesh fm quad submesh).m_vertices,
      vert.normal = Vector.normalize fm
        (Vector.cross (Vector.sub quad.m_leftTopPos quad.m_rightTopPos)
          (Vector.sub quad.m_leftTopPos quad.m_leftBottomPos)) := by
    intro vert hvert
    simp only [quadSubmesh, List.mem_cons, List.mem_singleton, List.mem_nil_iff,
      or_false] at hvert
    rcases hvert with h | h | h | h
    · rw [h]
    · rw [h]; exact congrArg (Vector.normalize fm) hLB
    · rw [h]; exact congrArg (Vector.normalize fm) hRB
    · rw [h]; exact congrArg (Vector.normalize fm) hRT
  have hnegneg : ∀ c : Vec3f α, Vector.neg (Vector.neg c) = c := by
    intro c
    funext i
    simp [Vector.neg]
  refine ⟨dot_self_pos _ hnd, hverts, _, _, quadSubmesh_triangles fm quad submesh, hT1, hT2,
    ?_⟩
  intro vert hvert
  rw [hT1, hT2, normalize_neg, hnegneg]
  exact ⟨hverts vert hvert, hverts vert hvert⟩

/-- C32, witness: the square `sampleQuad`. -/
theorem quad_normals_coincide_witness :
    Vector.sub sampleQuad.m_leftTopPos sampleQuad.m_leftBottomPos
      = Vector.sub sampleQuad.m_rightTopPos sampleQuad.m_rightBottomPos ∧
    ∀ vert ∈ (quadSubmesh ratMath sampleQuad (Submesh.empty ℚ)).m_vertices,
      vert.normal = Vector.normalize ratMath
        (Vector.cross (Vector.sub sampleQuad.m_leftTopPos sampleQuad.m_rightTopPos)
          (Vector.sub sampleQuad.m_leftTopPos sampleQuad.m_leftBottomPos)) := by
  have hpar : Vector.sub sampleQuad.m_leftTopPos sampleQuad.m_leftBottomPos
      = Vector.sub sampleQuad.m_rightTopPos sampleQuad.m_rightBottomPos := by
    funext i
    fin_cases i <;> simp [sampleQuad, Vector.sub]
  have hnd : Vector.cross (Vector.sub sampleQuad.m_leftTopPos sampleQuad.m_rightTopPos)
      (Vector.sub sampleQuad.m_leftTopPos sampleQuad.m_leftBottomPos) ≠ Vector.fill 0 := by
    intro h
    have h2 := congrFun h 2
    simp [sampleQuad, Vector.cross, Vector.sub, Vector.fill] at h2
    norm_num at h2
  exact ⟨hpar, (quad_normals_coincide ratMath sampleQuad (Submesh.empty ℚ) hpar hnd).2.1⟩

/-- C33: `Mesh(box)` gives a mesh whose first submesh has exactly the eight vertices
rightTopBack, rightTopFront, rightBottomBack, rightBottomFront, leftTopBack, leftTopFront,
leftBottomBack, leftBottomFront in this order, at the eight combinations of the
coordinates of the two corners, each with assigned texcoords and with the zero normal of
a value-initialised vertex, and exactly 36 indices, all below 8. -/
theorem mkBox_eight_corners (box : AABB α) :
    ∃ mesh first rest, Mesh.mkBox box = some mesh ∧
      mesh.m_submeshes = first :: rest ∧
      first.m_vertices.length = 8 ∧
      (∀ i : Fin 3, first.m_vertices.map (fun vert => vert.position i)
        = [ ![box.m_rightTopFrontPos 0, box.m_rightTopFrontPos 1,
                box.m_leftBottomBackPos 2] i,
            ![box.m_rightTopFrontPos 0, box.m_rightTopFrontPos 1,
                box.m_rightTopFrontPos 2] i,
            ![box.m_rightTopFrontPos 0, box.m_leftBottomBackPos 1,
                box.m_leftBottomBackPos 2] i,
            ![box.m_rightTopFrontPos 0, box.m_leftBottomBackPos 1,
                box.m_rightTopFrontPos 2] i,
            ![box.m_leftBottomBackPos 0, box.m_rightTopFrontPos 1,
                box.m_leftBottomBackPos 2] i,
            ![box.m_leftBottomBackPos 0, box.m_rightTopFrontPos 1,
                box.m_rightTopFrontPos 2] i,
            ![box.m_leftBottomBackPos 0, box.m_leftBottomBackPos 1,
                box.m_leftBottomBackPos 2] i,
            ![box.m_leftBottomBackPos 0, box.m_leftBottomBackPos 1,
                box.m_rightTopFrontPos 2] i ]) ∧
      first.m_vertices.map (fun vert => vert.texcoords)
        = [![0, 1], ![1, 1], ![0, 0], ![1, 0], ![1, 1], ![0, 1], ![1, 0], ![0, 0]] ∧
      (∀ vert ∈ first.m_vertices, vert.normal = Vector.fill 0) ∧
      first.m_indices.length = 36 ∧
      (∀ idx ∈ first.m_indices, idx < 8) := by
  refine ⟨_, _, _, rfl, rfl, rfl, ?_, rfl, ?_, rfl, ?_⟩
  · intro i
    fin_cases i <;> rfl
  · intro vert hvert
    simp only [boxSubmesh, List.mem_cons, List.mem_singleton, List.mem_nil_iff,
      or_false] at hvert
    rcases hvert with h | h | h | h | h | h | h | h <;> (rw [h]; rfl)
  · show ∀ idx ∈ [1, 0, 2, 1, 2, 3, 4, 5, 7, 4, 7, 6, 4, 0, 1, 4, 1, 5, 7, 3, 2, 7, 2, 6,
      5, 1, 3, 5, 3, 7, 0, 4, 6, 0, 6, 2], idx < 8
    decide

/-- The twelve triangles of the box mesh, in the order of the faces Right, Left, Top,
Bottom, Front, Back of lines 218-284. -/
theorem boxSubmesh_triangles (box : AABB α) (submesh : Submesh α) :
    Submesh.triangles (boxSubmesh box submesh)
      = [ some ⟨box.m_rightTopFrontPos,
            ![box.m_rightTopFrontPos 0, box.m_rightTopFrontPos 1, box.m_leftBottomBackPos 2],
            ![box.m_rightTopFrontPos 0, box.m_leftBottomBackPos 1,
              box.m_leftBottomBackPos 2]⟩,
          some ⟨box.m_rightTopFrontPos,
            ![box.m_rightTopFrontPos 0, box.m_leftBottomBackPos 1, box.m_leftBottomBackPos 2],
            ![box.m_rightTopFrontPos 0, box.m_leftBottomBackPos 1,
              box.m_rightTopFrontPos 2]⟩,
          some ⟨![box.m_leftBottomBackPos 0, box.m_rightTopFrontPos 1,
              box.m_leftBottomBackPos 2],
            ![box.m_leftBottomBackPos 0, box.m_rightTopFrontPos 1, box.m_rightTopFrontPos 2],
            ![box.m_leftBottomBackPos 0, box.m_leftBottomBackPos 1,
              box.m_rightTopFrontPos 2]⟩,
          some ⟨![box.m_leftBottomBackPos 0, box.m_rightTopFrontPos 1,
              box.m_leftBottomBackPos 2],
            ![box.m_leftBottomBackPos 0, box.m_leftBottomBackPos 1, box.m_rightTopFrontPos 2],
            box.m_leftBottomBackPos⟩,
          some ⟨![box.m_leftBottomBackPos 0, box.m_rightTopFrontPos 1,
              box.m_leftBottomBackPos 2],
            ![box.m_rightTopFrontPos 0, box.m_rightTopFrontPos 1, box.m_leftBottomBackPos 2],
            box.m_rightTopFrontPos⟩,
          some ⟨![box.m_leftBottomBackPos 0, box.m_rightTopFrontPos 1,
              box.m_leftBottomBackPos 2],
            box.m_rightTopFrontPos,
            ![box.m_leftBottomBackPos 0, box.m_rightTopFrontPos 1,
              box.m_rightTopFrontPos 2]⟩,
          some ⟨![box.m_leftBottomBackPos 0, box.m_leftBottomBackPos 1,
              box.m_rightTopFrontPos 2],
            ![box.m_rightTopFrontPos 0, box.m_leftBottomBackPos 1, box.m_rightTopFrontPos 2],
            ![box.m_rightTopFrontPos 0, box.m_leftBottomBackPos 1,
              box.m_leftBottomBackPos 2]⟩,
          some ⟨![box.m_leftBottomBackPos 0, box.m_leftBottomBackPos 1,
              box.m_rightTopFrontPos 2],
            ![box.m_rightTopFrontPos 0, box.m_leftBottomBackPos 1, box.m_leftBottomBackPos 2],
            box.m_leftBottomBackPos⟩,
          some ⟨![box.m_leftBottomBackPos 0, box.m_rightTopFrontPos 1,
              box.m_rightTopFrontPos 2],
            box.m_rightTopFrontPos,
            ![box.m_rightTopFrontPos 0, box.m_leftBottomBackPos 1,
              box.m_rightTopFrontPos 2]⟩,
          some ⟨![box.m_leftBottomBackPos 0, box.m_rightTopFrontPos 1,
              box.m_rightTopFrontPos 2],
            ![box.m_rightTopFrontPos 0, box.m_leftBottomBackPos 1, box.m_rightTopFrontPos 2],
            ![box.m_leftBottomBackPos 0, box.m_leftBottomBackPos 1,
              box.m_rightTopFrontPos 2]⟩,
          some ⟨![box.m_rightTopFrontPos 0, box.m_rightTopFrontPos 1,
              box.m_leftBottomBackPos 2],
            ![box.m_leftBottomBackPos 0, box.m_rightTopFrontPos 1, box.m_leftBottomBackPos 2],
            box.m_leftBottomBackPos⟩,
          some ⟨![box.m_rightTopFrontPos 0, box.m_rightTopFrontPos 1,
              box.m_leftBottomBackPos 2],
            box.m_leftBottomBackPos,
            ![box.m_rightTopFrontPos 0, box.m_leftBottomBackPos 1,
              box.m_leftBottomBackPos 2]⟩ ] :=
  rfl

/-- The cross product `cross(b - a, c - a)` of a triangle, component by component. -/
theorem computeNormal_apply (a b c : Vec3f α) :
    Triangle.computeNormal ⟨a, b, c⟩ 0
      = (b 1 - a 1) * (c 2 - a 2) - (b 2 - a 2) * (c 1 - a 1) ∧
    Triangle.computeNormal ⟨a, b, c⟩ 1
      = -((b 0 - a 0) * (c 2 - a 2) - (b 2 - a 2) * (c 0 - a 0)) ∧
    Triangle.computeNormal ⟨a, b, c⟩ 2
      = (b 0 - a 0) * (c 1 - a 1) - (b 1 - a 1) * (c 0 - a 0) :=
  ⟨rfl, rfl, rfl⟩

set_option maxHeartbeats 1000000 in
/-- C34: for a box whose min corner is strictly below its max corner on each axis, the
box mesh has 12 triangles, two for each of the six faces in turn. The two triangles of a
face have all their vertices on it (the coordinate of the axis of the face equal to that of
the corner of the face), every vertex of the mesh lying on the face is a vertex of one of
the two, and the cross product `cross(v1 - v0, v2 - v0)` of each is along the axis of the
face and points to the inside: negative on a face of the max corner, positive on a face of
the min corner. -/
theorem box_triangles_inward (box : AABB α) (submesh : Submesh α)
    (hx : box.m_leftBottomBackPos 0 < box.m_rightTopFrontPos 0)
    (hy : box.m_leftBottomBackPos 1 < box.m_rightTopFrontPos 1)
    (hz : box.m_leftBottomBackPos 2 < box.m_rightTopFrontPos 2) :
    (Submesh.triangles (boxSubmesh box submesh)).length = 12 ∧
    ∀ k, k < 6 → ∃ first second axis side,
      (Submesh.triangles (boxSubmesh box submesh))[2 * k]? = some (some first) ∧
      (Submesh.triangles (boxSubmesh box submesh))[2 * k + 1]? = some (some second) ∧
      (side = box.m_leftBottomBackPos axis ∨ side = box.m_rightTopFrontPos axis) ∧
      (∀ pos ∈ Triangle.vertices first ++ Triangle.vertices second, pos axis = side) ∧
      (∀ vert ∈ (boxSubmesh box submesh).m_vertices, vert.position axis = side →
        vert.position ∈ Triangle.vertices first ++ Triangle.vertices second) ∧
      (∀ i, i ≠ axis → Triangle.computeNormal first i = 0 ∧
        Triangle.computeNormal second i = 0) ∧
      (side = box.m_rightTopFrontPos axis →
        Triangle.computeNormal first axis < 0 ∧ Triangle.computeNormal second axis < 0) ∧
      (side = box.m_leftBottomBackPos axis →
        0 < Triangle.computeNormal first axis ∧ 0 < Triangle.computeNormal second axis) := by
  have hxy : 0 < (box.m_rightTopFrontPos 0 - box.m_leftBottomBackPos 0)
      * (box.m_rightTopFrontPos 1 - box.m_leftBottomBackPos 1) :=
    mul_pos (sub_pos.mpr hx) (sub_pos.mpr hy)
  have hxz : 0 < (box.m_rightTopFrontPos 0 - box.m_leftBottomBackPos 0)
      * (box.m_rightTopFrontPos 2 - box.m_leftBottomBackPos 2) :=
    mul_pos (sub_pos.mpr hx) (sub_pos.mpr hz)
  have hyz : 0 < (box.m_rightTopFrontPos 1 - box.m_leftBottomBackPos 1)
      * (box.m_rightTopFrontPos 2 - box.m_leftBottomBackPos 2) :=
    mul_pos (sub_pos.mpr hy) (sub_pos.mpr hz)
  rw [boxSubmesh_triangles]
  refine ⟨rfl, ?_⟩
  intro k hk
  interval_cases k
  · refine ⟨_, _, 0, box.m_rightTopFrontPos 0, rfl, rfl, Or.inr rfl, ?_, ?_, ?_, ?_, ?_⟩
    · intro pos hpos
      simp only [Triangle.vertices, List.cons_append, List.nil_append, List.mem_cons,
        List.mem_singleton, List.mem_nil_iff, or_false] at hpos
      rcases hpos with h | h | h | h | h | h <;> (subst h; rfl)
    · intro vert hvert hside
      simp only [boxSubmesh, List.mem_cons, List.mem_singleton, List.mem_nil_iff,
        or_false] at hvert
      rcases hvert with h | h | h | h | h | h | h | h <;> subst h <;> first
        | exact absurd hside (ne_of_lt hx)
        | simp only [Triangle.vertices, List.cons_append, List.nil_append, List.mem_cons,
            List.mem_singleton, true_or, or_true]
    · intro i hi
      fin_cases i <;> first
        | exact absurd rfl hi
        | (constructor <;> simp [Triangle.computeNormal, Vector.cross, Vector.sub])
    · intro _
      constructor <;>
        simp [Triangle.computeNormal, Vector.cross, Vector.sub] <;> nlinarith
    · intro hs
      exact absurd hs (ne_of_gt hx)
  · refine ⟨_, _, 0, box.m_leftBottomBackPos 0, rfl, rfl, Or.inl rfl, ?_, ?_, ?_, ?_, ?_⟩
    · intro pos hpos
      simp only [Triangle.vertices, List.cons_append, List.nil_append, List.mem_cons,
        List.mem_singleton, List.mem_nil_iff, or_false] at hpos
      rcases hpos with h | h | h | h | h | h <;> (subst h; rfl)
    · intro vert hvert hside
      simp only [boxSubmesh, List.mem_cons, List.mem_singleton, List.mem_nil_iff,
        or_false] at hvert
      rcases hvert with h | h | h | h | h | h | h | h <;> subst h <;> first
        | exact absurd hside (ne_of_gt hx)
        | simp only [Triangle.vertices, List.cons_append, List.nil_append, List.mem_cons,
            List.mem_singleton, true_or, or_true]
    · intro i hi
      fin_cases i <;> first
        | exact absurd rfl hi
        | (constructor <;> simp [Triangle.computeNormal, Vector.cross, Vector.sub])
    · intro hs
      exact absurd hs (ne_of_lt hx)
    · intro _
      constructor <;>
        simp [Triangle.computeNormal, Vector.cross, Vector.sub] <;> nlinarith
  · refine ⟨_, _, 1, box.m_rightTopFrontPos 1, rfl, rfl, Or.inr rfl, ?_, ?_, ?_, ?_, ?_⟩
    · intro pos hpos
      simp only [Triangle.vertices, List.cons_append, List.nil_append, List.mem_cons,
        List.mem_singleton, List.mem_nil_iff, or_false] at hpos
      rcases hpos with h | h | h | h | h | h <;> (subst h; rfl)
    · intro vert hvert hside
      simp only [boxSubmesh, List.mem_cons, List.mem_singleton, List.mem_nil_iff,
        or_false] at hvert
      rcases hvert with h | h | h | h | h | h | h | h <;> subst h <;> first
        | exact absurd hside (ne_of_lt hy)
        | simp only [Triangle.vertices, List.cons_append, List.nil_append, List.mem_cons,
            List.mem_singleton, true_or, or_true]
    · intro i hi
      fin_cases i <;> first
        | exact absurd rfl hi
        | (constructor <;> simp [Triangle.computeNormal, Vector.cross, Vector.sub])
    · intro _
      constructor <;>
        simp [Triangle.computeNormal, Vector.cross, Vector.sub] <;> nlinarith
    · intro hs
      exact absurd hs (ne_of_gt hy)
  · refine ⟨_, _, 1, box.m_leftBottomBackPos 1, rfl, rfl, Or.inl rfl, ?_, ?_, ?_, ?_, ?_⟩
    · intro pos hpos
      simp only [Triangle.vertices, List.cons_append, List.nil_append, List.mem_cons,
        List.mem_singleton, List.mem_nil_iff, or_false] at hpos
      rcases hpos with h | h | h | h | h | h <;> (subst h; rfl)
    · intro vert hvert hside
      simp only [boxSubmesh, List.mem_cons, List.mem_singleton, List.mem_nil_iff,
        or_false] at hvert
      rcases hvert with h | h | h | h | h | h | h | h <;> subst h <;> first
        | exact absurd hside (ne_of_gt hy)
        | simp only [Triangle.vertices, List.cons_append, List.nil_append, List.mem_cons,
            List.mem_singleton, true_or, or_true]
    · intro i hi
      fin_cases i <;> first
        | exact absurd rfl hi
        | (constructor <;> simp [Triangle.computeNormal, Vector.cross, Vector.sub])
    · intro hs
      exact absurd hs (ne_of_lt hy)
    · intro _
      constructor <;>
        simp [Triangle.computeNormal, Vector.cross, Vector.sub] <;> nlinarith
  · refine ⟨_, _, 2, box.m_rightTopFrontPos 2, rfl, rfl, Or.inr rfl, ?_, ?_, ?_, ?_, ?_⟩
    · intro pos hpos
      simp only [Triangle.vertices, List.cons_append, List.nil_append, List.mem_cons,
        List.mem_singleton, List.mem_nil_iff, or_false] at hpos
      rcases hpos with h | h | h | h | h | h <;> (subst h; rfl)
    · intro vert hvert hside
      simp only [boxSubmesh, List.mem_cons, List.mem_singleton, List.mem_nil_iff,
        or_false] at hvert
      rcases hvert with h | h | h | h | h | h | h | h <;> subst h <;> first
        | exact absurd hside (ne_of_lt hz)
        | simp only [Triangle.vertices, List.cons_append, List.nil_append, List.mem_cons,
            List.mem_singleton, true_or, or_true]
    · intro i hi
      fin_cases i <;> first
        | exact absurd rfl hi
        | (constructor <;> simp [Triangle.computeNormal, Vector.cross, Vector.sub])
    · intro _
      constructor <;>
        simp [Triangle.computeNormal, Vector.cross, Vector.sub] <;> nlinarith
    · intro hs
      exact absurd hs (ne_of_gt hz)
  · refine ⟨_, _, 2, box.m_leftBottomBackPos 2, rfl, rfl, Or.inl rfl, ?_, ?_, ?_, ?_, ?_⟩
    · intro pos hpos
      simp only [Triangle.vertices, List.cons_append, List.nil_append, List.mem_cons,
        List.mem_singleton, List.mem_nil_iff, or_false] at hpos
      rcases hpos with h | h | h | h | h | h <;> (subst h; rfl)
    · intro vert hvert hside
      simp only [boxSubmesh, List.mem_cons, List.mem_singleton, List.mem_nil_iff,
        or_false] at hvert
      rcases hvert with h | h | h | h | h | h | h | h <;> subst h <;> first
        | exact absurd hside (ne_of_gt hz)
        | simp only [Triangle.vertices, List.cons_append, List.nil_append, List.mem_cons,
            List.mem_singleton, true_or, or_true]
    · intro i hi
      fin_cases i <;> first
        | exact absurd rfl hi
        | (constructor <;> simp [Triangle.computeNormal, Vector.cross, Vector.sub])
    · intro hs
      exact absurd hs (ne_of_lt hz)
    · intro _
      constructor <;>
        simp [Triangle.computeNormal, Vector.cross, Vector.sub] <;> nlinarith

/-- C34, witness: the box `aabb2`. -/
theorem box_triangles_inward_witness :
    (Submesh.triangles (boxSubmesh aabb2 (Submesh.empty ℚ))).length = 12 ∧
    ∃ first second,
      (Submesh.triangles (boxSubmesh aabb2 (Submesh.empty ℚ)))[0]? = some (some first) ∧
      (Submesh.triangles (boxSubmesh aabb2 (Submesh.empty ℚ)))[1]? = some (some second) := by
  have h := box_triangles_inward aabb2 (Submesh.empty ℚ) (by norm_num [aabb2])
    (by norm_num [aabb2]) (by norm_num [aabb2])
  obtain ⟨first, second, _, _, h0, h1, _⟩ := h.2 0 (by norm_num)
  exact ⟨h.1, first, second, h0, h1⟩

/-- C35: for a box whose min corner is below its max corner on each axis, every position
of the eight vertices of the box mesh lies between the two corners on each axis, the
corner `leftBottomBack` and the corner `rightTopFront` are positions of vertices of the
mesh, so that they are the component-wise minimum and maximum of the positions; for
corners within the range of `float`, the min/max reduction over the vertices of the
submesh returns the box. -/
theorem box_round_trip (box : AABB α) (submesh : Submesh α)
    (hle : ∀ i, box.m_leftBottomBackPos i ≤ box.m_rightTopFrontPos i) :
    (∀ vert ∈ (boxSubmesh box submesh).m_vertices, ∀ i,
      box.m_leftBottomBackPos i ≤ vert.position i ∧
      vert.position i ≤ box.m_rightTopFrontPos i) ∧
    (∃ vert ∈ (boxSubmesh box submesh).m_vertices,
      vert.position = box.m_leftBottomBackPos) ∧
    (∃ vert ∈ (boxSubmesh box submesh).m_vertices,
      vert.position = box.m_rightTopFrontPos) ∧
    ((∀ i, floatLowest ≤ box.m_rightTopFrontPos i) →
      (∀ i, box.m_leftBottomBackPos i ≤ floatMax) →
      Submesh.computeBoundingBox (boxSubmesh box submesh) = box) := by
  have h0 := hle 0
  have h1 := hle 1
  have h2 := hle 2
  refine ⟨?_, ?_, ?_, ?_⟩
  · intro vert hvert i
    simp only [boxSubmesh, List.mem_cons, List.mem_singleton, List.mem_nil_iff,
      or_false] at hvert
    rcases hvert with h | h | h | h | h | h | h | h <;> subst h <;> fin_cases i <;>
      first
      | exact ⟨le_refl _, hle _⟩
      | exact ⟨hle _, le_refl _⟩
  · refine ⟨{ Vertex.init α with position := box.m_leftBottomBackPos, texcoords := ![1, 0] },
      ?_, rfl⟩
    simp [boxSubmesh]
  · refine ⟨{ Vertex.init α with position := box.m_rightTopFrontPos, texcoords := ![1, 1] },
      ?_, rfl⟩
    simp [boxSubmesh]
  · intro hlow hmax
    have l0 := hlow 0
    have l1 := hlow 1
    have l2 := hlow 2
    have m0 := hmax 0
    have m1 := hmax 1
    have m2 := hmax 2
    obtain ⟨lo, hi⟩ := box
    simp only at h0 h1 h2 l0 l1 l2 m0 m1 m2
    simp only [Submesh.computeBoundingBox, boxSubmesh, List.foldl_cons, List.foldl_nil,
      boundingBoxStep, AABB.mk.injEq]
    constructor
    · funext i
      fin_cases i <;> simp [Vector.fill, Vertex.init, *]
    · funext i
      fin_cases i <;> simp [Vector.fill, Vertex.init, *]

/-- C35, witness: the box `aabb2`. -/
theorem box_round_trip_witness :
    (∀ i, aabb2.m_leftBottomBackPos i ≤ aabb2.m_rightTopFrontPos i) ∧
    Submesh.computeBoundingBox (boxSubmesh aabb2 (Submesh.empty ℚ)) = aabb2 := by
  have hle : ∀ i, aabb2.m_leftBottomBackPos i ≤ aabb2.m_rightTopFrontPos i := by
    intro i
    fin_cases i <;> norm_num [aabb2]
  refine ⟨hle, (box_round_trip aabb2 (Submesh.empty ℚ) hle).2.2.2 ?_ ?_⟩
  · intro i
    fin_cases i <;> norm_num [aabb2, floatLowest, floatMax]
  · intro i
    fin_cases i <;> norm_num [aabb2, floatMax]

end QuadBox

/-! ## The look-at view matrix -/

section LookAt

variable {α : Type} [LinearOrderedField α]

/-- The product of a row vector by a matrix given by its four rows. -/
theorem mulMatrix_ofRows (v r0 r1 r2 r3 : Vector α 4) (j : Fin 4) :
    Vector.mulMatrix (le_refl 4) v (Mat4f.ofRows r0 r1 r2 r3) j
      = v 0 * r0 j + v 1 * r1 j + v 2 * r2 j + v 3 * r3 j := by
  fin_cases j <;>
    simp [Vector.mulMatrix, Fin.foldl_succ, Mat4f.ofRows, Matrix.flatIndex] <;> rfl

/-- The row vector `(position.x, position.y, position.z, 1)` times the matrix of
`computeLookAt` (`Vector * Matrix`) is `(0, 0, 0, 1)`, whatever the three axes are, in a
field. -/
theorem lookAt_row_product (fm : FloatMath α) (cam : Camera α)
    (target orientation : Vec3f α) :
    Vector.mulMatrix (le_refl 4)
        ![cam.m_position 0, cam.m_position 1, cam.m_position 2, 1]
        (Camera.computeLookAt fm cam target orientation).2
      = ![0, 0, 0, 1] := by
  funext j
  simp only [Camera.computeLookAt]
  rw [mulMatrix_ofRows]
  fin_cases j <;> simp [dot_vec3, Vector.neg] <;> ring

/-- C37, amended: for every position, target and up vector for which the two lengths that
`computeLookAt` divides by are not zero (the position is not the target, and `up` is not
parallel to `position - target`), the matrix of `computeLookAt` is a matrix of numbers
and the row vector `(position.x, position.y, position.z, 1)` times this matrix
(`Vector * Matrix`) is `(0, 0, 0, 1)`. -/
theorem lookAt_sends_position_to_origin (fm : FloatMath α) (cam : Camera α)
    (target orientation : Vec3f α)
    (hforward : Vector.computeLength fm (Vector.sub cam.m_position target) ≠ 0)
    (hright : Vector.computeLength fm
      (Vector.cross (lookAtForward fm cam.m_position target) orientation) ≠ 0) :
    Camera.computeLookAtChecked fm cam target orientation
      = some (Camera.computeLookAt fm cam target orientation).2 ∧
    Vector.mulMatrix (le_refl 4)
        ![cam.m_position 0, cam.m_position 1, cam.m_position 2, 1]
        (Camera.computeLookAt fm cam target orientation).2
      = ![0, 0, 0, 1] := by
  refine ⟨?_, lookAt_row_product fm cam target orientation⟩
  unfold lookAtForward at hright
  simp only [Camera.computeLookAtChecked, Vector.normalizeChecked, hforward, if_false,
    Option.some_bind, hright, Camera.computeLookAt]

/-- C37, amended, witness: the camera at `(0, 0, 5)` looking at the origin with the up
vector `(0, 1, 0)`. -/
theorem lookAt_sends_position_to_origin_witness :
    Vector.mulMatrix (le_refl 4)
        ![cameraOnZ.m_position 0, cameraOnZ.m_position 1, cameraOnZ.m_position 2, 1]
        (Camera.computeLookAt ratMath cameraOnZ ![0, 0, 0] ![0, 1, 0]).2
      = ![0, 0, 0, 1] :=
  (lookAt_sends_position_to_origin ratMath cameraOnZ ![0, 0, 0] ![0, 1, 0]
    (by
      simp only [Vector.computeLength, dot_vec3, ratMath, cameraOnZ, Vector.sub]
      norm_num)
    (by
      simp only [Vector.computeLength, dot_vec3, ratMath, cameraOnZ, lookAtForward,
        Vector.normalize, Vector.divScalar, Vector.cross, Vector.sub]
      norm_num)).2

/-- C37, counterexample: for the camera `sampleCamera` at the origin and the origin as
target, the position is the target, the first call of `normalize` divides the zero vector
by its zero length: the matrix of `computeLookAt` is not a matrix of numbers, and no row
vector times it is `(0, 0, 0, 1)`. -/
theorem lookAt_position_at_target :
    sampleCamera.m_position = ![0, 0, 0] ∧
    Vector.computeLength ratMath (Vector.sub sampleCamera.m_position ![0, 0, 0]) = 0 ∧
    Camera.computeLookAtChecked ratMath sampleCamera ![0, 0, 0] ![0, 1, 0] = none ∧
    ¬ ∃ view, Camera.computeLookAtChecked ratMath sampleCamera ![0, 0, 0] ![0, 1, 0]
        = some view ∧
      Vector.mulMatrix (le_refl 4)
        ![sampleCamera.m_position 0, sampleCamera.m_position 1, sampleCamera.m_position 2, 1]
        view = ![0, 0, 0, 1] := by
  have hlen : Vector.computeLength ratMath (Vector.sub sampleCamera.m_position ![0, 0, 0])
      = 0 := by
    simp only [Vector.computeLength, dot_vec3, ratMath, sampleCamera, Vector.sub]
    norm_num
  have hnone : Camera.computeLookAtChecked ratMath sampleCamera ![0, 0, 0] ![0, 1, 0]
      = none := by
    simp only [Camera.computeLookAtChecked, Vector.normalizeChecked, hlen, if_true,
      Option.none_bind]
  refine ⟨rfl, hlen, hnone, ?_⟩
  rintro ⟨view, hview, _⟩
  rw [hnone] at hview
  exact Option.noConfusion hview

/-- The cross product of two vectors is orthogonal to both. -/
theorem dot_cross_orthogonal (a b : Vec3f α) :
    Vector.dot (Vector.cross a b) a = 0 ∧ Vector.dot (Vector.cross a b) b = 0 ∧
    Vector.dot a (Vector.cross a b) = 0 := by
  refine ⟨?_, ?_, ?_⟩ <;>
  · rw [dot_vec3]
    simp only [Vector.cross, Matrix.cons_val_zero, Matrix.cons_val_one, Matrix.head_cons,
      Matrix.cons_val_two, Matrix.tail_cons]
    ring

/-- The identity of Lagrange: the squared length of a cross product. -/
theorem dot_cross_self (a b : Vec3f α) :
    Vector.dot (Vector.cross a b) (Vector.cross a b)
      = Vector.dot a a * Vector.dot b b - Vector.dot a b * Vector.dot a b := by
  rw [dot_vec3, dot_vec3, dot_vec3, dot_vec3]
  simp only [Vector.cross, Matrix.cons_val_zero, Matrix.cons_val_one, Matrix.head_cons,
    Matrix.cons_val_two, Matrix.tail_cons]
  ring

/-- The cross product with a vector divided by a scalar. -/
theorem cross_divScalar (a b : Vec3f α) (len : α) :
    Vector.cross (Vector.divScalar a len) b = Vector.divScalar (Vector.cross a b) len := by
  funext i
  fin_cases i <;> simp [Vector.cross, Vector.divScalar] <;> ring

/-- The dot product of a vector divided by a scalar with another vector. -/
theorem dot_divScalar (a b : Vec3f α) (len : α) :
    Vector.dot (Vector.divScalar a len) b = Vector.dot a b / len := by
  rw [dot_vec3, dot_vec3]
  simp only [Vector.divScalar]
  ring

/-- The dot product with the opposite of a vector. -/
theorem dot_neg_right (a b : Vec3f α) :
    Vector.dot a (Vector.neg b) = -Vector.dot a b := by
  rw [dot_vec3, dot_vec3]
  simp only [Vector.neg]
  ring

/-- C36: the matrix of `Camera::computeLookAt(target, up)` has the rows
`(right[i], trueUp[i], -forward[i], 0)` for `i = 0, 1, 2` and the last row
`(-dot(right, position), -dot(trueUp, position), dot(forward, position), 1)`, for
`forward = normalize(position - target)`, `right = normalize(cross(forward, up))` and
`trueUp = cross(right, forward)`; with a square root that is exact and non-negative on the
non-negative numbers, when the position is not the target and `up` is not parallel to
`position - target` (their cross product is not zero), the three axes have length 1 and
are orthogonal to each other. -/
theorem computeLookAt_orthonormal (fm : FloatMath α) (cam : Camera α)
    (target orientation : Vec3f α)
    (hsq : ∀ x, 0 ≤ x → fm.sqrt x * fm.sqrt x = x) (hnn : ∀ x, 0 ≤ x → 0 ≤ fm.sqrt x)
    (hpos : cam.m_position ≠ target)
    (hpar : Vector.cross (Vector.sub cam.m_position target) orientation ≠ Vector.fill 0) :
    (Camera.computeLookAt fm cam target orientation).2
      = Mat4f.ofRows
          ![lookAtRight fm cam.m_position target orientation 0,
            lookAtTrueUp fm cam.m_position target orientation 0,
            -lookAtForward fm cam.m_position target 0, 0]
          ![lookAtRight fm cam.m_position target orientation 1,
            lookAtTrueUp fm cam.m_position target orientation 1,
            -lookAtForward fm cam.m_position target 1, 0]
          ![lookAtRight fm cam.m_position target orientation 2,
            lookAtTrueUp fm cam.m_position target orientation 2,
            -lookAtForward fm cam.m_position target 2, 0]
          ![-Vector.dot (lookAtRight fm cam.m_position target orientation) cam.m_position,
            -Vector.dot (lookAtTrueUp fm cam.m_position target orientation) cam.m_position,
            Vector.dot (lookAtForward fm cam.m_position target) cam.m_position, 1] ∧
    (∀ i : Fin 3,
      (Camera.computeLookAt fm cam target orientation).2 (Matrix.flatIndex i.castSucc 0)
        = lookAtRight fm cam.m_position target orientation i ∧
      (Camera.computeLookAt fm cam target orientation).2 (Matrix.flatIndex i.castSucc 1)
        = lookAtTrueUp fm cam.m_position target orientation i ∧
      (Camera.computeLookAt fm cam target orientation).2 (Matrix.flatIndex i.castSucc 2)
        = -lookAtForward fm cam.m_position target i ∧
      (Camera.computeLookAt fm cam target orientation).2 (Matrix.flatIndex i.castSucc 3)
        = 0) ∧
    Vector.computeLength fm (lookAtForward fm cam.m_position target) = 1 ∧
    Vector.computeLength fm (lookAtRight fm cam.m_position target orientation) = 1 ∧
    Vector.computeLength fm (lookAtTrueUp fm cam.m_position target orientation) = 1 ∧
    Vector.dot (lookAtRight fm cam.m_position target orientation)
      (lookAtTrueUp fm cam.m_position target orientation) = 0 ∧
    Vector.dot (lookAtRight fm cam.m_position target orientation)
      (lookAtForward fm cam.m_position target) = 0 ∧
    Vector.dot (lookAtTrueUp fm cam.m_position target orientation)
      (lookAtForward fm cam.m_position target) = 0 := by
  have hone : fm.sqrt 1 = 1 := by
    have h := sqrt_mul_self fm hsq hnn 1 zero_le_one
    rwa [mul_one] at h
  -- the forward axis
  have hd : 0 < Vector.dot (Vector.sub cam.m_position target)
      (Vector.sub cam.m_position target) := by
    apply dot_self_pos
    intro h0
    apply hpos
    funext i
    have := congrFun h0 i
    simp only [Vector.sub, Vector.fill] at this
    exact sub_eq_zero.mp this
  have hlen := hsq _ hd.le
  have hlen0 : fm.sqrt (Vector.dot (Vector.sub cam.m_position target)
      (Vector.sub cam.m_position target)) ≠ 0 := by
    intro h0
    rw [h0, mul_zero] at hlen
    exact hd.ne hlen
  have hzz : Vector.dot (lookAtForward fm cam.m_position target)
      (lookAtForward fm cam.m_position target) = 1 := dot_normalize fm hsq _ hd
  -- the right axis
  have hc : 0 < Vector.dot (Vector.cross (lookAtForward fm cam.m_position target) orientation)
      (Vector.cross (lookAtForward fm cam.m_position target) orientation) := by
    apply dot_self_pos
    intro h0
    apply hpar
    unfold lookAtForward Vector.normalize at h0
    rw [cross_divScalar] at h0
    funext i
    have := congrFun h0 i
    simp only [Vector.divScalar, Vector.fill, Vector.computeLength] at this
    rcases div_eq_zero_iff.mp this with h | h
    · exact h
    · exact absurd h hlen0
  have hxx : Vector.dot (lookAtRight fm cam.m_position target orientation)
      (lookAtRight fm cam.m_position target orientation) = 1 := dot_normalize fm hsq _ hc
  have hxz : Vector.dot (lookAtRight fm cam.m_position target orientation)
      (lookAtForward fm cam.m_position target) = 0 := by
    unfold lookAtRight Vector.normalize
    rw [dot_divScalar, (dot_cross_orthogonal _ _).1, zero_div]
  have hyy : Vector.dot (lookAtTrueUp fm cam.m_position target orientation)
      (lookAtTrueUp fm cam.m_position target orientation) = 1 := by
    unfold lookAtTrueUp
    rw [dot_cross_self, hxx, hzz, hxz]
    ring
  refine ⟨?_, ?_, ?_, ?_, ?_, ?_, hxz, ?_⟩
  · simp only [Camera.computeLookAt, lookAtRight, lookAtTrueUp, lookAtForward, dot_neg_right]
  · intro i
    fin_cases i <;> exact ⟨rfl, rfl, rfl, rfl⟩
  · rw [Vector.computeLength, hzz, hone]
  · rw [Vector.computeLength, hxx, hone]
  · rw [Vector.computeLength, hyy, hone]
  · exact (dot_cross_orthogonal _ _).2.2
  · exact (dot_cross_orthogonal _ _).2.1

/-- C36, witness: over the real numbers with the real square root, the camera at
`(0, 0, 5)` looking at the origin with the up vector `(0, 1, 0)`. -/
theorem computeLookAt_orthonormal_witness :
    (![0, 0, 5] : Vec3f ℝ) ≠ ![0, 0, 0] ∧
    Vector.computeLength
      (⟨Real.sqrt, Real.cos, Real.sin, Real.tan, fun y x => Complex.arg ⟨x, y⟩, Real.pi,
        (1 + Real.sqrt 5) / 2⟩ : FloatMath ℝ)
      (lookAtForward
        (⟨Real.sqrt, Real.cos, Real.sin, Real.tan, fun y x => Complex.arg ⟨x, y⟩, Real.pi,
        (1 + Real.sqrt 5) / 2⟩ : FloatMath ℝ)
        ![0, 0, 5] ![0, 0, 0]) = 1 ∧
    Vector.dot
      (lookAtRight
        (⟨Real.sqrt, Real.cos, Real.sin, Real.tan, fun y x => Complex.arg ⟨x, y⟩, Real.pi,
        (1 + Real.sqrt 5) / 2⟩ : FloatMath ℝ)
        ![0, 0, 5] ![0, 0, 0] ![0, 1, 0])
      (lookAtForward
        (⟨Real.sqrt, Real.cos, Real.sin, Real.tan, fun y x => Complex.arg ⟨x, y⟩, Real.pi,
        (1 + Real.sqrt 5) / 2⟩ : FloatMath ℝ)
        ![0, 0, 5] ![0, 0, 0]) = 0 := by
  have hpos : (![0, 0, 5] : Vec3f ℝ) ≠ ![0, 0, 0] := by
    intro h
    have h2 := congrFun h 2
    simp at h2
  have hpar : Vector.cross (Vector.sub (![0, 0, 5] : Vec3f ℝ) ![0, 0, 0]) ![0, 1, 0]
      ≠ Vector.fill 0 := by
    intro h
    have h0 := congrFun h 0
    simp [Vector.cross, Vector.sub, Vector.fill] at h0
  have h := computeLookAt_orthonormal
    (⟨Real.sqrt, Real.cos, Real.sin, Real.tan, fun y x => Complex.arg ⟨x, y⟩, Real.pi,
        (1 + Real.sqrt 5) / 2⟩ : FloatMath ℝ)
    { m_position := ![0, 0, 5], m_rotation := fun _ => 0, m_frameRatio := 1,
      m_fieldOfView := 1, m_nearPlane := 1, m_farPlane := 2, m_viewMat := fun _ => 0,
      m_invViewMat := fun _ => 0, m_projMat := fun _ => 0, m_invProjMat := fun _ => 0 }
    ![0, 0, 0] ![0, 1, 0]
    (fun _ hx => Real.mul_self_sqrt hx) (fun x _ => Real.sqrt_nonneg x) hpos hpar
  exact ⟨hpos, h.2.2.1, h.2.2.2.2.2.2.1⟩

end LookAt

/-! ## The UV sphere of a single band -/

section UvSingleBand

variable {α : Type} [LinearOrderedField α]

/-- The length of `n` blocks of `c` elements. -/
theorem length_flatMap_range {β : Type} (f : Nat → List β) (c : Nat)
    (hf : ∀ i, (f i).length = c) (n : Nat) :
    ((List.range n).flatMap f).length = n * c := by
  induction n with
  | zero => simp
  | succ n ih =>
    rw [List.range_succ, List.flatMap_append, List.length_append, ih]
    simp [hf, Nat.succ_mul]

/-- C38 (amended): for `heightCount = 1` and a `widthCount` below `U32 - 1 = 4294967295`,
with enough fuel, `createUvSphere` returns a submesh to whose indices it appended exactly
`6 * widthCount` entries: the `3 * widthCount` entries of the upper circle, then the `3 * widthCount`
entries of the lower circle, the middle band being empty; both circles are on the vertex
rows 0 and 1, the upper one with the triangles `(cur + 1, next, next + 1)` and the lower
one with the triangles `(cur, next, cur + 1)`. -/
theorem uvSphere_single_band (fm : FloatMath α) (sphere : Sphere α)
    (widthCount fuel : Nat) (submesh : Submesh α)
    (hw : widthCount < U32 - 1) (hfw : widthCount + 2 ≤ fuel) (hf : 3 ≤ fuel) :
    ∃ res upper lower, createUvSphere fuel fm sphere widthCount 1 submesh = some res ∧
      res.m_indices = submesh.m_indices ++ upper ++ lower ∧
      uvUpperCircle widthCount submesh.m_indices = submesh.m_indices ++ upper ∧
      uvMiddleRows widthCount 1 (submesh.m_indices ++ upper) = submesh.m_indices ++ upper ∧
      uvLowerCircle widthCount 1 (submesh.m_indices ++ upper)
        = submesh.m_indices ++ upper ++ lower ∧
      upper = (List.range widthCount).flatMap (fun i =>
        uvCellSecond (uvRowStart widthCount 0 + i) (uvRowStart widthCount 1 + i)) ∧
      lower = (List.range widthCount).flatMap (fun i =>
        uvCellFirst (uvRowStart widthCount 0 + i) (uvRowStart widthCount 1 + i)) ∧
      upper.length = 3 * widthCount ∧ lower.length = 3 * widthCount ∧
      res.m_indices.length = submesh.m_indices.length + 6 * widthCount := by
  have hU : U32 = 4294967296 := rfl
  have hvs := uvSphereVertices_eq fm sphere widthCount 1 fuel submesh.m_vertices
    hw (by rw [hU]; omega) hfw (by omega)
  have hup := uvUpperCircle_eq widthCount submesh.m_indices
  have hmid : ∀ acc, uvMiddleRows widthCount 1 acc = acc := by
    intro acc
    rw [uvMiddleRows_eq widthCount 1 acc (le_refl 1) (by rw [hU]; omega)]
    simp
  have hlow := uvLowerCircle_eq widthCount 1
    (submesh.m_indices ++ (List.range widthCount).flatMap (fun i =>
      uvCellSecond (uvRowStart widthCount 0 + i) (uvRowStart widthCount 1 + i)))
    (le_refl 1) (by rw [hU]; omega)
  have hlenU : ((List.range widthCount).flatMap (fun i =>
      uvCellSecond (uvRowStart widthCount 0 + i) (uvRowStart widthCount 1 + i))).length
      = 3 * widthCount := by
    rw [length_flatMap_range (fun i =>
      uvCellSecond (uvRowStart widthCount 0 + i) (uvRowStart widthCount 1 + i)) 3
      (fun _ => rfl), Nat.mul_comm]
  have hlenL : ((List.range widthCount).flatMap (fun i =>
      uvCellFirst (uvRowStart widthCount 0 + i) (uvRowStart widthCount 1 + i))).length
      = 3 * widthCount := by
    rw [length_flatMap_range (fun i =>
      uvCellFirst (uvRowStart widthCount 0 + i) (uvRowStart widthCount 1 + i)) 3
      (fun _ => rfl), Nat.mul_comm]
  have hres : uvSphereIndices widthCount 1 submesh.m_indices
      = submesh.m_indices ++ (List.range widthCount).flatMap (fun i =>
          uvCellSecond (uvRowStart widthCount 0 + i) (uvRowStart widthCount 1 + i))
        ++ (List.range widthCount).flatMap (fun i =>
          uvCellFirst (uvRowStart widthCount 0 + i) (uvRowStart widthCount 1 + i)) := by
    unfold uvSphereIndices
    rw [hup, hmid, hlow]
  refine ⟨_, _, _, by rw [createUvSphere, hvs]; rfl, hres, hup, hmid _, hlow, rfl, rfl,
    hlenU, hlenL, ?_⟩
  show (uvSphereIndices widthCount 1 submesh.m_indices).length = _
  rw [hres, List.length_append, List.length_append, hlenU, hlenL]
  omega

/-- C38, witness: the sphere of 2 by 1 subdivisions has the 12 indices of its two
circles. -/
theorem uvSphere_single_band_witness :
    ∃ res, createUvSphere 4 ratMath unitSphere 2 1 (Submesh.empty ℚ) = some res ∧
      res.m_indices = [1, 3, 4, 2, 4, 5, 0, 3, 1, 1, 4, 2] := by
  obtain ⟨res, upper, lower, hres, hind, _, _, _, hu, hl, _⟩ :=
    uvSphere_single_band ratMath unitSphere 2 4 (Submesh.empty ℚ) (by decide) (by decide)
      (by decide)
  refine ⟨res, hres, ?_⟩
  rw [hind, hu, hl]
  decide

/-- C38, counterexample: with `heightCount = 1` and `widthCount = 4294967295 ≥ 1`, the
largest `uint32_t`, the loop `for (widthIndex = 0; widthIndex <= widthCount; ++widthIndex)`
never exits, so `createUvSphere` returns for no amount of fuel: it emits no index entry at
all. -/
theorem uvSphere_single_band_max_width_diverges :
    ¬ ∃ fuel res,
      createUvSphere fuel ratMath unitSphere 4294967295 1 (Submesh.empty ℚ) = some res := by
  rintro ⟨fuel, res, h⟩
  have hnone := uvSphereVertices_max_width_none ratMath unitSphere 1 fuel
    (Submesh.empty ℚ).m_vertices
  have h32 : U32 - 1 = 4294967295 := by decide
  rw [h32] at hnone
  rw [createUvSphere, hnone] at h
  exact Option.noConfusion h

end UvSingleBand

/-! ## OFF import -/

section OffImportTheorems

/-- The first significant token is the token `operator>>` reads, and it is not an end of
line. -/
theorem nextToken_of_significant :
    ∀ {β : Type} (file : List (OffToken β)) (tok : OffToken β) (rest : List (OffToken β)),
      significant file = tok :: rest →
      tok ≠ OffToken.eol ∧
      ∃ after, nextToken file = some (tok, after) ∧ significant after = rest := by
  intro β file
  induction file with
  | nil => intro tok rest h; simp [significant] at h
  | cons head tail ih =>
    intro tok rest h
    cases head with
    | eol => exact ih tok rest h
    | int n =>
      simp only [significant, List.cons.injEq] at h
      obtain ⟨h1, h2⟩ := h
      subst h1
      exact ⟨by simp, tail, rfl, h2⟩
    | real x =>
      simp only [significant, List.cons.injEq] at h
      obtain ⟨h1, h2⟩ := h
      subst h1
      exact ⟨by simp, tail, rfl, h2⟩

variable {α : Type}

/-- The loop from `start`, one more pass. -/
theorem forFromLt_succ {σ : Type} (start m : Nat) (body : Nat → σ → σ) (s : σ) :
    forFromLt start (start + (m + 1)) body s
      = body (start + m) (forFromLt start (start + m) body s) := by
  unfold forFromLt
  rw [Nat.add_sub_cancel_left, Nat.add_sub_cancel_left, List.range'_concat,
    List.foldl_append]
  simp

/-- The extraction of a `std::size_t` from a stream that starts with an integer in
range. -/
theorem readSize_of_significant (w n : Nat) (file rest : List (OffToken α))
    (h : significant file = OffToken.int n :: rest) (hn : n < sizeMod w) :
    ∃ after, readSize w file = some (n, after) ∧ significant after = rest := by
  obtain ⟨_, after, hnext, hafter⟩ := nextToken_of_significant file _ _ h
  exact ⟨after, by simp [readSize, hnext, hn], hafter⟩

/-- The extraction of a `uint16_t` from a stream that starts with an integer in range. -/
theorem readUint16_of_significant (n : Nat) (file rest : List (OffToken α))
    (h : significant file = OffToken.int n :: rest) (hn : n < 65536) :
    ∃ after, readUint16 file = some (n, after) ∧ significant after = rest := by
  obtain ⟨_, after, hnext, hafter⟩ := nextToken_of_significant file _ _ h
  exact ⟨after, by simp [readUint16, hnext, hn], hafter⟩

/-- The element of index `k` of a face converted to `unsigned int`. -/
theorem getD_map_mod (face : List Nat) (k : Nat) :
    (face.map (fun idx => idx % U32)).getD k 0 = face.getD k 0 % U32 := by
  simp only [List.getD_eq_getElem?_getD, List.getElem?_map]
  cases face[k]? <;> simp

/-- The fan of a face of at least three indices: its first triangle, then one triangle
for each further index. -/
theorem fanTriangles_eq (face : List Nat) (h3 : 3 ≤ face.length) :
    fanTriangles face
      = [face.getD 0 0, face.getD 1 0, face.getD 2 0]
        ++ (List.range' 3 (face.length - 3)).flatMap
            (fun k => [face.getD 0 0, face.getD (k - 1) 0, face.getD k 0]) := by
  unfold fanTriangles
  have hlen : face.length - 2 = (face.length - 3) + 1 := by omega
  rw [hlen, List.range'_succ, List.flatMap_cons]

/-- The number of entries of the fan of a face. -/
theorem fanTriangles_length (face : List Nat) :
    (fanTriangles face).length = 3 * (face.length - 2) := by
  unfold fanTriangles
  generalize face.length - 2 = n
  have h : ∀ (start : Nat), ((List.range' start n).flatMap
      (fun k => [face.getD 0 0, face.getD (k - 1) 0, face.getD k 0])).length = 3 * n := by
    induction n with
    | zero => intro start; simp
    | succ n ih =>
      intro start
      rw [List.range'_succ, List.flatMap_cons, List.length_append, ih]
      simp only [List.length_cons, List.length_nil]
      omega
  exact h 2

/-- The loop of lines 36-42 on a face `face`, after its first three indices. -/
theorem offFan_loop (w : Nat) (face : List Nat) (rest : List (OffToken α))
    (hidx : ∀ idx ∈ face, idx < sizeMod w) (start : OffFaceState α)
    (hstart : ∀ j, j < 3 → start.indices j = face.getD j 0)
    (hfile : significant start.file = (face.drop 3).map OffToken.int ++ rest) :
    ∀ m, 3 + m ≤ face.length →
      ∃ fin, forFromLt 3 (3 + m)
          (fun partIndex acc => acc.bind (offFanStep w partIndex)) (some start) = some fin ∧
        (∀ j, j < 3 + m → fin.indices j = face.getD j 0) ∧
        fin.out = start.out ++ (List.range' 3 m).flatMap
          (fun k => [face.getD 0 0 % U32, face.getD (k - 1) 0 % U32, face.getD k 0 % U32]) ∧
        significant fin.file = (face.drop (3 + m)).map OffToken.int ++ rest := by
  intro m
  induction m with
  | zero =>
    intro _
    refine ⟨start, ?_, hstart, by simp, hfile⟩
    simp [forFromLt]
  | succ m ih =>
    intro hm
    obtain ⟨fin, hloop, hind, hout, hstream⟩ := ih (by omega)
    have hlt : 3 + m < face.length := by omega
    have hdrop : face.drop (3 + m) = face[3 + m] :: face.drop (3 + m + 1) :=
      List.drop_eq_getElem_cons hlt
    rw [hdrop, List.map_cons, List.cons_append] at hstream
    obtain ⟨after, hread, hafter⟩ := readSize_of_significant w _ _ _ hstream
      (hidx _ (List.getElem_mem hlt))
    have hget : face.getD (3 + m) 0 = face[3 + m] := by
      simp [List.getD_eq_getElem?_getD, List.getElem?_eq_getElem hlt]
    refine ⟨{ indices := Function.update fin.indices (3 + m) face[3 + m]
              out := fin.out ++
                [Function.update fin.indices (3 + m) face[3 + m] 0 % U32,
                 Function.update fin.indices (3 + m) face[3 + m] (3 + m - 1) % U32,
                 Function.update fin.indices (3 + m) face[3 + m] (3 + m) % U32]
              file := after }, ?_, ?_, ?_, ?_⟩
    · rw [forFromLt_succ, hloop]
      simp only [Option.some_bind, offFanStep, hread]
    · intro j hj
      by_cases hj2 : j = 3 + m
      · subst hj2
        show Function.update fin.indices (3 + m) face[3 + m] (3 + m) = _
        rw [Function.update_same, hget]
      · simp only [Function.update_noteq hj2]
        exact hind j (by omega)
    · simp only
      rw [hout, List.range'_concat, List.flatMap_append, List.append_assoc]
      congr 1
      have h0 : (0 : Nat) ≠ 3 + m := by omega
      have h1 : 3 + m - 1 ≠ 3 + m := by omega
      simp only [List.flatMap_cons, List.flatMap_nil, List.append_nil,
        Function.update_noteq h0, Function.update_noteq h1, Function.update_same,
        Nat.one_mul, hind 0 (by omega), hind (3 + m - 1) (by omega), hget]
    · exact hafter

/-- One pass of the face loop on a stream that starts with a face line of `n ≥ 3`
indices: the fan of the face is appended, each index converted to `unsigned int`. -/
theorem offReadFace_of_significant (w : Nat) (face : List Nat) (out : List Nat)
    (file rest : List (OffToken α))
    (h3 : 3 ≤ face.length) (h16 : face.length < 65536)
    (hidx : ∀ idx ∈ face, idx < sizeMod w)
    (h : significant file = (OffToken.int face.length :: face.map OffToken.int) ++ rest) :
    ∃ after, offReadFace w (out, file)
        = some (out ++ fanTriangles (face.map (fun idx => idx % U32)), after) ∧
      significant after = rest := by
  obtain ⟨i0, i1, i2, more, hface⟩ : ∃ i0 i1 i2 more, face = i0 :: i1 :: i2 :: more := by
    match face, h3 with
    | i0 :: i1 :: i2 :: more, _ => exact ⟨i0, i1, i2, more, rfl⟩
  obtain ⟨sc, hc, hsc⟩ := readUint16_of_significant face.length file _ h h16
  have hsc2 : significant sc
      = OffToken.int i0 :: OffToken.int i1 :: OffToken.int i2
          :: (more.map OffToken.int ++ rest) := by
    rw [hsc, hface]
    rfl
  obtain ⟨s0, hr0, hs0⟩ := readSize_of_significant w i0 sc _ hsc2
    (hidx i0 (by rw [hface]; simp))
  obtain ⟨s1, hr1, hs1⟩ := readSize_of_significant w i1 s0 _ hs0
    (hidx i1 (by rw [hface]; simp))
  obtain ⟨s2, hr2, hs2⟩ := readSize_of_significant w i2 s1 _ hs1
    (hidx i2 (by rw [hface]; simp))
  have hloop := offFan_loop w face rest hidx
    { indices := Function.update (Function.update (Function.update (fun _ => 0) 0 i0) 1 i1)
        2 i2
      out := out ++ [i0 % U32, i1 % U32, i2 % U32]
      file := s2 }
    (by
      intro j hj
      rw [hface]
      interval_cases j <;> simp [Function.update])
    (by rw [hs2, hface]; rfl)
    (face.length - 3) (by omega)
  obtain ⟨fin, hfin, _, hout, hstream⟩ := hloop
  have hcount : 3 + (face.length - 3) = face.length := by omega
  rw [hcount] at hfin hstream
  refine ⟨fin.file, ?_, ?_⟩
  · have hnot : ¬ face.length < 3 := by omega
    simp only [offReadFace, hc, Option.some_bind, hnot, if_false, hr0, hr1, hr2]
    rw [show (Function.update (Function.update (Function.update (fun _ => 0) 0 i0) 1 i1)
        2 i2 : Nat → Nat) 0 = i0 from by simp [Function.update],
      show (Function.update (Function.update (Function.update (fun _ => 0) 0 i0) 1 i1)
        2 i2 : Nat → Nat) 1 = i1 from by simp [Function.update],
      show (Function.update (Function.update (Function.update (fun _ => 0) 0 i0) 1 i1)
        2 i2 : Nat → Nat) 2 = i2 from by simp [Function.update]]
    rw [hfin, Option.map_some', hout, fanTriangles_eq _ (by rw [List.length_map]; exact h3),
      List.length_map, List.append_assoc]
    simp only [getD_map_mod]
    rw [hface]
    rfl
  · rw [hstream, List.drop_length]
    rfl

/-- The face loop on a stream that starts with the lines of `faces`: after `n` passes the
fans of the first `n` faces are appended, in order. -/
theorem offFace_loop (w : Nat) (faces : List (List Nat)) (trailing file : List (OffToken α))
    (out : List Nat)
    (hfaces : ∀ face ∈ faces,
      3 ≤ face.length ∧ face.length < 65536 ∧ ∀ idx ∈ face, idx < sizeMod w)
    (hfile : significant file
      = faces.flatMap (fun face => OffToken.int face.length :: face.map OffToken.int)
          ++ trailing) :
    ∀ n, n ≤ faces.length →
      ∃ after, forLt n (fun _ st => st.bind (offReadFace w)) (some (out, file))
        = some (out ++ (faces.take n).flatMap
            (fun face => fanTriangles (face.map (fun idx => idx % U32))), after) ∧
        significant after
          = (faces.drop n).flatMap
              (fun face => OffToken.int face.length :: face.map OffToken.int)
            ++ trailing := by
  intro n
  induction n with
  | zero =>
    intro _
    exact ⟨file, by simp [forLt], by simpa using hfile⟩
  | succ n ih =>
    intro hn
    obtain ⟨after, hloop, hstream⟩ := ih (by omega)
    have hlt : n < faces.length := by omega
    have hdrop : faces.drop n = faces[n] :: faces.drop (n + 1) :=
      List.drop_eq_getElem_cons hlt
    rw [hdrop, List.flatMap_cons, List.append_assoc] at hstream
    obtain ⟨h3, h16, hidx⟩ := hfaces faces[n] (List.getElem_mem hlt)
    obtain ⟨after2, hread, hafter2⟩ := offReadFace_of_significant w faces[n]
      (out ++ (faces.take n).flatMap
        (fun face => fanTriangles (face.map (fun idx => idx % U32))))
      after _ h3 h16 hidx hstream
    refine ⟨after2, ?_, hafter2⟩
    rw [forLt_succ, hloop, Option.some_bind, hread, List.take_succ,
      List.getElem?_eq_getElem hlt, List.flatMap_append, List.append_assoc]
    simp

variable [LinearOrderedField α]

/-- The extraction of a `float` from a stream that starts with a number. -/
theorem readFloat_of_significant (tok : OffToken α) (file rest : List (OffToken α))
    (h : significant file = tok :: rest) :
    ∃ after, readFloat file = some (tok.toFloat, after) ∧ significant after = rest := by
  obtain ⟨hne, after, hnext, hafter⟩ := nextToken_of_significant file _ _ h
  refine ⟨after, ?_, hafter⟩
  cases tok with
  | eol => exact absurd rfl hne
  | int n => simp [readFloat, hnext, OffToken.toFloat]
  | real x => simp [readFloat, hnext, OffToken.toFloat]

/-- One pass of the vertex loop on a stream that starts with three numbers. -/
theorem offReadVertex_of_significant (vertexIndex : Nat) (vertices : List (Vertex α))
    (vert : Vertex α) (file rest : List (OffToken α)) (a b c : OffToken α)
    (hvert : vertices[vertexIndex]? = some vert)
    (h : significant file = a :: b :: c :: rest) :
    ∃ after, offReadVertex vertexIndex (vertices, file)
        = some (vertices.set vertexIndex
            { vert with position := ![a.toFloat, b.toFloat, c.toFloat] }, after) ∧
      significant after = rest := by
  obtain ⟨s1, h1, hs1⟩ := readFloat_of_significant a file _ h
  obtain ⟨s2, h2, hs2⟩ := readFloat_of_significant b s1 _ hs1
  obtain ⟨s3, h3, hs3⟩ := readFloat_of_significant c s2 _ hs2
  exact ⟨s3, by simp [offReadVertex, hvert, h1, h2, h3], hs3⟩

/-- The vertex loop on a vector of `total` value-initialised vertices, for a stream that
starts with the coordinates of `positions`: after `n` passes the first `n` vertices have
the positions read, in the order of the file. -/
theorem offVertex_loop (positions : List (OffToken α × OffToken α × OffToken α))
    (rest body : List (OffToken α)) (total : Nat)
    (hbody : significant body
      = positions.flatMap (fun p => [p.1, p.2.1, p.2.2]) ++ rest)
    (htotal : positions.length ≤ total) :
    ∀ n, n ≤ positions.length →
      ∃ after, forLt n (fun vertexIndex st => st.bind (offReadVertex vertexIndex))
          (some (List.replicate total (Vertex.init α), body))
        = some ((positions.take n).map (fun p =>
              { Vertex.init α with
                position := ![p.1.toFloat, p.2.1.toFloat, p.2.2.toFloat] })
            ++ List.replicate (total - n) (Vertex.init α), after) ∧
        significant after
          = (positions.drop n).flatMap (fun p => [p.1, p.2.1, p.2.2]) ++ rest := by
  intro n
  induction n with
  | zero =>
    intro _
    exact ⟨body, by simp [forLt], by simpa using hbody⟩
  | succ n ih =>
    intro hn
    obtain ⟨after, hloop, hstream⟩ := ih (by omega)
    have hlt : n < positions.length := by omega
    have hdrop : positions.drop n = positions[n] :: positions.drop (n + 1) :=
      List.drop_eq_getElem_cons hlt
    rw [hdrop, List.flatMap_cons] at hstream
    have hrep : List.replicate (total - n) (Vertex.init α)
        = Vertex.init α :: List.replicate (total - (n + 1)) (Vertex.init α) := by
      have : total - n = (total - (n + 1)) + 1 := by omega
      rw [this, List.replicate_succ]
    have hlenA : ((positions.take n).map (fun p =>
        ({ Vertex.init α with
          position := ![p.1.toFloat, p.2.1.toFloat, p.2.2.toFloat] } : Vertex α))).length
        = n := by
      rw [List.length_map, List.length_take]
      omega
    obtain ⟨after2, hread, hafter2⟩ := offReadVertex_of_significant n
      ((positions.take n).map (fun p =>
          ({ Vertex.init α with
            position := ![p.1.toFloat, p.2.1.toFloat, p.2.2.toFloat] } : Vertex α))
        ++ List.replicate (total - n) (Vertex.init α))
      (Vertex.init α) after _ positions[n].1 positions[n].2.1 positions[n].2.2
      (by
        rw [List.getElem?_append_right (by omega), hlenA, Nat.sub_self, hrep,
          List.getElem?_cons_zero])
      hstream
    refine ⟨after2, ?_, hafter2⟩
    rw [forLt_succ, hloop, Option.some_bind, hread]
    congr 2
    rw [List.set_append_right _ _ (by omega), hlenA, Nat.sub_self, hrep, List.set_cons_zero,
      List.take_succ, List.getElem?_eq_getElem hlt, List.map_append, List.append_assoc]
    rfl

/-- The mesh `importOff` returns for a well-formed file: a header that declares
`vertexCount` vertices and `faceCount` faces, the rest of the header line, three numbers
for each vertex and, for each face, its number of indices (between 3 and 65535) followed by
its indices; the first submesh has no vertex before the call. -/
theorem importOff_of_wellFormed (w : Nat) (mesh : Mesh α) (first : Submesh α)
    (rest : List (Submesh α)) (file afterVertexCount afterFaceCount : List (OffToken α))
    (vertexCount faceCount : Nat) (positions : List (OffToken α × OffToken α × OffToken α))
    (faces : List (List Nat)) (trailing : List (OffToken α))
    (hfront : mesh.m_submeshes ++ [Submesh.empty α] = first :: rest)
    (hempty : first.m_vertices = [])
    (hV : readSize w file = some (vertexCount, afterVertexCount))
    (hF : readSize w afterVertexCount = some (faceCount, afterFaceCount))
    (hbody : significant (ignoreLine afterFaceCount)
      = positions.flatMap (fun p => [p.1, p.2.1, p.2.2])
        ++ (faces.flatMap (fun face => OffToken.int face.length :: face.map OffToken.int)
          ++ trailing))
    (hVlen : positions.length = vertexCount) (hFlen : faces.length = faceCount)
    (hsize : vertexCount * 3 < sizeMod w)
    (hfaces : ∀ face ∈ faces,
      3 ≤ face.length ∧ face.length < 65536 ∧ ∀ idx ∈ face, idx < sizeMod w) :
    importOff w mesh file
      = some { mesh with
          m_submeshes :=
            { first with
              m_vertices := positions.map (fun p =>
                  { Vertex.init α with
                    position := ![p.1.toFloat, p.2.1.toFloat, p.2.2.toFloat] })
                ++ List.replicate (2 * vertexCount) (Vertex.init α)
              m_indices := first.m_indices ++ faces.flatMap
                (fun face => fanTriangles (face.map (fun idx => idx % U32))) } :: rest } := by
  obtain ⟨s4, hverts, hs4⟩ := offVertex_loop positions _ (ignoreLine afterFaceCount)
    (vertexCount * 3) hbody (by omega) vertexCount (by omega)
  rw [← hVlen, List.drop_length, List.flatMap_nil, List.nil_append] at hs4
  obtain ⟨s5, hfacesLoop, _⟩ := offFace_loop w faces trailing s4 first.m_indices hfaces hs4
    faceCount (by omega)
  have htake : positions.take vertexCount = positions := by
    rw [← hVlen, List.take_length]
  have htakeF : faces.take faceCount = faces := by
    rw [← hFlen, List.take_length]
  have hcount : vertexCount * 3 - vertexCount = 2 * vertexCount := by omega
  rw [htake, hcount] at hverts
  rw [htakeF] at hfacesLoop
  unfold importOff
  rw [hfront]
  simp only [hV, hF, Option.some_bind, vectorResize, hempty, List.take_nil, List.nil_append,
    List.length_nil, Nat.sub_zero, Nat.mod_eq_of_lt hsize, hverts, hfacesLoop,
    Option.map_some']

/-- C39: for a well-formed file, `importOff` returns a mesh to whose first submesh it
appended, face after face in the order of the file, the fan of each face
`i0, i1, ..., i(n-1)`: the triangles `(i0, i(k-1), i(k))` for `k = 2, ..., n-1`, each index
converted to `unsigned int`; that is `3 * (n - 2)` entries for a face of `n` indices, the
sum of these numbers for the file; a face of three indices below `U32` is appended as it
is. -/
theorem importOff_fan_triangulation (w : Nat) (mesh : Mesh α) (first : Submesh α)
    (rest : List (Submesh α)) (file afterVertexCount afterFaceCount : List (OffToken α))
    (vertexCount faceCount : Nat) (positions : List (OffToken α × OffToken α × OffToken α))
    (faces : List (List Nat)) (trailing : List (OffToken α))
    (hfront : mesh.m_submeshes ++ [Submesh.empty α] = first :: rest)
    (hempty : first.m_vertices = [])
    (hV : readSize w file = some (vertexCount, afterVertexCount))
    (hF : readSize w afterVertexCount = some (faceCount, afterFaceCount))
    (hbody : significant (ignoreLine afterFaceCount)
      = positions.flatMap (fun p => [p.1, p.2.1, p.2.2])
        ++ (faces.flatMap (fun face => OffToken.int face.length :: face.map OffToken.int)
          ++ trailing))
    (hVlen : positions.length = vertexCount) (hFlen : faces.length = faceCount)
    (hsize : vertexCount * 3 < sizeMod w)
    (hfaces : ∀ face ∈ faces,
      3 ≤ face.length ∧ face.length < 65536 ∧ ∀ idx ∈ face, idx < sizeMod w) :
    ∃ res first2 rest2, importOff w mesh file = some res ∧
      res.m_submeshes = first2 :: rest2 ∧
      first2.m_indices = first.m_indices ++ faces.flatMap
        (fun face => fanTriangles (face.map (fun idx => idx % U32))) ∧
      (∀ face : List Nat, fanTriangles face
        = (List.range' 2 (face.length - 2)).flatMap
            (fun k => [face.getD 0 0, face.getD (k - 1) 0, face.getD k 0])) ∧
      (∀ face : List Nat, (fanTriangles face).length = 3 * (face.length - 2)) ∧
      first2.m_indices.length
        = first.m_indices.length + (faces.map (fun face => 3 * (face.length - 2))).sum ∧
      (∀ face : List Nat, (∀ idx ∈ face, idx < U32) →
        face.map (fun idx => idx % U32) = face) ∧
      (∀ a b c : Nat, fanTriangles [a, b, c] = [a, b, c]) := by
  have hlen : ∀ l : List (List Nat),
      (l.flatMap (fun face => fanTriangles (face.map (fun idx => idx % U32)))).length
        = (l.map (fun face => 3 * (face.length - 2))).sum := by
    intro l
    induction l with
    | nil => rfl
    | cons face l ih =>
      rw [List.flatMap_cons, List.length_append, ih, fanTriangles_length, List.length_map,
        List.map_cons, List.sum_cons]
  refine ⟨_, _, _, importOff_of_wellFormed w mesh first rest file afterVertexCount afterFaceCount vertexCount
    faceCount positions faces trailing hfront hempty hV hF hbody hVlen hFlen hsize hfaces, rfl, rfl, fun _ => rfl, fanTriangles_length,
    ?_, ?_, fun _ _ _ => rfl⟩
  · simp only [List.length_append, hlen]
  · intro face hface
    have h : ∀ idx ∈ face, idx % U32 = idx := fun idx hidx =>
      Nat.mod_eq_of_lt (hface idx hidx)
    rw [List.map_congr_left h, List.map_id']

/-- C40 (amended): for a well-formed file whose header declares `vertexCount` vertices,
read into a first submesh without vertices, `importOff` returns a mesh whose first submesh has
`3 * vertexCount` vertices: the first `vertexCount` ones are value-initialised vertices
with the positions read, in the order of the file, the `2 * vertexCount` others are
value-initialised vertices, all their components zero. -/
theorem importOff_vertex_count (w : Nat) (mesh : Mesh α) (first : Submesh α)
    (rest : List (Submesh α)) (file afterVertexCount afterFaceCount : List (OffToken α))
    (vertexCount faceCount : Nat) (positions : List (OffToken α × OffToken α × OffToken α))
    (faces : List (List Nat)) (trailing : List (OffToken α))
    (hfront : mesh.m_submeshes ++ [Submesh.empty α] = first :: rest)
    (hempty : first.m_vertices = [])
    (hV : readSize w file = some (vertexCount, afterVertexCount))
    (hF : readSize w afterVertexCount = some (faceCount, afterFaceCount))
    (hbody : significant (ignoreLine afterFaceCount)
      = positions.flatMap (fun p => [p.1, p.2.1, p.2.2])
        ++ (faces.flatMap (fun face => OffToken.int face.length :: face.map OffToken.int)
          ++ trailing))
    (hVlen : positions.length = vertexCount) (hFlen : faces.length = faceCount)
    (hsize : vertexCount * 3 < sizeMod w)
    (hfaces : ∀ face ∈ faces,
      3 ≤ face.length ∧ face.length < 65536 ∧ ∀ idx ∈ face, idx < sizeMod w) :
    ∃ res first2 rest2, importOff w mesh file = some res ∧
      res.m_submeshes = first2 :: rest2 ∧
      first2.m_vertices.length = 3 * vertexCount ∧
      first2.m_vertices = positions.map (fun p =>
          { Vertex.init α with position := ![p.1.toFloat, p.2.1.toFloat, p.2.2.toFloat] })
        ++ List.replicate (2 * vertexCount) (Vertex.init α) ∧
      (∀ k, k < vertexCount → first2.m_vertices[k]? = positions[k]?.map (fun p =>
          { Vertex.init α with
            position := ![p.1.toFloat, p.2.1.toFloat, p.2.2.toFloat] })) ∧
      (∀ k, vertexCount ≤ k → k < 3 * vertexCount →
        first2.m_vertices[k]? = some (Vertex.init α)) ∧
      Vertex.init α = ⟨Vector.fill 0, Vector.fill 0, Vector.fill 0, Vector.fill 0⟩ := by
  refine ⟨_, _, _, importOff_of_wellFormed w mesh first rest file afterVertexCount afterFaceCount vertexCount
    faceCount positions faces trailing hfront hempty hV hF hbody hVlen hFlen hsize hfaces, rfl, ?_, rfl, ?_, ?_, rfl⟩
  · simp only [List.length_append, List.length_map, List.length_replicate, hVlen]
    omega
  · intro k hk
    simp only
    rw [List.getElem?_append_left (by rw [List.length_map, hVlen]; exact hk),
      List.getElem?_map]
  · intro k hk1 hk2
    simp only
    rw [List.getElem?_append_right (by rw [List.length_map, hVlen]; exact hk1),
      List.length_map, hVlen, List.getElem?_replicate, if_pos (by omega)]

/-- C39, witness: the file `sampleOff`, a quad and a triangle. -/
theorem importOff_fan_triangulation_witness :
    ∃ res first2 rest2, importOff 64 noSubmeshMesh sampleOff = some res ∧
      res.m_submeshes = first2 :: rest2 ∧
      first2.m_indices = [0, 1, 2, 0, 2, 3, 0, 1, 2] := by
  obtain ⟨res, first2, rest2, h1, h2, h3, _⟩ := importOff_fan_triangulation 64 noSubmeshMesh (Submesh.empty ℚ) [] sampleOff
    (sampleOff.drop 2) (sampleOff.drop 3) 4 2
    [ (OffToken.int 0, OffToken.int 0, OffToken.int 0),
      (OffToken.int 1, OffToken.int 0, OffToken.int 0),
      (OffToken.int 1, OffToken.int 1, OffToken.int 0),
      (OffToken.int 0, OffToken.real (1 / 2), OffToken.int 0) ]
    [[0, 1, 2, 3], [0, 1, 2]] [] rfl rfl rfl rfl rfl rfl rfl (by norm_num [sizeMod])
    (by simp [sizeMod])
  refine ⟨res, first2, rest2, h1, h2, ?_⟩
  rw [h3]
  decide

/-- C40, witness: the file `sampleOff`, of four vertices, gives twelve vertices. -/
theorem importOff_vertex_count_witness :
    ∃ res first2 rest2, importOff 64 noSubmeshMesh sampleOff = some res ∧
      res.m_submeshes = first2 :: rest2 ∧
      first2.m_vertices.length = 3 * 4 := by
  obtain ⟨res, first2, rest2, h1, h2, h3, _⟩ := importOff_vertex_count 64 noSubmeshMesh (Submesh.empty ℚ) [] sampleOff
    (sampleOff.drop 2) (sampleOff.drop 3) 4 2
    [ (OffToken.int 0, OffToken.int 0, OffToken.int 0),
      (OffToken.int 1, OffToken.int 0, OffToken.int 0),
      (OffToken.int 1, OffToken.int 1, OffToken.int 0),
      (OffToken.int 0, OffToken.real (1 / 2), OffToken.int 0) ]
    [[0, 1, 2, 3], [0, 1, 2]] [] rfl rfl rfl rfl rfl rfl rfl (by norm_num [sizeMod])
    (by simp [sizeMod])
  exact ⟨res, first2, rest2, h1, h2, h3⟩

/-- C40, counterexample: `importOff` run on the mesh `prefilledMesh`, whose first submesh
already has three vertices, with a file that declares one vertex: `resize(3)` keeps the
three vertices, the vertex loop overwrites the position of the first one, and the two
others are `(8, 8, 8)` and `(9, 9, 9)`, not value-initialised vertices. -/
theorem importOff_prefilled_submesh :
    ∃ res first2 rest2, importOff 64 prefilledMesh singleVertexOff = some res ∧
      res.m_submeshes = first2 :: rest2 ∧
      first2.m_vertices.length = 3 * 1 ∧
      first2.m_vertices.map (fun vert => (vert.position 0, vert.position 1, vert.position 2))
        = [(1, 2, 3), (8, 8, 8), (9, 9, 9)] ∧
      first2.m_vertices[1]? ≠ some (Vertex.init ℚ) ∧
      first2.m_vertices[2]? ≠ some (Vertex.init ℚ) := by
  refine ⟨{ prefilledMesh with
      m_submeshes :=
        [⟨[{ vertexAt 7 7 7 with position := ![1, 2, 3] }, vertexAt 8 8 8, vertexAt 9 9 9],
          [], 0⟩, Submesh.empty ℚ] },
    ⟨[{ vertexAt 7 7 7 with position := ![1, 2, 3] }, vertexAt 8 8 8, vertexAt 9 9 9], [], 0⟩,
    [Submesh.empty ℚ], rfl, rfl, rfl, rfl, ?_, ?_⟩
  · intro h
    have h0 := congrArg (Option.map (fun vert : Vertex ℚ => vert.position 0)) h
    simp [vertexAt, Vertex.init, Vector.fill] at h0
  · intro h
    have h0 := congrArg (Option.map (fun vert : Vertex ℚ => vert.position 0)) h
    simp [vertexAt, Vertex.init, Vector.fill] at h0

end OffImportTheorems

end Raz
